import Mathlib

/-!
Verification of the metadata-resolution and thumbnail-caching pipeline of
SuperAppCommonLib (shallow embedding of `src/exif_io/writer.py`,
`src/exif_io/reader.py`, `src/file_browser/_browser.py`, `src/report_db.py`).

Python dict-shaped records are embedded as insertion-ordered association
lists; Python scalar values as `PVal` (None / str / int / float-as-rational);
external collaborators (the exiftool executable, the XMP sidecar files on
disk, the PIL / Qt image libraries) are embedded as explicit environments
supplying their per-path outputs.
-/

namespace Spec2Proof

/-- Model of a Python scalar value as it appears in the tag dictionaries and
report-database rows of this code base: `None`, `str`, `int`, or `float`
(floats are embedded as rationals; their decimal rendering is approximated). -/
inductive PVal where
  | vnone
  | vstr (s : String)
  | vint (n : Int)
  | vrat (q : Rat)
deriving DecidableEq, Repr

namespace PVal

/-- Python truthiness of a scalar: `None`, `""`, `0` and `0.0` are falsy. -/
def truthy : PVal → Bool
  | vnone => false
  | vstr s => s ≠ ""
  | vint n => n ≠ 0
  | vrat q => q ≠ 0

end PVal

open PVal

/-- Python `a or b` on scalars. -/
def pyOr (a b : PVal) : PVal := if a.truthy then a else b

/-! #### Character-level string helpers

Structural-recursion replacements for the core `String` operations (whose
position-based implementations do not reduce inside the kernel), so that
every definition below evaluates on concrete inputs. -/

/-- Strip leading and trailing whitespace (`str.strip()`; CPython also
strips a few more Unicode spaces, irrelevant to the data handled here). -/
def pyStrip (s : String) : String :=
  String.mk (((s.data.dropWhile Char.isWhitespace).reverse.dropWhile
    Char.isWhitespace).reverse)

/-- ASCII `str.lower()` (CPython also folds non-ASCII letters; the strings
compared after lowering in this code base are ASCII). -/
def pyLower (s : String) : String := String.mk (s.data.map Char.toLower)

/-- ASCII `str.upper()`. -/
def pyUpper (s : String) : String := String.mk (s.data.map Char.toUpper)

/-- `str.startswith`. -/
def strStarts (s pre : String) : Bool := decide (s.data.take pre.data.length = pre.data)

/-- `str.endswith`. -/
def strEnds (s suf : String) : Bool :=
  decide (s.data.drop (s.data.length - suf.data.length) = suf.data)
    ∧ decide (suf.data.length ≤ s.data.length)

/-- Split a character list on a separator character. -/
def splitOnChar (sep : Char) : List Char → List (List Char)
  | [] => [[]]
  | c :: rest =>
    let parts := splitOnChar sep rest
    if c = sep then [] :: parts
    else
      match parts with
      | [] => [[c]]
      | p :: ps => (c :: p) :: ps

/-- `str.split(sep)` for a one-character separator. -/
def pySplit (s : String) (sep : Char) : List String :=
  (splitOnChar sep s.data).map String.mk

/-- `sep.join(parts)`. -/
def joinWith (sep : String) (parts : List String) : String :=
  match parts with
  | [] => ""
  | p :: ps => ps.foldl (fun acc q => acc ++ sep ++ q) p

/-- Truncated division of an integer by a positive natural, rounding toward
zero (the semantics of Python `int(float)`). -/
def intTruncDiv (a : Int) (b : Nat) : Int :=
  if 0 ≤ a then Int.ofNat (a.toNat / b) else - Int.ofNat (a.natAbs / b)

/-- Truncation of a rational toward zero. -/
def ratTrunc (q : Rat) : Int := intTruncDiv q.num q.den

/-- Floor division of an integer by a positive natural. -/
def intFloorDiv (a : Int) (b : Nat) : Int := Int.ediv a (Int.ofNat b)

/-- Floor of a rational. -/
def ratFloor (q : Rat) : Int := intFloorDiv q.num q.den

/-- Decimal rendering of a rational, used to approximate Python `str(float)`:
sign, integer part, and up to six truncated fraction digits with trailing
zeros stripped (at least one fraction digit, as Python always prints one). -/
def ratToDecimalString (q : Rat) : String :=
  let sign := if q.num < 0 then "-" else ""
  let na := q.num.natAbs
  let ip := na / q.den
  let r0 := na % q.den
  let step : Nat × List Nat → Nat × List Nat := fun (r, ds) =>
    ((r * 10) % q.den, ds ++ [(r * 10) / q.den])
  let (_, digits) := (List.range 6).foldl (fun acc _ => step acc) (r0, [])
  let trimmed := (digits.reverse.dropWhile (· = 0)).reverse
  let fracDigits := if trimmed = [] then [0] else trimmed
  let fracStr := String.join (fracDigits.map (fun d => toString d))
  sign ++ toString ip ++ "." ++ fracStr

/-- Python `str()` of a scalar (`str(None) = "None"`). -/
def pyStr : PVal → String
  | vnone => "None"
  | vstr s => s
  | vint n => toString n
  | vrat q => ratToDecimalString q

/-- Digits of a string as a natural number, `none` if empty or non-digit. -/
def digitsToNat? (cs : List Char) : Option Nat :=
  if cs = [] then none
  else cs.foldl (fun acc c =>
    match acc with
    | none => none
    | some n => if c.isDigit then some (n * 10 + (c.toNat - 48)) else none)
    (some 0)

/-- Model of Python `int(s)` on a string: optional surrounding whitespace,
optional sign, one or more digits; anything else raises (`none`). -/
def pyIntOfString? (s : String) : Option Int :=
  let cs := (pyStrip s).data
  match cs with
  | '-' :: rest => (digitsToNat? rest).map (fun n => -(n : Int))
  | '+' :: rest => (digitsToNat? rest).map (fun n => (n : Int))
  | _ => (digitsToNat? cs).map (fun n => (n : Int))

/-- Split a digit run `cs` at the first `.` into integer and fraction parts. -/
def splitAtDot (cs : List Char) : List Char × Option (List Char) :=
  match cs.findIdx? (· = '.') with
  | none => (cs, none)
  | some i => (cs.take i, some ((cs.drop i).tail))

/-- Mantissa and fraction-digit count of an unsigned decimal literal:
`"12.34"` gives `(1234, 2)`; needs at least one digit overall. -/
def parseMantissa? (cs : List Char) : Option (Nat × Nat) :=
  let (ipcs, fp?) := splitAtDot cs
  match fp? with
  | none => (digitsToNat? ipcs).map (fun n => (n, 0))
  | some fpcs =>
    if ipcs = [] ∧ fpcs = [] then none
    else if ¬ (ipcs.all Char.isDigit ∧ fpcs.all Char.isDigit) then none
    else
      match digitsToNat? (ipcs ++ fpcs) with
      | some m => some (m, fpcs.length)
      | none =>
        if ipcs = [] then (digitsToNat? fpcs).map (fun m => (m, fpcs.length))
        else if fpcs = [] then (digitsToNat? ipcs).map (fun m => (m, 0))
        else none

/-- Apply a signed decimal exponent to a rational. -/
def applyExp (q : Rat) (e : Int) : Rat :=
  if 0 ≤ e then q * (10 : Rat) ^ e.toNat else q / (10 : Rat) ^ (-e).toNat

/-- Model of Python `float(s)` on a string: optional whitespace and sign, a
decimal literal with optional fraction and optional exponent. `inf` / `nan`
are mapped to `none`, which at every call site below lands in the same
`except`-branch as a parse failure does. -/
def pyFloatOfString? (s : String) : Option Rat :=
  let cs := (pyStrip s).data
  let (sgn, rest) :=
    match cs with
    | '-' :: r => (true, r)
    | '+' :: r => (false, r)
    | r => (false, r)
  let (mant, expPart) :=
    match rest.findIdx? (fun c => c = 'e' ∨ c = 'E') with
    | none => (rest, none)
    | some i => (rest.take i, some ((rest.drop i).tail))
  let exp? : Option Int :=
    match expPart with
    | none => some 0
    | some ecs =>
      match ecs with
      | '-' :: er => (digitsToNat? er).map (fun n => -(n : Int))
      | '+' :: er => (digitsToNat? er).map (fun n => (n : Int))
      | _ => (digitsToNat? ecs).map (fun n => (n : Int))
  match parseMantissa? mant, exp? with
  | some (m, k), some e =>
    let base : Rat := (m : Rat) / (10 : Rat) ^ k
    some (applyExp (if sgn then -base else base) e)
  | _, _ => none

/-- Python `float()` of a scalar (used under `float(str(x))` below). -/
def pyFloatOfVal? (v : PVal) : Option Rat :=
  match v with
  | vint n => some (n : Rat)
  | vrat q => some q
  | vstr s => pyFloatOfString? s
  | vnone => none

/-- Model of the Python idiom `int(float(str(x or 0)))` with any exception
giving the fallback `0` — the conversion `_browser.py` applies to ratings
and flags. -/
def pyIntFloatStr (v : PVal) : Int :=
  match pyFloatOfString? (pyStr (pyOr v (vint 0))) with
  | some q => ratTrunc q
  | none => 0

/-! ### Path model (POSIX flavour of `os.path` / `pathlib`) -/

/-- One step of `posixpath.normpath`'s component loop. -/
def normpathStep (rooted : Bool) (acc : List String) (comp : String) : List String :=
  if comp = "" ∨ comp = "." then acc
  else if comp ≠ ".." ∨ (¬ rooted ∧ acc = []) ∨ (acc ≠ [] ∧ acc.getLast? = some "..") then
    acc ++ [comp]
  else if acc ≠ [] then acc.dropLast
  else acc

/-- `posixpath.normpath`: collapse empty and `.` components, resolve `..`
where possible, preserve a leading `/` (doubled `//` kept as in CPython). -/
def os_path_normpath (path : String) : String :=
  if path = "" then "."
  else
    let rooted := strStarts path "/"
    let slashes : Nat :=
      if rooted then
        if strStarts path "//" ∧ ¬ strStarts path "///" then 2 else 1
      else 0
    let comps := pySplit path '/'
    let kept := comps.foldl (normpathStep rooted) []
    let body := joinWith "/" kept
    let out := String.join (List.replicate slashes "/") ++ body
    if out = "" then "." else out

/-- `os.path.normcase` on POSIX is the identity (the embedding models the
POSIX platform; no case folding, no separator rewriting). -/
def os_path_normcase (path : String) : String := path

/-- `posixpath.isabs`. -/
def os_path_isabs (path : String) : Bool := strStarts path "/"

/-- `posixpath.join` restricted to two operands. -/
def os_path_join (a b : String) : String :=
  if strStarts b "/" then b
  else if a = "" ∨ strEnds a "/" then a ++ b
  else a ++ "/" ++ b

/-- Final path component as `pathlib` computes it: split on `/`, drop empty
and `.` entries, take the last (empty for the bare root). -/
def pathlibName (path : String) : String :=
  ((pySplit path '/').filter (fun c => c ≠ "" ∧ c ≠ ".")).getLast?.getD ""

/-- Index of the last `.` of a character list, if any. -/
def lastDotIdx? (cs : List Char) : Option Nat :=
  (cs.reverse.findIdx? (· = '.')).map (fun j => cs.length - 1 - j)

/-- `pathlib.PurePath.stem`: name without its suffix; the suffix exists only
when the last dot sits strictly inside the name. -/
def pathlibStem (path : String) : String :=
  let name := pathlibName path
  match lastDotIdx? name.toList with
  | some i => if 0 < i ∧ i < name.length - 1 then String.mk (name.toList.take i) else name
  | none => name

/-- `pathlib.PurePath.suffix`. -/
def pathlibSuffix (path : String) : String :=
  let name := pathlibName path
  match lastDotIdx? name.toList with
  | some i => if 0 < i ∧ i < name.length - 1 then String.mk (name.toList.drop i) else ""
  | none => ""

/-! ### Python dict model: insertion-ordered association lists -/

/-- Insertion-ordered string-keyed association list: the embedding of a
CPython `dict[str, _]` (which preserves insertion order; assignment to an
existing key keeps its position). -/
def PyDict (α : Type) : Type := List (String × α)

namespace PyDict

/-- The empty dict. -/
def empty : PyDict α := ([] : List (String × α))

/-- `d.get(k)` as an `Option`. -/
def get? (m : PyDict α) (k : String) : Option α :=
  match m with
  | ([] : List (String × α)) => none
  | kv :: rest => if kv.1 = k then some kv.2 else get? rest k

/-- `d[k] = v`: replace in place when the key exists, else append. -/
def set (m : PyDict α) (k : String) (v : α) : PyDict α :=
  match m with
  | ([] : List (String × α)) => [(k, v)]
  | kv :: rest => if kv.1 = k then (k, v) :: rest else kv :: set rest k v

/-- `m.update(other)` — every entry of `other` written into `m` in order. -/
def update (m other : PyDict α) : PyDict α :=
  List.foldl (fun acc kv => set acc kv.1 kv.2) m other

/-- Number of entries (keys are unique in every dict built below). -/
def size (m : PyDict α) : Nat := List.length m

/-- The keys in order. -/
def keys (m : PyDict α) : List String := List.map Prod.fst m

/-- Entry list (for folds mirroring `for k, v in d.items()`). -/
def items (m : PyDict α) : List (String × α) := m

/-- `del`-from-the-front eviction: drop the `n` oldest entries. -/
def dropOldest (m : PyDict α) (n : Nat) : PyDict α := List.drop n m

end PyDict

instance [DecidableEq α] : DecidableEq (PyDict α) := instDecidableEqList

instance [Repr α] : Repr (PyDict α) := instReprList

instance : Membership (String × α) (PyDict α) :=
  inferInstanceAs (Membership (String × α) (List (String × α)))

/-- A flat exiftool-style tag record (or a report-database row). -/
abbrev Rec := PyDict PVal

namespace Rec

/-- `d.get(k)` as an `Option`. -/
def get? (r : Rec) (k : String) : Option PVal := PyDict.get? r k

/-- Python `d.get(k)` (absent keys give `None`). -/
def getV (r : Rec) (k : String) : PVal := (PyDict.get? r k).getD .vnone

/-- `d[k] = v`. -/
def set (r : Rec) (k : String) (v : PVal) : Rec := PyDict.set r k v

end Rec

/-- A map from normalized path to tag record — the shape of
`read_batch_metadata`'s result and of the module-level metadata cache. -/
abbrev RecMap := PyDict Rec

namespace RecMap

/-- Dictionary lookup. -/
def get? (m : RecMap) (k : String) : Option Rec := PyDict.get? m k

/-- `m[k] = v`. -/
def set (m : RecMap) (k : String) (v : Rec) : RecMap := PyDict.set m k v

/-- `m.update(other)`. -/
def update (m other : RecMap) : RecMap := PyDict.update m other

/-- Number of entries. -/
def size (m : RecMap) : Nat := PyDict.size m

end RecMap

/-! ### `exif_io/writer.py`: batch metadata read with cache and sidecar merge -/

/-- One `(group, tag, value)` triple as returned by `read_xmp_sidecar`. -/
abbrev XmpRow := String × String × String

/-- Environment of external collaborators of `read_batch_metadata`: whether
the exiftool executable resolves, the flat record the one batch exiftool
invocation yields per normalized queried path (`none`: the tool reported
nothing for that file, or the chunk failed), and the triples the sidecar
reader `read_xmp_sidecar` yields per original path (`[]`: no sidecar, or a
parse failure). -/
structure ExifEnv where
  exiftoolAvailable : Bool
  toolRec : String → Option Rec
  sidecarRows : String → List XmpRow

/-- One alias back-fill: copy `src`'s value to `dst` only when `src` is
truthy and `dst` is not. -/
def aliasStep (r : Rec) (src dst : String) : Rec :=
  if (r.getV src).truthy ∧ ¬ (r.getV dst).truthy then r.set dst (r.getV src) else r

/-- `_apply_browser_metadata_aliases`: back-fill the canonical title and
focus-status keys from their sidecar spellings, only when the canonical key
is still empty. -/
def _apply_browser_metadata_aliases (rec : Rec) : Rec :=
  aliasStep
    (aliasStep (aliasStep rec "XMP-photoshop:Country" "XMP:Country")
      "XMP-photoshop:Country-PrimaryLocationName" "XMP:Country")
    "XMP-dc:title" "XMP-dc:Title"

/-- `_xmp_rows_to_flat_dict`: sidecar triples to an exiftool-style record. -/
def _xmp_rows_to_flat_dict (path : String) (rows : List XmpRow) : Rec :=
  _apply_browser_metadata_aliases
    (rows.foldl (fun r gnv => r.set (gnv.1 ++ ":" ++ gnv.2.1) (.vstr gnv.2.2))
      [("SourceFile", .vstr path)])

/-- One entry of the batch exiftool result: sourced records are indexed by
normalized source path, aliases applied; silent files leave no entry. -/
def toolStep (env : ExifEnv) (res : RecMap) (p : String) : RecMap :=
  match env.toolRec (os_path_normpath p) with
  | some rec => res.set (os_path_normpath p) (_apply_browser_metadata_aliases rec)
  | none => res

/-- `_batch_read_exiftool`: one batch exiftool call over the uncached paths,
indexed by normalized source path, aliases applied per record. -/
def _batch_read_exiftool (env : ExifEnv) (uncached : List String) : RecMap :=
  uncached.foldl (toolStep env) []

/-- The record one sidecar read of the batch loop yields: the flat sidecar
dict, or the bare `{"SourceFile": path}` entry when there is no sidecar. -/
def sdFlat (env : ExifEnv) (p : String) : Rec :=
  match env.sidecarRows p with
  | [] => [("SourceFile", .vstr p)]
  | rows => _xmp_rows_to_flat_dict p rows

/-- `_batch_read_xmp_sidecar`: per-file sidecar read; files without a
sidecar still get a `{"SourceFile": path}` entry. -/
def sdStep (env : ExifEnv) (res : RecMap) (p : String) : RecMap :=
  res.set (os_path_normpath p) (sdFlat env p)

def _batch_read_xmp_sidecar (env : ExifEnv) (paths : List String) : RecMap :=
  paths.foldl (sdStep env) []

/-- The fixed `_XMP_INDICATORS` tuple of `read_batch_metadata`. -/
def _XMP_INDICATORS : List String :=
  [ "XMP-dc:Title", "XMP-dc:title",
    "XMP-xmp:Label", "XMP-xmp:Rating",
    "XMP-xmpDM:pick", "XMP-xmpDM:Pick",
    "XMP-xmp:Pick", "XMP-xmp:PickLabel", "XMP:Pick", "XMP:PickLabel",
    "XMP:City", "XMP:State", "XMP:Country",
    "XMP-photoshop:City", "XMP-photoshop:State",
    "XMP-photoshop:Country",
    "XMP-photoshop:Country-PrimaryLocationName",
    "IPTC:ObjectName", "IPTC:City", "IFD0:XPTitle" ]

/-- Whether a record holds a non-empty (truthy) value for any of the fixed
XMP-indicator tags — the trigger guard of the sidecar merge. -/
def recHasXmpIndicator (rec : Rec) : Bool :=
  _XMP_INDICATORS.any (fun k => (rec.getV k).truthy)

/-- The sidecar overlay loop: a sidecar triple is written only when the
current value under its key is absent or empty. -/
def sidecarOverlay (rec : Rec) (rows : List XmpRow) : Rec :=
  rows.foldl (fun r gnv =>
    if (r.getV (gnv.1 ++ ":" ++ gnv.2.1)).truthy then r
    else r.set (gnv.1 ++ ":" ++ gnv.2.1) (.vstr gnv.2.2)) rec

/-- Overlay of the sidecar triples followed by the alias back-fill, as the
merge branch of `read_batch_metadata` performs for one record. -/
def mergeSidecarIntoRec (rec : Rec) (rows : List XmpRow) : Rec :=
  _apply_browser_metadata_aliases (sidecarOverlay rec rows)

/-- The cache/dedup loop of `read_batch_metadata`: cached entries (by
normalized path) feed the result, first occurrences of uncached paths are
kept in order. -/
def rbmSplitStep (cache : RecMap) (acc : List String × RecMap × List String)
    (p : String) : List String × RecMap × List String :=
  if os_path_normpath p ∈ acc.1 then acc
  else
    match RecMap.get? cache (os_path_normpath p) with
    | some rec =>
      (os_path_normpath p :: acc.1, RecMap.set acc.2.1 (os_path_normpath p) rec, acc.2.2)
    | none => (os_path_normpath p :: acc.1, acc.2.1, acc.2.2 ++ [p])

def rbmSplit (cache : RecMap) (paths : List String) : RecMap × List String :=
  let out := paths.foldl (rbmSplitStep cache) ([], [], [])
  (out.2.1, out.2.2)

/-- The exiftool stage: the batch call when the executable resolves, the
empty map otherwise. -/
def rbmToolResult (env : ExifEnv) (uncached : List String) : RecMap :=
  if env.exiftoolAvailable then _batch_read_exiftool env uncached else []

/-- `missing`: uncached paths the exiftool stage produced no record for. -/
def rbmMissing (env : ExifEnv) (uncached : List String) : List String :=
  uncached.filter (fun p => ((rbmToolResult env uncached).get? (os_path_normpath p)).isNone)

/-- `new_result` right before the sidecar merge: the exiftool records
updated with the sidecar batch read of the missing paths. -/
def rbmPreMerge (env : ExifEnv) (uncached : List String) : RecMap :=
  (rbmToolResult env uncached).update
    (_batch_read_xmp_sidecar env (rbmMissing env uncached))

/-- `need_merge`: uncached paths whose obtained record carries no truthy
XMP-indicator tag. -/
def rbmNeedMerge (env : ExifEnv) (uncached : List String) : List String :=
  uncached.filter (fun p =>
    match (rbmPreMerge env uncached).get? (os_path_normpath p) with
    | some rec => ¬ recHasXmpIndicator rec
    | none => false)

/-- One iteration of the sidecar-merge loop: read the sidecar, skip when it
yields nothing, otherwise overlay it into the path's record. -/
def rbmMergeStep (env : ExifEnv) (m : RecMap) (p : String) : RecMap :=
  match env.sidecarRows p with
  | [] => m
  | rows =>
    match m.get? (os_path_normpath p) with
    | some rec => m.set (os_path_normpath p) (mergeSidecarIntoRec rec rows)
    | none => m

/-- `new_result` after the sidecar merge. -/
def rbmNewResult (env : ExifEnv) (uncached : List String) : RecMap :=
  (rbmNeedMerge env uncached).foldl (rbmMergeStep env) (rbmPreMerge env uncached)

/-- `_METADATA_CACHE_MAX`. -/
def _METADATA_CACHE_MAX : Nat := 20000

/-- Externally observable work a `read_batch_metadata` call performed: how
many exiftool process invocations it made, and the paths it asked the
sidecar reader about (both the batch read of the missing paths and the
per-path merge reads). -/
structure ReadEffects where
  toolCalls : Nat
  sidecarReads : List String
deriving DecidableEq, Repr

/-- FIFO eviction followed by write-back of the fresh records, as the
cache-update block of `read_batch_metadata` performs under its lock, in the
loop's terminating regime (drop count at most the cache length); the
regime where the loop instead raises is exposed by `cacheWriteBack?`. -/
def cacheWriteBack (cache newr : RecMap) : RecMap :=
  RecMap.update (cache.drop (cache.length + newr.length - _METADATA_CACHE_MAX)) newr

/-- The cache write-back with its raising path exposed. The source's
eviction loop pops one cached entry per iteration while
`len(cache) + len(new_result) > _METADATA_CACHE_MAX`; when the fresh batch
alone exceeds the ceiling, the loop drains the cache empty while the
condition still holds and `next(iter({}))` raises `StopIteration` (`none`
here); otherwise it terminates after the FIFO drop and the write-back of
the fresh records. -/
def cacheWriteBack? (cache newr : RecMap) : Option RecMap :=
  if newr.length > _METADATA_CACHE_MAX then none
  else some (cacheWriteBack cache newr)

/-- `read_batch_metadata(paths)`: returns the result map, the metadata cache
after the call (the module-level `_METADATA_CACHE`, threaded explicitly),
and the effects performed. This is the call's normal return value; the
raising path of the cache write-back is exposed by `read_batch_metadata?`
below, which agrees with this definition on every non-raising run. -/
def read_batch_metadata (env : ExifEnv) (cache : RecMap) (paths : List String) :
    RecMap × RecMap × ReadEffects :=
  if paths = [] then ([], cache, ⟨0, []⟩)
  else
    let (result₀, uncached) := rbmSplit cache paths
    if uncached = [] then (result₀, cache, ⟨0, []⟩)
    else
      let newr := rbmNewResult env uncached
      (result₀.update newr, cacheWriteBack cache newr,
        ⟨if env.exiftoolAvailable then 1 else 0,
         rbmMissing env uncached ++ rbmNeedMerge env uncached⟩)

/-- `read_batch_metadata(paths)` with the raising path of its cache
write-back exposed: `none` models the `StopIteration` that escapes the call
out of the eviction loop, `some` the normal return. -/
def read_batch_metadata? (env : ExifEnv) (cache : RecMap) (paths : List String) :
    Option (RecMap × RecMap × ReadEffects) :=
  if paths = [] then some ([], cache, ⟨0, []⟩)
  else
    let (result₀, uncached) := rbmSplit cache paths
    if uncached = [] then some (result₀, cache, ⟨0, []⟩)
    else
      let newr := rbmNewResult env uncached
      match cacheWriteBack? cache newr with
      | none => none
      | some cache' =>
        some (result₀.update newr, cache',
          ⟨if env.exiftoolAvailable then 1 else 0,
           rbmMissing env uncached ++ rbmNeedMerge env uncached⟩)

/-! ### `_browser.py`: display-record parsing helpers -/

/-- Round a rational to the nearest integer, ties to even (the rounding of
CPython's `%.2f` formatting, approximated over exact rationals). -/
def roundHalfEven (q : Rat) : Int :=
  let n := ratFloor q
  let frac := q - (n : Rat)
  if frac > (1 : Rat) / 2 then n + 1
  else if frac < (1 : Rat) / 2 then n
  else if n % 2 = 0 then n else n + 1

/-- `"%0w.2f" % q`: two fraction digits, zero-padded to total width `w`. -/
def formatFixed2 (width : Nat) (q : Rat) : String :=
  let scaled := roundHalfEven (q * 100)
  let a := scaled.natAbs
  let fp := a % 100
  let core := toString (a / 100) ++ "." ++ (if fp < 10 then "0" else "") ++ toString fp
  let signLen : Nat := if scaled < 0 then 1 else 0
  (if scaled < 0 then "-" else "") ++
    String.join (List.replicate (width - (core.length + signLen)) "0") ++ core

/-- `_format_optional_number(raw, fmt)` with `fmt` one of `"%06.2f"` /
`"%05.2f"`, embedded through its total width: format when the stripped text
parses as a number, else return the stripped text. -/
def _format_optional_number (raw : PVal) (width : Nat) : String :=
  let s := pyStrip (pyStr raw)
  if s = "" then ""
  else
    match pyFloatOfString? s with
    | some q => formatFixed2 width q
    | none => s

/-- `_FOCUS_STATUS_DISPLAY`. -/
def _FOCUS_STATUS_DISPLAY : List (String × String) :=
  [("BEST", "精焦"), ("IN FOCUS", "合焦"), ("OK", "合焦"), ("GOOD", "合焦"),
   ("OFF", "偏移"), ("MISS", "失焦"), ("OUT", "失焦"), ("BAD", "失焦")]

/-- `_focus_status_to_display`: raw focus-status text to its display bucket;
Chinese buckets and unrecognized strings pass through stripped. -/
def _focus_status_to_display (raw : PVal) : String :=
  let s := pyStrip (pyStr raw)
  if s = "" then ""
  else
    match (_FOCUS_STATUS_DISPLAY.find? (fun kv => kv.1 = pyUpper s)) with
    | some kv => kv.2
    | none => s

/-- The normalized UI-facing record `_parse_rec` produces per path. -/
structure DisplayRec where
  title : String
  color : String
  rating : Int
  pick : Int
  city : String
  state : String
  country : String
deriving DecidableEq, Repr

/-- The all-empty display record. -/
def emptyDisplayRec : DisplayRec :=
  { title := "", color := "", rating := 0, pick := 0, city := "", state := "", country := "" }

/-- `MetadataLoader._parse_rec`: one flat tag record to a display record
(title/color/rating/pick plus the three repurposed location columns). -/
def _parse_rec (rec : Rec) : DisplayRec :=
  let title := pyOr (rec.getV "XMP-dc:Title") (pyOr (rec.getV "XMP-dc:title")
    (pyOr (rec.getV "IFD0:XPTitle") (pyOr (rec.getV "IPTC:ObjectName") (.vstr ""))))
  let color := pyOr (rec.getV "XMP-xmp:Label") (.vstr "")
  let rating_num := pyIntFloatStr (rec.getV "XMP-xmp:Rating")
  let rating := max 0 (min 5 rating_num)
  let pick_raw := pyOr (rec.getV "XMP-xmpDM:pick") (pyOr (rec.getV "XMP-xmpDM:Pick")
    (pyOr (rec.getV "XMP-xmp:Pick") (pyOr (rec.getV "XMP-xmp:PickLabel")
    (pyOr (rec.getV "XMP-1.0:Pick") (pyOr (rec.getV "XMP-1.0:PickLabel")
    (pyOr (rec.getV "XMP-lr:Pick") (pyOr (rec.getV "XMP-lr:PickLabel")
    (pyOr (rec.getV "XMP:Pick") (pyOr (rec.getV "XMP:PickLabel") (.vstr ""))))))))))
  let s := pyLower (pyStrip (pyStr pick_raw))
  let pick : Int :=
    if s = "true" ∨ s = "1" ∨ s = "yes" then 1
    else if s = "false" ∨ s = "0" ∨ s = "no" ∨ s = "" then 0
    else if s = "-1" ∨ s = "reject" then -1
    else
      match pyFloatOfString? s with
      | some q => max (-1) (min 1 (ratTrunc q))
      | none => 0
  let pick := if pick = 0 ∧ rating_num < 0 then -1 else pick
  let city_raw := pyOr (rec.getV "XMP:City") (pyOr (rec.getV "XMP-photoshop:City")
    (pyOr (rec.getV "IPTC:City") (.vstr "")))
  let state_raw := pyOr (rec.getV "XMP:State") (pyOr (rec.getV "XMP-photoshop:State")
    (pyOr (rec.getV "IPTC:Province-State") (.vstr "")))
  let country_raw := pyOr (rec.getV "XMP:Country") (pyOr (rec.getV "XMP-photoshop:Country")
    (pyOr (rec.getV "XMP-photoshop:Country-PrimaryLocationName")
    (pyOr (rec.getV "IPTC:Country-PrimaryLocationName") (.vstr ""))))
  { title := pyStrip (pyStr title)
    color := pyStrip (pyStr color)
    rating := rating
    pick := pick
    city := _format_optional_number city_raw 6
    state := _format_optional_number state_raw 5
    country := _focus_status_to_display country_raw }

/-! ### `report_db.py`: row conversion and fallback decision -/

/-- Python `v == n` for an integer literal `n` (numeric cross-type equality;
strings never equal ints). -/
def pyEqInt (v : PVal) (n : Int) : Bool :=
  match v with
  | .vint m => m = n
  | .vrat q => q = (n : Rat)
  | _ => false

/-- Python `int(v)` on a scalar: ints pass, floats truncate toward zero,
strings parse strictly; `None` (TypeError) gives `none`. -/
def pyIntOfVal? (v : PVal) : Option Int :=
  match v with
  | .vint n => some n
  | .vrat q => some (ratTrunc q)
  | .vstr s => pyIntOfString? s
  | .vnone => none

/-- The `_set` closure of `report_row_to_exiftool_style`: write only values
that are not `None` and, for strings, not blank. -/
def rrSet (out : Rec) (k : String) (v : PVal) : Rec :=
  match v with
  | .vnone => out
  | .vstr s => if pyStrip s ≠ "" then out.set k (.vstr s) else out
  | _ => out.set k v

/-- `report_row_to_exiftool_style(row, source_file)`: one report-database
row as an exiftool-style record. (The sqlite schema types `focus_status` as
TEXT; a non-string value there would raise in CPython and is totalized here
through `str()`.) -/
def report_row_to_exiftool_style (row : Rec) (source_file : String) : Rec :=
  let out : Rec := [("SourceFile", .vstr source_file)]
  let species := row.getV "bird_species_cn"
  let out :=
    if species.truthy ∧ pyStrip (pyStr species) ≠ "" then
      rrSet (rrSet (rrSet out "XMP-dc:Title" species) "XMP-dc:title" species)
        "IPTC:ObjectName" species
    else
      rrSet (rrSet (rrSet out "XMP-dc:Title" (row.getV "title")) "XMP-dc:title"
        (row.getV "title")) "IPTC:ObjectName" (row.getV "title")
  let out := rrSet out "XMP-dc:Description" (row.getV "caption")
  let out := rrSet out "IFD0:ImageDescription" (row.getV "caption")
  let focus := row.getV "focus_status"
  let fc := pyOr focus (row.getV "country")
  let out := rrSet out "XMP:Country" fc
  let out := rrSet out "XMP-photoshop:Country" fc
  let out := rrSet out "XMP-photoshop:Country-PrimaryLocationName" fc
  let sharp := row.getV "adj_sharpness"
  let out :=
    if sharp ≠ .vnone then
      rrSet (rrSet out "XMP:City" sharp) "XMP-photoshop:City" sharp
    else
      rrSet (rrSet out "XMP:City" (row.getV "city")) "XMP-photoshop:City" (row.getV "city")
  let topiq := row.getV "adj_topiq"
  let out :=
    if topiq ≠ .vnone then
      rrSet (rrSet out "XMP:State" topiq) "XMP-photoshop:State" topiq
    else
      rrSet (rrSet out "XMP:State" (row.getV "state_province")) "XMP-photoshop:State"
        (row.getV "state_province")
  let focus_str := pyUpper (pyStrip (pyStr (pyOr focus (.vstr ""))))
  let out :=
    if pyEqInt (row.getV "is_flying") 1 then rrSet out "XMP-xmp:Label" (.vstr "Red")
    else if focus_str = "BEST" ∨ focus_str = "精焦" then rrSet out "XMP-xmp:Label" (.vstr "Green")
    else out
  let r := row.getV "rating"
  let out :=
    if r ≠ .vnone then
      match pyIntOfVal? r with
      | some n => out.set "XMP-xmp:Rating" (.vint (max 0 (min 5 n)))
      | none => out
    else out
  let out := rrSet out "IFD0:Model" (row.getV "camera_model")
  let out := rrSet out "ExifIFD:LensModel" (row.getV "lens_model")
  let out := rrSet out "EXIF:Model" (row.getV "camera_model")
  let out := rrSet out "EXIF:LensModel" (row.getV "lens_model")
  let out := rrSet out "ExifIFD:ISO" (row.getV "iso")
  let out := rrSet out "EXIF:ISO" (row.getV "iso")
  let out := rrSet out "Composite:ShutterSpeed" (row.getV "shutter_speed")
  let out := rrSet out "ExifIFD:ExposureTime" (row.getV "shutter_speed")
  let out := rrSet out "Composite:Aperture" (row.getV "aperture")
  let out := rrSet out "ExifIFD:FNumber" (row.getV "aperture")
  let fl := row.getV "focal_length"
  let out :=
    if fl ≠ .vnone then rrSet (rrSet out "ExifIFD:FocalLength" fl) "EXIF:FocalLength" fl
    else out
  let fl35 := row.getV "focal_length_35mm"
  let out :=
    if fl35 ≠ .vnone then
      rrSet (rrSet out "ExifIFD:FocalLengthIn35mmFormat" fl35) "EXIF:FocalLengthIn35mmFormat" fl35
    else out
  let out := rrSet out "ExifIFD:DateTimeOriginal" (row.getV "date_time_original")
  let out := rrSet out "EXIF:DateTimeOriginal" (row.getV "date_time_original")
  let lat := row.getV "gps_latitude"
  let out :=
    if lat ≠ .vnone then rrSet (rrSet out "Composite:GPSLatitude" lat) "EXIF:GPSLatitude" lat
    else out
  let lon := row.getV "gps_longitude"
  let out :=
    if lon ≠ .vnone then rrSet (rrSet out "Composite:GPSLongitude" lon) "EXIF:GPSLongitude" lon
    else out
  let alt := row.getV "gps_altitude"
  let out :=
    if alt ≠ .vnone then rrSet (rrSet out "Composite:GPSAltitude" alt) "EXIF:GPSAltitude" alt
    else out
  out

/-- `_get_report_current_path_raw`: the raw `current_path` the report row
carried, preferring the preserved `_current_path_report_raw`. -/
def _get_report_current_path_raw (row : Rec) : String :=
  let fallback :=
    match row.getV "current_path" with
    | .vnone => ""
    | v => pyStrip (pyStr v)
  match row.getV "_current_path_report_raw" with
  | .vstr s => if pyStrip s ≠ "" then pyStrip s else fallback
  | _ => fallback

/-- The `_has_value` closure of `_report_row_needs_file_fallback`. -/
def _has_value : PVal → Bool
  | .vnone => false
  | .vstr s => pyStrip s ≠ ""
  | _ => true

/-- The `rich_keys` tuple of `_report_row_needs_file_fallback`. -/
def reportRichKeys : List String :=
  ["title", "bird_species_cn", "caption", "city", "state_province", "country",
   "focus_status", "adj_sharpness", "adj_topiq", "head_sharp", "left_eye", "right_eye"]

/-- `MetadataLoader._report_row_needs_file_fallback`: a report row needs a
file/sidecar read when its recorded `current_path` points at a sidecar, or
when it carries no display field, no positive rating and no flying flag. -/
def _report_row_needs_file_fallback (row : Rec) : Bool :=
  let cp := _get_report_current_path_raw row
  if strEnds (pyLower (pyStrip cp)) ".xmp" then true
  else if reportRichKeys.any (fun k => _has_value (row.getV k)) then false
  else if pyIntFloatStr (row.getV "rating") > 0 then false
  else if pyIntFloatStr (row.getV "is_flying") = 1 then false
  else true

/-! ### `_browser.py`: `MetadataLoader.run` -/

/-- Modelled from the spec: `inject_metadata_cache(path, flat)` is imported
from `app_common.exif_io` but defined outside `src/`. Per the spec's cache
design (`MetadataCacheEntry`: FileIdentity → DisplayRecord snapshot,
defensive copy, keyed by normalized path) it stores a copy of the record in
the writer's module-level metadata cache under the normalized path. -/
def inject_metadata_cache (cache : RecMap) (path : String) (flat : Rec) : RecMap :=
  RecMap.set cache (os_path_normpath path) flat

/-- `EXIF_ONLY_FROM_REPORT_DB` (from `report_db.py`). -/
def EXIF_ONLY_FROM_REPORT_DB : Bool := true

/-- `_METADATA_CHUNK_SIZE`. -/
def _METADATA_CHUNK_SIZE : Nat := 150

/-- Generator `_chunked(items, size)`: consecutive chunks of `size` items,
last one possibly shorter (CPython raises on step 0; the embedding returns
no chunks there, a case no caller reaches with a non-empty list). -/
def _chunked (size : Nat) (l : List α) : List (List α) :=
  match l with
  | [] => []
  | x :: xs =>
    if h : size = 0 then []
    else ((x :: xs).take size) :: _chunked size ((x :: xs).drop size)
termination_by l.length
decreasing_by
  exact List.length_drop _ _ ▸ Nat.sub_lt (List.length_pos.mpr (by simp)) (Nat.pos_of_ne_zero h)

/-- Environment of `MetadataLoader.run`: the exiftool/sidecar world, the
per-stem report cache, the (already normalized) current directory, and the
`os.path.isfile` oracle used for the sidecar-query redirect. -/
structure LoaderEnv where
  exif : ExifEnv
  reportCache : PyDict Rec
  currentDir : Option String
  isfile : String → Bool

/-- Accumulator of the report loop of `MetadataLoader.run`. -/
structure LoaderPhase1Out where
  result : PyDict DisplayRec
  uncached : List String
  fallbackPaths : List String
  cache : RecMap

/-- One iteration of the report loop: a stem hit is converted, parsed into
the result, injected into the writer cache only when trusted, and queued
for fallback otherwise; a miss goes to `uncached`. -/
def loaderReportStep (env : LoaderEnv) (acc : LoaderPhase1Out) (path : String) :
    LoaderPhase1Out :=
  let norm := os_path_normpath path
  let stem := pathlibStem path
  match PyDict.get? env.reportCache stem with
  | some row =>
    let flat := report_row_to_exiftool_style row path
    let needs := _report_row_needs_file_fallback row
    { result := PyDict.set acc.result norm (_parse_rec flat)
      uncached := acc.uncached
      fallbackPaths := if needs then acc.fallbackPaths ++ [path] else acc.fallbackPaths
      cache := if needs then acc.cache else inject_metadata_cache acc.cache path flat }
  | none => { acc with uncached := acc.uncached ++ [path] }

/-- The report loop over all requested paths. -/
def loaderPhase1 (env : LoaderEnv) (cache₀ : RecMap) (paths : List String) :
    LoaderPhase1Out :=
  paths.foldl (loaderReportStep env) ⟨PyDict.empty, [], [], cache₀⟩

/-- The query path chosen for one fallback target: the target itself unless
its report row records a `current_path` that resolves (against the current
directory) to an existing `.xmp` sidecar. -/
def loaderQueryPath (env : LoaderEnv) (target_path : String) : String :=
  match PyDict.get? env.reportCache (pathlibStem target_path) with
  | some row =>
    let cp_text := _get_report_current_path_raw row
    match env.currentDir with
    | some dir =>
      if cp_text ≠ "" then
        let cp_abs :=
          if os_path_isabs cp_text then os_path_normpath cp_text
          else os_path_normpath (os_path_join dir cp_text)
        if strEnds (pyLower cp_abs) ".xmp" ∧ env.isfile cp_abs then cp_abs
        else target_path
      else target_path
    | none => target_path
  | none => target_path

/-- The `_plan_read` closure: key the query by its normcased normalized
form, keep the first spelling, and add the target to the query's set. -/
def _plan_read (maps : PyDict String × PyDict (List String))
    (query_path target_norm : String) : PyDict String × PyDict (List String) :=
  let qn := os_path_normpath query_path
  let qk := os_path_normcase qn
  let qmap :=
    match PyDict.get? maps.1 qk with
    | some _ => maps.1
    | none => PyDict.set maps.1 qk qn
  let tset := (PyDict.get? maps.2 qk).getD []
  (qmap, PyDict.set maps.2 qk (if target_norm ∈ tset then tset else tset ++ [target_norm]))

/-- One `_plan_read` call of the fallback loop: the target's query path is
resolved and the target's normalized path registered under the query key. -/
def planStep (env : LoaderEnv) (maps : PyDict String × PyDict (List String))
    (tp : String) : PyDict String × PyDict (List String) :=
  _plan_read maps (loaderQueryPath env tp) (os_path_normpath tp)

/-- The planning block: fallback targets are always planned; uncached paths
only when `EXIF_ONLY_FROM_REPORT_DB` is off (it is on in this code base). -/
def loaderPlan (env : LoaderEnv) (fallbackPaths uncached : List String) :
    PyDict String × PyDict (List String) :=
  let maps := fallbackPaths.foldl (planStep env) (PyDict.empty, PyDict.empty)
  if ¬ EXIF_ONLY_FROM_REPORT_DB ∧ uncached ≠ [] then
    uncached.foldl (fun maps p => _plan_read maps p (os_path_normpath p)) maps
  else maps

/-- Apply one raw entry to the result map: `result[target] = parsed` for
every planned target of the entry's query key (the entry's own normalized
key when the plan does not know the key). -/
def applyEntryStep (targetsByKey : PyDict (List String))
    (res : PyDict DisplayRec) (nr : String × Rec) : PyDict DisplayRec :=
  ((PyDict.get? targetsByKey (os_path_normcase (os_path_normpath nr.1))).getD
      [os_path_normpath nr.1]).foldl
    (fun r t => PyDict.set r t (_parse_rec nr.2)) res

/-- Apply one chunk's raw records to the result map through the planned
target sets (`result[target] = parsed` for every target of the entry's
query key). -/
def loaderApplyChunk (targetsByKey : PyDict (List String))
    (result : PyDict DisplayRec) (chunk_raw : RecMap) : PyDict DisplayRec :=
  (PyDict.items chunk_raw).foldl (applyEntryStep targetsByKey) result

/-- One iteration of the chunked `read_batch_metadata` loop, also keeping
the union of all raw batch reads (for the statements below). -/
def loaderChunkStep (env : LoaderEnv) (targetsByKey : PyDict (List String))
    (acc : PyDict DisplayRec × RecMap × RecMap) (chunk : List String) :
    PyDict DisplayRec × RecMap × RecMap :=
  let (chunk_raw, cache', _) := read_batch_metadata env.exif acc.2.1 chunk
  (loaderApplyChunk targetsByKey acc.1 chunk_raw, cache', RecMap.update acc.2.2 chunk_raw)

/-- Result of one `MetadataLoader.run`: the emitted result map, the final
writer cache, and (as an observation) the union of the raw batch reads. -/
structure LoaderRun where
  result : PyDict DisplayRec
  cache : RecMap
  batchRaw : RecMap

/-- `MetadataLoader.run` for one uninterrupted run: report loop, read
planning, then the chunked batch reads whose parsed records overwrite the
earlier database-derived entries of their targets. -/
def MetadataLoader_run (env : LoaderEnv) (cache₀ : RecMap) (paths : List String) :
    LoaderRun :=
  if paths = [] then ⟨PyDict.empty, cache₀, PyDict.empty⟩
  else
    let p1 := loaderPhase1 env cache₀ paths
    let plan := loaderPlan env p1.fallbackPaths p1.uncached
    let dedup_read := List.map Prod.snd (PyDict.items plan.1)
    let out := (_chunked (max 1 _METADATA_CHUNK_SIZE) dedup_read).foldl
      (loaderChunkStep env plan.2) (p1.result, p1.cache, PyDict.empty)
    ⟨out.1, out.2.1, out.2.2⟩

/-! ### `exif_io/reader.py`: full batch extraction (`extract_many`) -/

/-- Environment of `extract_many`: executable availability, the per-file
record the tool prints for a normalized path (`none`: no output for it),
the Pillow fallback record per path, and `Path.resolve(strict=False)`
(`none`: the rare resolution exception, which the loop skips). -/
structure ReaderEnv where
  exiftoolAvailable : Bool
  toolRec : String → Option Rec
  pillowRec : String → Rec
  resolvePath : String → Option String

/-- The parsed JSON payload of one chunk invocation, with the per-file
outputs held fixed: the concatenation of the per-file records. -/
def readerChunkPayload (env : ReaderEnv) (chunk : List String) : List Rec :=
  chunk.filterMap (fun p => env.toolRec (os_path_normpath p))

/-- The body of the record loop of `_batch_read_exiftool_full`: index the
record by its normalized `SourceFile`, skipping records with a falsy
`SourceFile` (a non-string `SourceFile` cannot come out of the tool's JSON
and is skipped here too). -/
def readerStoreItem (res : RecMap) (item : Rec) : RecMap :=
  match Rec.get? item "SourceFile" with
  | some (.vstr s) => if s ≠ "" then RecMap.set res (os_path_normpath s) item else res
  | _ => res

/-- `_batch_read_exiftool_full`: chunked tool invocations indexed by the
normalized `SourceFile` of each returned record. -/
def _batch_read_exiftool_full (env : ReaderEnv) (paths : List String)
    (chunk_size : Nat) : RecMap :=
  (_chunked chunk_size paths).foldl (fun result chunk =>
    (readerChunkPayload env chunk).foldl readerStoreItem result) []

/-- `extract_many(paths, mode, chunk_size)`: mode validation, dedup
resolution, then tool records with Pillow fallback (or Pillow only);
`Except.error` embeds the two raises. -/
def extract_many (env : ReaderEnv) (paths : List String) (mode : String)
    (chunk_size : Nat) : Except String (PyDict Rec) :=
  let m := pyLower mode
  if ¬ (m = "auto" ∨ m = "on" ∨ m = "off") then .error ("invalid mode: " ++ mode)
  else
    let resolved := paths.foldl (fun acc p =>
      match env.resolvePath p with
      | some r => if r ∈ acc then acc else acc ++ [r]
      | none => acc) []
    if resolved = [] then .ok PyDict.empty
    else if m = "on" ∧ ¬ env.exiftoolAvailable then
      .error "ExifTool is required but not found (exif_io path or PATH)."
    else if (m = "auto" ∨ m = "on") ∧ env.exiftoolAvailable then
      let raw := _batch_read_exiftool_full env resolved chunk_size
      .ok (resolved.foldl (fun out p =>
        PyDict.set out p
          (match RecMap.get? raw (os_path_normpath p) with
           | some r => r
           | none => env.pillowRec p)) PyDict.empty)
    else
      .ok (resolved.foldl (fun out p => PyDict.set out p (env.pillowRec p)) PyDict.empty)

/-! ### `_browser.py`: thumbnail generation and memory cache -/

/-- A Qt `QImage` as the thumbnail pipeline observes it: pixel dimensions
plus an opaque identifier of the decode that produced its pixels (`copy`
preserves it; only a fresh decode mints a new one). -/
structure QImg where
  width : Nat
  height : Nat
  src : Nat
deriving DecidableEq, Repr

/-- `QImage.isNull`. -/
def QImg.isNull (i : QImg) : Bool := i.width = 0 ∨ i.height = 0

/-- Qt `QImage.scaled(w, h, KeepAspectRatio, ...)` (external library): the
largest size fitting inside `w × h` with the aspect ratio kept, computed as
`QSize::scale` does; modelled to keep at least one pixel per side (the
degenerate 0-pixel corner of extreme aspect ratios is idealized away). The
pixels still come from the same decode (`src` is preserved). -/
def qimageScaledKeepAspect (i : QImg) (w h : Nat) : QImg :=
  if h * i.width / i.height ≤ w then ⟨max 1 (h * i.width / i.height), max 1 h, i.src⟩
  else ⟨max 1 w, max 1 (w * i.height / i.width), i.src⟩

/-- `_scale_qimage_for_thumb`: null and already-fitting images are returned
as copies; larger ones are scaled down preserving aspect ratio. -/
def _scale_qimage_for_thumb (image : QImg) (size : Nat) : QImg :=
  if image.isNull then image
  else if image.width ≤ size ∧ image.height ≤ size then image
  else qimageScaledKeepAspect image size size

/-- `_qimage_num_bytes` (RGB888 layout: three bytes per pixel). -/
def _qimage_num_bytes (i : QImg) : Nat := if i.isNull then 0 else i.width * i.height * 3

/-- `_JPEG_MIP_EXTENSIONS`. -/
def _JPEG_MIP_EXTENSIONS : List String := [".jpg", ".jpeg"]

/-- `_THUMB_SIZE_STEPS`. -/
def _THUMB_SIZE_STEPS : List Nat := [128, 256, 512, 1024]

/-- `_THUMB_CACHE_BASE_SIZE = max(_THUMB_SIZE_STEPS)`. -/
def _THUMB_CACHE_BASE_SIZE : Nat := 1024

/-- `_path_key`: normalize a path for case-insensitive comparison
(`normcase(normpath(abspath(path)))`; `cwd` is the process working
directory `os.path.abspath` joins relative paths against). -/
def _path_key (cwd path : String) : String :=
  os_path_normcase
    (os_path_normpath (if os_path_isabs path then path else os_path_join cwd path))

/-- `_thumb_cache_key`. -/
def _thumb_cache_key (cwd path : String) : String := _path_key cwd path

/-- Association-list lookup over an arbitrary decidable key type (for the
`(path-key, size)`-keyed JPEG mip bucket). -/
def tget? [DecidableEq κ] (m : List (κ × α)) (k : κ) : Option α :=
  match m with
  | [] => none
  | kv :: rest => if kv.1 = k then some kv.2 else tget? rest k

/-- Association-list assignment with CPython dict semantics. -/
def tset [DecidableEq κ] (m : List (κ × α)) (k : κ) (v : α) : List (κ × α) :=
  match m with
  | [] => [(k, v)]
  | kv :: rest => if kv.1 = k then (k, v) :: rest else kv :: tset rest k v

/-- `ThumbnailMemoryCache`: `(path-key, size)`-keyed mip levels for
JPEG-like sources, one path-keyed base image for every other source, and
the diagnostic byte counter. -/
structure ThumbnailMemoryCache where
  jpegMips : List ((String × Nat) × QImg)
  baseImages : PyDict QImg
  bytesCount : Int
deriving DecidableEq, Repr

namespace ThumbnailMemoryCache

/-- The empty cache. -/
def empty : ThumbnailMemoryCache := ⟨[], PyDict.empty, 0⟩

/-- `_is_jpeg_like`. -/
def isJpegLike (path : String) : Bool :=
  pyLower (pathlibSuffix path) ∈ _JPEG_MIP_EXTENSIONS

/-- `get(source_path, requested_size)`: exact-slot lookup for JPEG-like
sources; for others, the cached base image rescaled on read; copies are
identity on the value model. -/
def get (cwd : String) (c : ThumbnailMemoryCache) (source_path : String)
    (requested_size : Nat) : Option QImg :=
  let key := _thumb_cache_key cwd source_path
  if isJpegLike source_path then tget? c.jpegMips (key, requested_size)
  else
    match PyDict.get? c.baseImages key with
    | none => none
    | some base => some (_scale_qimage_for_thumb base requested_size)

/-- The `_store_image` byte-count update. -/
def storeBytes (old : Option QImg) (stored : QImg) (b : Int) : Int :=
  (match old with
   | some o => b - (_qimage_num_bytes o : Int)
   | none => b) + (_qimage_num_bytes stored : Int)

/-- `put(source_path, requested_size, image)`: null images are ignored;
JPEG-like sources get an independent `(key, size)` slot, every other source
a single per-key base slot. -/
def put (cwd : String) (c : ThumbnailMemoryCache) (source_path : String)
    (requested_size : Nat) (image : QImg) : ThumbnailMemoryCache :=
  if image.isNull then c
  else
    let key := _thumb_cache_key cwd source_path
    if isJpegLike source_path then
      { c with
        jpegMips := tset c.jpegMips (key, requested_size) image
        bytesCount := storeBytes (tget? c.jpegMips (key, requested_size)) image c.bytesCount }
    else
      { c with
        baseImages := PyDict.set c.baseImages key image
        bytesCount := storeBytes (PyDict.get? c.baseImages key) image c.bytesCount }

end ThumbnailMemoryCache

/-- A PIL image as `_load_thumbnail_image` observes it: its size, its mode,
and the identity of the decode that produced it. -/
structure PILImg where
  width : Nat
  height : Nat
  mode : String
  src : Nat
deriving DecidableEq, Repr

/-- `RAW_EXTENSIONS` (image extensions minus the directly decodable ones). -/
def RAW_EXTENSIONS : List String :=
  [".cr2", ".cr3", ".crw", ".nef", ".nrw", ".arw", ".srf", ".sr2", ".rw2", ".raw",
   ".orf", ".ori", ".raf", ".dng", ".pef", ".ptx", ".x3f", ".rwl", ".3fr", ".dcr",
   ".kdc", ".mef", ".mrw", ".rwz"]

/-- Environment of `_load_thumbnail_image`: the decoded embedded RAW
preview (`_get_raw_thumbnail` + `Image.open`, `none` on any failure), the
direct decode of the file, and PIL's orientation correction (which may swap
the dimensions but reuses the same decode). -/
structure ThumbEnv where
  rawThumbImage : String → Option PILImg
  openImage : String → Option PILImg
  exifTransposeOut : PILImg → PILImg

/-- PIL `Image.thumbnail((s, s))` (external library): in-place shrink-only
resize preserving aspect ratio; already-fitting images are untouched,
otherwise the binding side becomes `s` and the other side is scaled down
(at least one pixel). -/
def pilThumbnailFit (w h s : Nat) : Nat × Nat :=
  if w ≤ s ∧ h ≤ s then (w, h)
  else if h ≤ w then (s, max 1 (h * s / w))
  else (max 1 (w * s / h), s)

/-- The source-selection stage of `_load_thumbnail_image`: the embedded RAW
preview first for RAW files (falling back to a direct decode), else a
direct decode of the file; `none` when nothing decodes. The later mode
conversions (P → RGBA, alpha flattening against the fixed `(45, 45, 45)`
background, RGB conversion) all preserve the image's dimensions and decode
identity, which is what the `QImg` model records. -/
def _thumbSourceImage (env : ThumbEnv) (path : String) : Option PILImg :=
  if pyLower (pathlibSuffix path) ∈ RAW_EXTENSIONS then
    match env.rawThumbImage path with
    | some i => some i
    | none => env.openImage path
  else env.openImage path

/-- `_load_thumbnail_image(path, size)` continued: orientation-correct the
selected source image, shrink to fit `size × size`, and hand the pixels to
a `QImage` of the resulting size. -/
def _load_thumbnail_image (env : ThumbEnv) (path : String) (size : Nat) : Option QImg :=
  match _thumbSourceImage env path with
  | none => none
  | some img0 =>
    let img1 := env.exifTransposeOut img0
    let fitted := pilThumbnailFit img1.width img1.height size
    some ⟨fitted.1, fitted.2, img1.src⟩

/-! ### `_browser.py`: viewport scheduling of thumbnail jobs -/

/-- Observable per-item widget state: hidden flag, whether a non-null
pixmap is applied (`_ThumbPixmapRole`), and the size it was applied at
(`_ThumbSizeRole`, 0 when unset). -/
structure ItemState where
  hidden : Bool
  hasPixmap : Bool
  pixSize : Nat
deriving DecidableEq, Repr

/-- The data `_build_visible_thumbnail_data_source` returns: the geometry
fields feeding the signature plus the `(normalized path, item)` entries. -/
structure RangeData where
  thumbSize : Nat
  startRow : Nat
  endRow : Nat
  gridWidth : Nat
  gridHeight : Nat
  totalItems : Nat
  entries : List (String × ItemState)
deriving DecidableEq, Repr

/-- The tuple `ThumbViewportRange.signature` evaluates to, as a record. -/
structure ViewSignature where
  thumbSize : Nat
  startRow : Nat
  endRow : Nat
  entryCount : Nat
  totalItems : Nat
  gridWidth : Nat
  gridHeight : Nat
deriving DecidableEq, Repr

/-- `ThumbViewportRange.signature`. -/
def RangeData.signature (r : RangeData) : ViewSignature :=
  ⟨r.thumbSize, r.startRow, r.endRow, r.entries.length, r.totalItems,
   r.gridWidth, r.gridHeight⟩

/-- Environment of one viewport update: the built visible range (geometry
is the UI's business) and the `_item_map` lookup by normalized path. -/
structure ViewEnv where
  range? : Option RangeData
  itemOf : String → Option ItemState

/-- Scheduler-relevant state of `FileListPanel`. -/
structure PanelState where
  viewModeThumb : Bool
  thumbSize : Nat
  lastSignature : Option ViewSignature
  loaderRunning : Bool
deriving DecidableEq, Repr

/-- Externally visible actions of one viewport update. -/
inductive SchedEvent where
  | stopLoader
  | submitBatch (paths : List String)
deriving DecidableEq, Repr

/-- `_thumb_item_has_current_pixmap`. -/
def itemHasCurrentPixmap (thumbSize : Nat) (it : ItemState) : Bool :=
  it.hasPixmap ∧ it.pixSize = thumbSize

/-- `_collect_missing_visible_thumbnail_paths` over the range's entries:
dedup, skip hidden items and items already holding a pixmap at the current
size. -/
def collectMissing (thumbSize : Nat) (entries : List (String × ItemState)) : List String :=
  (entries.foldl (fun (acc : List String × List String) e =>
    if e.1 ∈ acc.1 ∨ e.2.hidden then acc
    else if itemHasCurrentPixmap thumbSize e.2 then (e.1 :: acc.1, acc.2)
    else (e.1 :: acc.1, acc.2 ++ [e.1])) ([], [])).2

/-- One iteration of the requested-path filter of
`_start_thumbnail_loader`: dedup by normalized path, then drop paths with
no item, hidden items and items already holding a current-size pixmap. -/
def startReqStep (env : ViewEnv) (thumbSize : Nat)
    (acc : List String × List String) (p : String) : List String × List String :=
  if os_path_normpath p ∈ acc.1 then acc
  else
    match env.itemOf (os_path_normpath p) with
    | none => (os_path_normpath p :: acc.1, acc.2)
    | some it =>
      if it.hidden then (os_path_normpath p :: acc.1, acc.2)
      else if itemHasCurrentPixmap thumbSize it then (os_path_normpath p :: acc.1, acc.2)
      else (os_path_normpath p :: acc.1, acc.2 ++ [os_path_normpath p])

/-- `_start_thumbnail_loader(paths)`: re-filter through `_item_map`; when
anything remains, stop the previous loader and submit one batch. -/
def startThumbnailLoader (env : ViewEnv) (state : PanelState) (paths : List String) :
    PanelState × List SchedEvent :=
  if ¬ state.viewModeThumb then (state, [])
  else if (paths.foldl (startReqStep env state.thumbSize) ([], [])).2 = [] then (state, [])
  else
    ({ state with loaderRunning := true },
      (if state.loaderRunning then [SchedEvent.stopLoader] else []) ++
        [SchedEvent.submitBatch ((paths.foldl (startReqStep env state.thumbSize) ([], [])).2)])

/-- `_update_visible_thumbnail_range`: signature comparison and storage,
no-op when unchanged with a still-running job or nothing missing, else the
batch submission through `_start_thumbnail_loader`. -/
def updateVisibleThumbnailRange (env : ViewEnv) (state : PanelState) :
    PanelState × List SchedEvent :=
  if ¬ state.viewModeThumb then (state, [])
  else
    match env.range? with
    | none => (state, [])
    | some r =>
      if r.entries = [] then (state, [])
      else
        if (state.lastSignature = some r.signature : Bool)
            ∧ (collectMissing state.thumbSize r.entries = [] ∨ state.loaderRunning) then
          ({ state with lastSignature := some r.signature }, [])
        else if collectMissing state.thumbSize r.entries = [] then
          ({ state with lastSignature := some r.signature }, [])
        else
          startThumbnailLoader env { state with lastSignature := some r.signature }
            (collectMissing state.thumbSize r.entries)

/-! ### Concrete instances used by counterexamples and witnesses -/

/-- The trust condition in the words of the claim (a refinement definition,
to compare with `_report_row_needs_file_fallback`): the row carries at
least one of the rich display fields title / species / caption / location
(city, state, country) / focus-status, or a positive rating, or the flying
flag. -/
def claimC5TrustRich (row : Rec) : Bool :=
  (["title", "bird_species_cn", "caption", "city", "state_province", "country",
    "focus_status"].any (fun k => _has_value (row.getV k)))
  ∨ pyIntFloatStr (row.getV "rating") > 0
  ∨ pyIntFloatStr (row.getV "is_flying") = 1

/-- A report row carrying a title (rich per the claim) whose recorded
`current_path` points at a sidecar file. -/
def rowC5 : Rec := [("current_path", .vstr "IMG_0001.xmp"), ("title", .vstr "Osprey")]

/-- A thumbnail environment whose only decodable file is a 200 × 100 JPEG. -/
def envC7 : ThumbEnv :=
  { rawThumbImage := fun _ => none
    openImage := fun p => if p = "/d/x.jpg" then some ⟨200, 100, "RGB", 7⟩ else none
    exifTransposeOut := id }

/-- An exiftool environment where the tool resolves but reports nothing and
no file has a sidecar. -/
def envC1 : ExifEnv :=
  { exiftoolAvailable := true, toolRec := fun _ => none, sidecarRows := fun _ => [] }

/-- `_METADATA_CACHE_MAX + 1` pairwise distinct, already-normalized absolute
paths (`/a`, `/aa`, …): one more fresh file than the cache ceiling admits in
a single batch, the input on which the cache write-back's eviction loop
raises. -/
def pathsC1bug : List String :=
  (List.range (_METADATA_CACHE_MAX + 1)).map
    (fun i => "/" ++ String.mk (List.replicate (i + 1) 'a'))

/-- An exiftool environment where the tool reports only an ISO tag for
`/d/a.arw` (no XMP indicator) and that file has a sidecar title. -/
def envC3 : ExifEnv :=
  { exiftoolAvailable := true
    toolRec := fun p =>
      if p = "/d/a.arw" then
        some [("SourceFile", .vstr "/d/a.arw"), ("ExifIFD:ISO", .vint 100)]
      else none
    sidecarRows := fun p => if p = "/d/a.arw" then [("XMP-dc", "title", "Osprey")] else [] }

/-- An exiftool environment with no tool and a sidecar only for
`/d/IMG_1.arw`. -/
def exifEnvC2 : ExifEnv :=
  { exiftoolAvailable := false
    toolRec := fun _ => none
    sidecarRows := fun p => if p = "/d/IMG_1.arw" then [("XMP-dc", "title", "Hawk")] else [] }

/-- A sparse report row: no display field, rating 0, not flying. -/
def rowC2 : Rec := [("rating", .vint 0)]

/-- A loader environment whose report cache hits stem `IMG_1` with the
sparse row `rowC2`. -/
def envC2 : LoaderEnv :=
  { exif := exifEnvC2
    reportCache := [("IMG_1", rowC2)]
    currentDir := some "/d"
    isfile := fun _ => false }

/-- The raw record the batch sidecar read yields for `/d/IMG_1.arw` under
`exifEnvC2`: the flat sidecar dict with its title alias back-filled. -/
def recC2 : Rec :=
  [("SourceFile", .vstr "/d/IMG_1.arw"), ("XMP-dc:title", .vstr "Hawk"),
   ("XMP-dc:Title", .vstr "Hawk")]

/-- One visible entry whose item still lacks a pixmap. -/
def rangeC8 : RangeData :=
  { thumbSize := 128, startRow := 0, endRow := 0, gridWidth := 160, gridHeight := 174
    totalItems := 1
    entries := [("/d/a.jpg", { hidden := false, hasPixmap := false, pixSize := 0 })] }

/-- A viewport environment serving `rangeC8`, with the same item in the
item map. -/
def envC8 : ViewEnv :=
  { range? := some rangeC8
    itemOf := fun p =>
      if p = "/d/a.jpg" then some { hidden := false, hasPixmap := false, pixSize := 0 }
      else none }

/-- Panel state in thumbnail mode at size 128 with a still-running job and
`rangeC8`'s signature already stored. -/
def stateC8 : PanelState :=
  { viewModeThumb := true, thumbSize := 128
    lastSignature := some rangeC8.signature, loaderRunning := true }

/-- Same panel state but with a different stored signature. -/
def stateC8b : PanelState :=
  { viewModeThumb := true, thumbSize := 128, lastSignature := none, loaderRunning := true }

/-- Invariant of the cache/dedup loop of `read_batch_metadata`, over its
accumulator `(seen, result, uncached)`: uncached normalized paths are
distinct, seen, and cache misses; every seen name is covered by the result
or an uncached path; the partial result agrees with the cache both ways;
and its keys are distinct seen names. -/
def rbmInv (cache : RecMap) (acc : List String × RecMap × List String) : Prop :=
  (acc.2.2.map os_path_normpath).Nodup ∧
  (∀ u ∈ acc.2.2, os_path_normpath u ∈ acc.1 ∧
    RecMap.get? cache (os_path_normpath u) = none) ∧
  (∀ n ∈ acc.1, (∃ rec, RecMap.get? acc.2.1 n = some rec) ∨
    ∃ u ∈ acc.2.2, os_path_normpath u = n) ∧
  (∀ n rec, RecMap.get? cache n = some rec → n ∈ acc.1 →
    RecMap.get? acc.2.1 n = some rec) ∧
  (∀ n rec, RecMap.get? acc.2.1 n = some rec → RecMap.get? cache n = some rec) ∧
  (PyDict.keys acc.2.1).Nodup ∧
  (∀ n, n ∈ PyDict.keys acc.2.1 → n ∈ acc.1)

/-- Shape invariant of `posixpath.normpath`'s kept component list: no
empty, dot or slash-holding component, the `..` components form a prefix,
and a rooted path keeps no `..` at all. -/
def NormInv (rooted : Bool) (l : List String) : Prop :=
  (∀ x ∈ l, x ≠ "" ∧ x ≠ "." ∧ '/' ∉ x.data) ∧
  (∃ k rest, l = List.replicate k ".." ++ rest ∧ ".." ∉ rest) ∧
  (rooted = true → ".." ∉ l)

/-! ### Dictionary lemmas -/

theorem PyDict.get?_nil (k : String) :
    PyDict.get? ([] : List (String × α)) k = none := rfl

theorem PyDict.get?_cons (kv : String × α) (m : PyDict α) (k : String) :
    PyDict.get? (kv :: m) k = if kv.1 = k then some kv.2 else PyDict.get? m k := rfl

theorem PyDict.set_nil (k : String) (v : α) :
    PyDict.set ([] : List (String × α)) k v = [(k, v)] := rfl

theorem PyDict.set_cons (kv : String × α) (m : PyDict α) (k : String) (v : α) :
    PyDict.set (kv :: m) k v =
      if kv.1 = k then (k, v) :: m else kv :: PyDict.set m k v := rfl

theorem PyDict.keys_nil : PyDict.keys ([] : List (String × α)) = [] := rfl

theorem PyDict.keys_cons (kv : String × α) (m : PyDict α) :
    PyDict.keys (kv :: m) = kv.1 :: PyDict.keys m := rfl

theorem PyDict.get?_set (m : PyDict α) (k k' : String) (v : α) :
    PyDict.get? (PyDict.set m k v) k' = if k = k' then some v else PyDict.get? m k' := by
  induction m with
  | nil =>
    by_cases h : k = k' <;>
      simp [PyDict.set_nil, PyDict.get?_cons, PyDict.get?_nil, h]
  | cons kv rest ih =>
    obtain ⟨k0, v0⟩ := kv
    by_cases h1 : k0 = k
    · subst h1
      by_cases h2 : k0 = k' <;>
        simp [PyDict.set_cons, PyDict.get?_cons, h2]
    · by_cases h2 : k0 = k'
      · subst h2
        have hkk : ¬ k = k0 := fun he => h1 he.symm
        simp [PyDict.set_cons, PyDict.get?_cons, h1, hkk]
      · simp [PyDict.set_cons, PyDict.get?_cons, h1, h2, ih]

theorem PyDict.get?_eq_none_iff (m : PyDict α) (k : String) :
    PyDict.get? m k = none ↔ k ∉ PyDict.keys m := by
  induction m with
  | nil => simp [PyDict.get?_nil, PyDict.keys_nil]
  | cons kv rest ih =>
    obtain ⟨k0, v0⟩ := kv
    by_cases h : k0 = k
    · subst h
      simp [PyDict.get?_cons, PyDict.keys_cons]
    · have h' : ¬ k = k0 := fun he => h he.symm
      simp [PyDict.get?_cons, PyDict.keys_cons, h, h', ih]

theorem PyDict.keys_set (m : PyDict α) (k : String) (v : α) :
    PyDict.keys (PyDict.set m k v) =
      if k ∈ PyDict.keys m then PyDict.keys m else PyDict.keys m ++ [k] := by
  induction m with
  | nil => simp [PyDict.set_nil, PyDict.keys_nil, PyDict.keys_cons]
  | cons kv rest ih =>
    obtain ⟨k0, v0⟩ := kv
    by_cases h : k0 = k
    · subst h
      simp [PyDict.set_cons, PyDict.keys_cons]
    · have h' : ¬ k = k0 := fun he => h he.symm
      by_cases hm : k ∈ PyDict.keys rest <;>
        simp [PyDict.set_cons, PyDict.keys_cons, h, h', hm, ih]

theorem PyDict.nodup_keys_set (m : PyDict α) (k : String) (v : α)
    (h : (PyDict.keys m).Nodup) : (PyDict.keys (PyDict.set m k v)).Nodup := by
  rw [PyDict.keys_set]
  by_cases hm : k ∈ PyDict.keys m
  · simpa [hm] using h
  · simp only [hm, if_false]
    rw [List.nodup_append]
    exact ⟨h, List.nodup_singleton k, List.disjoint_singleton.mpr hm⟩

theorem PyDict.length_set (m : PyDict α) (k : String) (v : α) :
    (PyDict.set m k v).length =
      if k ∈ PyDict.keys m then m.length else m.length + 1 := by
  induction m with
  | nil => simp [PyDict.set_nil, PyDict.keys_nil]
  | cons kv rest ih =>
    obtain ⟨k0, v0⟩ := kv
    by_cases h : k0 = k
    · subst h
      simp [PyDict.set_cons, PyDict.keys_cons]
    · have h' : ¬ k = k0 := fun he => h he.symm
      by_cases hm : k ∈ PyDict.keys rest <;>
        simp [PyDict.set_cons, PyDict.keys_cons, h, h', hm, ih]

/-- Last-match lookup: the value the final dict holds for `k` after all of
`other`'s entries have been assigned in order. -/
def PyDict.lastGet? (other : PyDict α) (k : String) : Option α :=
  match other with
  | [] => none
  | kv :: rest =>
    match PyDict.lastGet? rest k with
    | some v => some v
    | none => if kv.1 = k then some kv.2 else none

theorem PyDict.lastGet?_nil (k : String) :
    PyDict.lastGet? ([] : List (String × α)) k = none := rfl

theorem PyDict.lastGet?_cons (kv : String × α) (m : PyDict α) (k : String) :
    PyDict.lastGet? (kv :: m) k =
      match PyDict.lastGet? m k with
      | some v => some v
      | none => if kv.1 = k then some kv.2 else none := rfl

theorem PyDict.update_nil (m : PyDict α) : PyDict.update m ([] : List (String × α)) = m := rfl

theorem PyDict.update_cons (m : PyDict α) (kv : String × α) (rest : PyDict α) :
    PyDict.update m (kv :: rest) = PyDict.update (PyDict.set m kv.1 kv.2) rest := rfl

theorem PyDict.get?_update (m other : PyDict α) (k : String) :
    PyDict.get? (PyDict.update m other) k =
      match PyDict.lastGet? other k with
      | some v => some v
      | none => PyDict.get? m k := by
  induction other generalizing m with
  | nil => simp [PyDict.update_nil, PyDict.lastGet?_nil]
  | cons kv rest ih =>
    rw [PyDict.update_cons, ih, PyDict.lastGet?_cons]
    cases hl : PyDict.lastGet? rest k with
    | some v => simp
    | none =>
      rw [PyDict.get?_set]
      by_cases h : kv.1 = k <;> simp [h]

theorem PyDict.lastGet?_eq_get? (other : PyDict α) (k : String)
    (h : (PyDict.keys other).Nodup) :
    PyDict.lastGet? other k = PyDict.get? other k := by
  induction other with
  | nil => rfl
  | cons kv rest ih =>
    rw [PyDict.keys_cons, List.nodup_cons] at h
    rw [PyDict.lastGet?_cons, PyDict.get?_cons, ih h.2]
    by_cases hk : kv.1 = k
    · have : PyDict.get? rest k = none :=
        (PyDict.get?_eq_none_iff rest k).mpr (hk ▸ h.1)
      simp [this, hk]
    · simp only [hk, if_false]
      cases PyDict.get? rest k <;> simp

theorem PyDict.nodup_keys_update (m other : PyDict α)
    (h : (PyDict.keys m).Nodup) : (PyDict.keys (PyDict.update m other)).Nodup := by
  induction other generalizing m with
  | nil => simpa [PyDict.update_nil] using h
  | cons kv rest ih =>
    rw [PyDict.update_cons]
    exact ih _ (PyDict.nodup_keys_set m kv.1 kv.2 h)

theorem tget?_tset [DecidableEq κ] (m : List (κ × α)) (k k' : κ) (v : α) :
    tget? (tset m k v) k' = if k = k' then some v else tget? m k' := by
  induction m with
  | nil =>
    by_cases h : k = k' <;> simp [tget?, tset, h]
  | cons kv rest ih =>
    obtain ⟨k0, v0⟩ := kv
    by_cases h1 : k0 = k
    · subst h1
      by_cases h2 : k0 = k' <;> simp [tget?, tset, h2]
    · by_cases h2 : k0 = k'
      · subst h2
        have hkk : ¬ k = k0 := fun he => h1 he.symm
        simp [tget?, tset, h1, hkk]
      · simp [tget?, tset, h1, h2, ih]

/-! ### C6: thumbnail memory cache strategy -/

theorem scale_qimage_src (i : QImg) (s : Nat) :
    (_scale_qimage_for_thumb i s).src = i.src := by
  unfold _scale_qimage_for_thumb qimageScaledKeepAspect
  split_ifs <;> rfl

theorem scale_qimage_nonNull (i : QImg) (s : Nat) (h : i.isNull = false) :
    (_scale_qimage_for_thumb i s).isNull = false := by
  unfold _scale_qimage_for_thumb qimageScaledKeepAspect QImg.isNull at *
  split_ifs <;> simp_all

/-- C6: the thumbnail memory cache keys entries by `(path, size)` for
JPEG-like sources — two puts at different sizes occupy two independent,
retrievable slots — while every other source gets a single base bitmap per
path whose `get` at any size is the rescale of that base (same decode,
`src` preserved); and a `get` right after a `put` of a non-null image at
the same `(path, size)` yields a non-null image. -/
theorem c6_thumbnail_cache_strategy :
    (∀ cwd c p s₁ s₂ i₁ i₂, ThumbnailMemoryCache.isJpegLike p = true →
        i₁.isNull = false → i₂.isNull = false → s₁ ≠ s₂ →
        ThumbnailMemoryCache.get cwd
            (ThumbnailMemoryCache.put cwd (ThumbnailMemoryCache.put cwd c p s₁ i₁) p s₂ i₂)
            p s₁ = some i₁ ∧
        ThumbnailMemoryCache.get cwd
            (ThumbnailMemoryCache.put cwd (ThumbnailMemoryCache.put cwd c p s₁ i₁) p s₂ i₂)
            p s₂ = some i₂) ∧
    (∀ cwd c p s₀ s i, ThumbnailMemoryCache.isJpegLike p = false → i.isNull = false →
        ThumbnailMemoryCache.get cwd (ThumbnailMemoryCache.put cwd c p s₀ i) p s
          = some (_scale_qimage_for_thumb i s) ∧
        (_scale_qimage_for_thumb i s).src = i.src) ∧
    (∀ cwd c p s i, i.isNull = false →
        ∃ j, ThumbnailMemoryCache.get cwd (ThumbnailMemoryCache.put cwd c p s i) p s = some j
          ∧ j.isNull = false) := by
  refine ⟨?_, ?_, ?_⟩
  · intro cwd c p s₁ s₂ i₁ i₂ hj h1 h2 hne
    constructor <;>
      simp [ThumbnailMemoryCache.get, ThumbnailMemoryCache.put, hj, h1, h2,
        tget?_tset, hne, Ne.symm hne]
  · intro cwd c p s₀ s i hj hn
    refine ⟨?_, scale_qimage_src i s⟩
    simp [ThumbnailMemoryCache.get, ThumbnailMemoryCache.put, hj, hn, PyDict.get?_set]
  · intro cwd c p s i hn
    by_cases hj : ThumbnailMemoryCache.isJpegLike p
    · exact ⟨i, by simp [ThumbnailMemoryCache.get, ThumbnailMemoryCache.put, hj, hn,
        tget?_tset], hn⟩
    · refine ⟨_scale_qimage_for_thumb i s, ?_, scale_qimage_nonNull i s hn⟩
      simp [ThumbnailMemoryCache.get, ThumbnailMemoryCache.put, hj, hn, PyDict.get?_set]

/-- Witness for C6 at a concrete JPEG path, cache and images. -/
theorem c6_thumbnail_cache_strategy_witness :
    ThumbnailMemoryCache.get "/" (ThumbnailMemoryCache.put "/"
        (ThumbnailMemoryCache.put "/" ThumbnailMemoryCache.empty "/d/a.jpg" 128 ⟨10, 10, 1⟩)
        "/d/a.jpg" 256 ⟨20, 20, 2⟩) "/d/a.jpg" 128 = some ⟨10, 10, 1⟩ ∧
    ThumbnailMemoryCache.get "/" (ThumbnailMemoryCache.put "/"
        ThumbnailMemoryCache.empty "/d/b.arw" 1024 ⟨30, 20, 3⟩) "/d/b.arw" 128
      = some (_scale_qimage_for_thumb ⟨30, 20, 3⟩ 128) :=
  ⟨(c6_thumbnail_cache_strategy.1 "/" ThumbnailMemoryCache.empty "/d/a.jpg" 128 256
      ⟨10, 10, 1⟩ ⟨20, 20, 2⟩ (by decide) (by decide) (by decide) (by decide)).1,
   (c6_thumbnail_cache_strategy.2.1 "/" ThumbnailMemoryCache.empty "/d/b.arw" 1024 128
      ⟨30, 20, 3⟩ (by decide) (by decide)).1⟩

/-! ### C7: thumbnail build output size -/

/-- C7 counterexample: a 200 × 100 source decoded at requested size 128
yields a 128 × 64 bitmap — the canvas is the thumbnail's own size, not a
`size × size` square, so the claimed `width = height = size` fails. -/
theorem c7_square_output_counterexample :
    _load_thumbnail_image envC7 "/d/x.jpg" 128 = some ⟨128, 64, 7⟩ ∧ (64 : Nat) ≠ 128 :=
  ⟨by decide, by decide⟩

theorem pilThumbnailFit_le (w h s : Nat) (hs : 1 ≤ s) :
    (pilThumbnailFit w h s).1 ≤ s ∧ (pilThumbnailFit w h s).2 ≤ s := by
  unfold pilThumbnailFit
  split_ifs with h1 h2
  · exact ⟨h1.1, h1.2⟩
  · have hw : s < w := by
      by_contra hws
      exact h1 ⟨Nat.le_of_not_lt hws, le_trans h2 (Nat.le_of_not_lt hws)⟩
    have hwpos : 0 < w := lt_of_le_of_lt (Nat.zero_le s) hw
    refine ⟨le_refl s, ?_⟩
    have : h * s / w ≤ w * s / w := Nat.div_le_div_right (Nat.mul_le_mul_right s h2)
    rw [Nat.mul_div_cancel_left s hwpos] at this
    exact max_le hs this
  · have hwh : w < h := Nat.lt_of_not_le h2
    have hh : s < h := by
      by_contra hhs
      exact h1 ⟨le_trans (Nat.le_of_lt hwh) (Nat.le_of_not_lt hhs), Nat.le_of_not_lt hhs⟩
    have hhpos : 0 < h := lt_of_le_of_lt (Nat.zero_le s) hh
    refine ⟨?_, le_refl s⟩
    have : w * s / h ≤ h * s / h :=
      Nat.div_le_div_right (Nat.mul_le_mul_right s (Nat.le_of_lt hwh))
    rw [Nat.mul_div_cancel_left s hhpos] at this
    exact max_le hs this

/-- C7 (amended): for every source image that decodes successfully, the
thumbnail build returns the orientation-corrected image resized to fit
within `size × size` preserving aspect ratio (each side at most `size` when
`size ≥ 1`), flattened against the fixed-color canvas of the thumbnail's
own dimensions — so the output has the fitted dimensions and is square only
when they happen to coincide, not always `size × size`. -/
theorem c7_thumbnail_fit_amended (env : ThumbEnv) (path : String) (size : Nat)
    (img : PILImg) (h : _thumbSourceImage env path = some img) :
    _load_thumbnail_image env path size =
      some ⟨(pilThumbnailFit (env.exifTransposeOut img).width
               (env.exifTransposeOut img).height size).1,
            (pilThumbnailFit (env.exifTransposeOut img).width
               (env.exifTransposeOut img).height size).2,
            (env.exifTransposeOut img).src⟩ ∧
    (1 ≤ size →
      (pilThumbnailFit (env.exifTransposeOut img).width
        (env.exifTransposeOut img).height size).1 ≤ size ∧
      (pilThumbnailFit (env.exifTransposeOut img).width
        (env.exifTransposeOut img).height size).2 ≤ size) := by
  constructor
  · unfold _load_thumbnail_image
    rw [h]
  · exact fun hs => pilThumbnailFit_le _ _ _ hs

/-- Witness for C7's amended theorem at the concrete 200 × 100 source. -/
theorem c7_thumbnail_fit_amended_witness :
    _load_thumbnail_image envC7 "/d/x.jpg" 128 = some ⟨128, 64, 7⟩ :=
  ((c7_thumbnail_fit_amended envC7 "/d/x.jpg" 128 ⟨200, 100, "RGB", 7⟩ (by decide)).1).trans
    (by decide)

/-! ### C5: report-row trust / fallback decision -/

/-- C5 counterexample: `rowC5` carries a title (rich per the claim's list)
yet is still marked as needing fallback, because its recorded
`current_path` ends in `.xmp` — the claimed "exactly when" equivalence is
false on the code. -/
theorem c5_trust_condition_counterexample :
    ¬ (∀ row : Rec, _report_row_needs_file_fallback row = false ↔
        claimC5TrustRich row = true) := by
  intro hall
  exact (by decide : ¬ _report_row_needs_file_fallback rowC5 = false)
    ((hall rowC5).mpr (by decide))

/-- C5 (amended): a report row is trusted as-is (no fallback read planned)
iff its recorded `current_path` does not point at a `.xmp` sidecar AND it
carries at least one rich field from the code's list — title, species,
caption, city, state, country, focus status, **or the sharpness, aesthetic,
head-sharpness or eye-quality scores** — or a positive rating or the flying
flag. -/
theorem c5_trust_condition_amended (row : Rec) :
    _report_row_needs_file_fallback row = false ↔
      (strEnds (pyLower (pyStrip (_get_report_current_path_raw row))) ".xmp" = false ∧
       (reportRichKeys.any (fun k => _has_value (row.getV k)) = true ∨
        pyIntFloatStr (row.getV "rating") > 0 ∨
        pyIntFloatStr (row.getV "is_flying") = 1)) := by
  unfold _report_row_needs_file_fallback
  split_ifs with h1 h2 h3 _h4 <;> simp_all

/-! ### C10: shape of the converted report row -/

/-- The write condition of `_set`: the value is not `None` and, when a
string, not blank. -/
def rrKeep : PVal → Bool
  | .vnone => false
  | .vstr s => pyStrip s ≠ ""
  | _ => true

theorem rrSet_eq_ite (out : Rec) (k : String) (v : PVal) :
    rrSet out k v = if rrKeep v = true then Rec.set out k v else out := by
  cases v <;> simp [rrSet, rrKeep, Rec.set]

theorem get?_rrSet (out : Rec) (k : String) (v : PVal) (k' : String) :
    Rec.get? (rrSet out k v) k' =
      if k = k' ∧ rrKeep v = true then some v else Rec.get? out k' := by
  rw [rrSet_eq_ite]
  by_cases hkeep : rrKeep v = true
  · simp only [hkeep, if_true]
    show PyDict.get? (PyDict.set out k v) k' = _
    rw [PyDict.get?_set]
    by_cases hk : k = k' <;> simp [hk, hkeep, Rec.get?]
  · simp [hkeep]

theorem get?_recSet (out : Rec) (k : String) (v : PVal) (k' : String) :
    Rec.get? (Rec.set out k v) k' = if k = k' then some v else Rec.get? out k' :=
  PyDict.get?_set out k k' v

/-- A value `_set` accepts is non-`None` and non-blank. -/
theorem goodVal_of_rrKeep (v : PVal) (h : rrKeep v = true) :
    v ≠ .vnone ∧ ∀ s, v = .vstr s → pyStrip s ≠ "" := by
  cases v <;> simp_all [rrKeep]

/-- Every non-`SourceFile` key of the record holds a non-`None`, non-blank
value. -/
def GoodRec (out : Rec) : Prop :=
  ∀ k v, k ≠ "SourceFile" → Rec.get? out k = some v →
    v ≠ .vnone ∧ ∀ s, v = .vstr s → pyStrip s ≠ ""

theorem goodRec_rrSet (out : Rec) (k : String) (v : PVal) (H : GoodRec out) :
    GoodRec (rrSet out k v) := by
  intro k' v' hk hget
  rw [get?_rrSet] at hget
  split_ifs at hget with hc
  · cases hget
    exact goodVal_of_rrKeep _ hc.2
  · exact H k' v' hk hget

theorem goodRec_set_vint (out : Rec) (k : String) (n : Int) (H : GoodRec out) :
    GoodRec (Rec.set out k (.vint n)) := by
  intro k' v' hk hget
  rw [get?_recSet] at hget
  split_ifs at hget with hc
  · cases hget
    simp
  · exact H k' v' hk hget

theorem goodRec_ite (c : Prop) [Decidable c] (a b : Rec) (ha : GoodRec a)
    (hb : GoodRec b) : GoodRec (if c then a else b) := by
  split_ifs <;> assumption

theorem goodRec_base (sf : String) : GoodRec [("SourceFile", .vstr sf)] := by
  intro k v hk hget
  rw [show Rec.get? [("SourceFile", .vstr sf)] k
      = if "SourceFile" = k then some (.vstr sf) else none from rfl] at hget
  rw [if_neg (fun hc => hk hc.symm)] at hget
  cases hget

theorem report_row_goodRec (row : Rec) (sf : String) :
    GoodRec (report_row_to_exiftool_style row sf) := by
  unfold report_row_to_exiftool_style
  lift_lets
  intro o1 species o2 o3 o4 focus fc o5 o6 o7 sharp o8 topiq o9 focus_str o10 r o11
    o12 o13 o14 o15 o16 o17 o18 o19 o20 o21 fl o22 fl35 o23 o24 o25 lat o26 lon o27
    alt o28
  have g1 : GoodRec o1 := goodRec_base sf
  have g2 : GoodRec o2 := goodRec_ite _ _ _
    (goodRec_rrSet _ _ _ (goodRec_rrSet _ _ _ (goodRec_rrSet _ _ _ g1)))
    (goodRec_rrSet _ _ _ (goodRec_rrSet _ _ _ (goodRec_rrSet _ _ _ g1)))
  have g3 : GoodRec o3 := goodRec_rrSet _ _ _ g2
  have g4 : GoodRec o4 := goodRec_rrSet _ _ _ g3
  have g5 : GoodRec o5 := goodRec_rrSet _ _ _ g4
  have g6 : GoodRec o6 := goodRec_rrSet _ _ _ g5
  have g7 : GoodRec o7 := goodRec_rrSet _ _ _ g6
  have g8 : GoodRec o8 := goodRec_ite _ _ _
    (goodRec_rrSet _ _ _ (goodRec_rrSet _ _ _ g7))
    (goodRec_rrSet _ _ _ (goodRec_rrSet _ _ _ g7))
  have g9 : GoodRec o9 := goodRec_ite _ _ _
    (goodRec_rrSet _ _ _ (goodRec_rrSet _ _ _ g8))
    (goodRec_rrSet _ _ _ (goodRec_rrSet _ _ _ g8))
  have g10 : GoodRec o10 := goodRec_ite _ _ _ (goodRec_rrSet _ _ _ g9)
    (goodRec_ite _ _ _ (goodRec_rrSet _ _ _ g9) g9)
  have g11 : GoodRec o11 := by
    unfold_let o11
    split_ifs with hr
    · cases hng : pyIntOfVal? r with
      | none => exact g10
      | some n => exact goodRec_set_vint _ _ _ g10
    · exact g10
  have g12 : GoodRec o12 := goodRec_rrSet _ _ _ g11
  have g13 : GoodRec o13 := goodRec_rrSet _ _ _ g12
  have g14 : GoodRec o14 := goodRec_rrSet _ _ _ g13
  have g15 : GoodRec o15 := goodRec_rrSet _ _ _ g14
  have g16 : GoodRec o16 := goodRec_rrSet _ _ _ g15
  have g17 : GoodRec o17 := goodRec_rrSet _ _ _ g16
  have g18 : GoodRec o18 := goodRec_rrSet _ _ _ g17
  have g19 : GoodRec o19 := goodRec_rrSet _ _ _ g18
  have g20 : GoodRec o20 := goodRec_rrSet _ _ _ g19
  have g21 : GoodRec o21 := goodRec_rrSet _ _ _ g20
  have g22 : GoodRec o22 := goodRec_ite _ _ _
    (goodRec_rrSet _ _ _ (goodRec_rrSet _ _ _ g21)) g21
  have g23 : GoodRec o23 := goodRec_ite _ _ _
    (goodRec_rrSet _ _ _ (goodRec_rrSet _ _ _ g22)) g22
  have g24 : GoodRec o24 := goodRec_rrSet _ _ _ g23
  have g25 : GoodRec o25 := goodRec_rrSet _ _ _ g24
  have g26 : GoodRec o26 := goodRec_ite _ _ _
    (goodRec_rrSet _ _ _ (goodRec_rrSet _ _ _ g25)) g25
  have g27 : GoodRec o27 := goodRec_ite _ _ _
    (goodRec_rrSet _ _ _ (goodRec_rrSet _ _ _ g26)) g26
  have g28 : GoodRec o28 := goodRec_ite _ _ _
    (goodRec_rrSet _ _ _ (goodRec_rrSet _ _ _ g27)) g27
  exact g28

theorem report_row_rating_char (row : Rec) (sf : String) :
    Rec.get? (report_row_to_exiftool_style row sf) "XMP-xmp:Rating" =
      (if row.getV "rating" ≠ .vnone then
        match pyIntOfVal? (row.getV "rating") with
        | some n => some (.vint (max 0 (min 5 n)))
        | none => none
      else none) := by
  unfold report_row_to_exiftool_style
  lift_lets
  intro o1 species o2 o3 o4 focus fc o5 o6 o7 sharp o8 topiq o9 focus_str o10 r o11
    o12 o13 o14 o15 o16 o17 o18 o19 o20 o21 fl o22 fl35 o23 o24 o25 lat o26 lon o27
    alt o28
  have e1 : Rec.get? o1 "XMP-xmp:Rating" = none := rfl
  have e2 : Rec.get? o2 "XMP-xmp:Rating" = none := by
    unfold_let o2; split_ifs <;> simp [get?_rrSet, e1]
  have e3 : Rec.get? o3 "XMP-xmp:Rating" = none := by
    unfold_let o3; simp [get?_rrSet, e2]
  have e4 : Rec.get? o4 "XMP-xmp:Rating" = none := by
    unfold_let o4; simp [get?_rrSet, e3]
  have e5 : Rec.get? o5 "XMP-xmp:Rating" = none := by
    unfold_let o5; simp [get?_rrSet, e4]
  have e6 : Rec.get? o6 "XMP-xmp:Rating" = none := by
    unfold_let o6; simp [get?_rrSet, e5]
  have e7 : Rec.get? o7 "XMP-xmp:Rating" = none := by
    unfold_let o7; simp [get?_rrSet, e6]
  have e8 : Rec.get? o8 "XMP-xmp:Rating" = none := by
    unfold_let o8; split_ifs <;> simp [get?_rrSet, e7]
  have e9 : Rec.get? o9 "XMP-xmp:Rating" = none := by
    unfold_let o9; split_ifs <;> simp [get?_rrSet, e8]
  have e10 : Rec.get? o10 "XMP-xmp:Rating" = none := by
    unfold_let o10; split_ifs <;> simp [get?_rrSet, e9]
  have e11 : Rec.get? o11 "XMP-xmp:Rating" =
      (if r ≠ .vnone then
        match pyIntOfVal? r with
        | some n => some (PVal.vint (max 0 (min 5 n)))
        | none => none
      else none) := by
    unfold_let o11
    split_ifs with hr
    · cases hng : pyIntOfVal? r with
      | none => simpa using e10
      | some n => simp [get?_recSet]
    · simpa using e10
  have e12 : Rec.get? o12 "XMP-xmp:Rating" = Rec.get? o11 "XMP-xmp:Rating" := by
    unfold_let o12; simp [get?_rrSet]
  have e13 : Rec.get? o13 "XMP-xmp:Rating" = Rec.get? o12 "XMP-xmp:Rating" := by
    unfold_let o13; simp [get?_rrSet]
  have e14 : Rec.get? o14 "XMP-xmp:Rating" = Rec.get? o13 "XMP-xmp:Rating" := by
    unfold_let o14; simp [get?_rrSet]
  have e15 : Rec.get? o15 "XMP-xmp:Rating" = Rec.get? o14 "XMP-xmp:Rating" := by
    unfold_let o15; simp [get?_rrSet]
  have e16 : Rec.get? o16 "XMP-xmp:Rating" = Rec.get? o15 "XMP-xmp:Rating" := by
    unfold_let o16; simp [get?_rrSet]
  have e17 : Rec.get? o17 "XMP-xmp:Rating" = Rec.get? o16 "XMP-xmp:Rating" := by
    unfold_let o17; simp [get?_rrSet]
  have e18 : Rec.get? o18 "XMP-xmp:Rating" = Rec.get? o17 "XMP-xmp:Rating" := by
    unfold_let o18; simp [get?_rrSet]
  have e19 : Rec.get? o19 "XMP-xmp:Rating" = Rec.get? o18 "XMP-xmp:Rating" := by
    unfold_let o19; simp [get?_rrSet]
  have e20 : Rec.get? o20 "XMP-xmp:Rating" = Rec.get? o19 "XMP-xmp:Rating" := by
    unfold_let o20; simp [get?_rrSet]
  have e21 : Rec.get? o21 "XMP-xmp:Rating" = Rec.get? o20 "XMP-xmp:Rating" := by
    unfold_let o21; simp [get?_rrSet]
  have e22 : Rec.get? o22 "XMP-xmp:Rating" = Rec.get? o21 "XMP-xmp:Rating" := by
    unfold_let o22; split_ifs <;> simp [get?_rrSet]
  have e23 : Rec.get? o23 "XMP-xmp:Rating" = Rec.get? o22 "XMP-xmp:Rating" := by
    unfold_let o23; split_ifs <;> simp [get?_rrSet]
  have e24 : Rec.get? o24 "XMP-xmp:Rating" = Rec.get? o23 "XMP-xmp:Rating" := by
    unfold_let o24; simp [get?_rrSet]
  have e25 : Rec.get? o25 "XMP-xmp:Rating" = Rec.get? o24 "XMP-xmp:Rating" := by
    unfold_let o25; simp [get?_rrSet]
  have e26 : Rec.get? o26 "XMP-xmp:Rating" = Rec.get? o25 "XMP-xmp:Rating" := by
    unfold_let o26; split_ifs <;> simp [get?_rrSet]
  have e27 : Rec.get? o27 "XMP-xmp:Rating" = Rec.get? o26 "XMP-xmp:Rating" := by
    unfold_let o27; split_ifs <;> simp [get?_rrSet]
  have e28 : Rec.get? o28 "XMP-xmp:Rating" = Rec.get? o27 "XMP-xmp:Rating" := by
    unfold_let o28; split_ifs <;> simp [get?_rrSet]
  rw [e28, e27, e26, e25, e24, e23, e22, e21, e20, e19, e18, e17, e16, e15, e14,
    e13, e12, e11]

/-- C10: the exiftool-style record built from a report row carries, besides
`SourceFile`, only non-`None` and (for strings) non-blank values; its
`XMP-xmp:Rating`, when present, is an integer clamped into `[0, 5]`; and a
database rating of `-1` (reject) surfaces as `0`, so the reject state is
not reconstructible from the converted record. -/
theorem c10_report_row_values (row : Rec) (source_file : String) :
    (∀ k v, k ≠ "SourceFile" →
      Rec.get? (report_row_to_exiftool_style row source_file) k = some v →
      v ≠ .vnone ∧ ∀ s, v = .vstr s → pyStrip s ≠ "") ∧
    (∀ v, Rec.get? (report_row_to_exiftool_style row source_file) "XMP-xmp:Rating" = some v →
      ∃ n : Int, v = .vint n ∧ 0 ≤ n ∧ n ≤ 5) ∧
    (row.getV "rating" = .vint (-1) →
      Rec.get? (report_row_to_exiftool_style row source_file) "XMP-xmp:Rating"
        = some (.vint 0)) := by
  refine ⟨report_row_goodRec row source_file, ?_, ?_⟩
  · intro v hv
    rw [report_row_rating_char] at hv
    split_ifs at hv with hr
    · cases hng : pyIntOfVal? (row.getV "rating") with
      | none => rw [hng] at hv; cases hv
      | some n =>
        rw [hng] at hv
        cases hv
        exact ⟨max 0 (min 5 n), rfl, le_max_left 0 _, max_le (by omega) (min_le_left 5 n)⟩
  · intro h
    rw [report_row_rating_char, h]
    simp [pyIntOfVal?]

/-- Witness for C10 at a concrete row with rating −1. -/
theorem c10_report_row_values_witness :
    Rec.get? (report_row_to_exiftool_style [("rating", .vint (-1))] "/d/a.arw")
      "XMP-xmp:Rating" = some (.vint 0) :=
  (c10_report_row_values [("rating", .vint (-1))] "/d/a.arw").2.2 (by decide)

/-! ### C9: chunking transparency of `extract_many` -/

theorem chunked_flatten_of_le (size : Nat) (hs : 1 ≤ size) :
    ∀ (n : Nat) (l : List α), l.length ≤ n → (_chunked size l).flatten = l := by
  intro n
  induction n with
  | zero =>
    intro l hl
    have : l = [] := List.length_eq_zero.mp (Nat.le_zero.mp hl)
    subst this
    rw [_chunked]
    rfl
  | succ n ih =>
    intro l hl
    match l with
    | [] =>
      rw [_chunked]
      rfl
    | x :: xs =>
      rw [_chunked]
      have hsz : ¬ size = 0 := Nat.pos_iff_ne_zero.mp hs
      rw [dif_neg hsz, List.flatten_cons]
      have hd : ((x :: xs).drop size).length ≤ n := by
        have hlen : (x :: xs).length ≤ n + 1 := hl
        rw [List.length_drop]
        omega
      rw [ih _ hd, List.take_append_drop]

theorem chunked_flatten (size : Nat) (hs : 1 ≤ size) (l : List α) :
    (_chunked size l).flatten = l :=
  chunked_flatten_of_le size hs l.length l (le_refl _)

theorem foldl_over_chunk_payloads (g : String → Option Rec) (step : RecMap → Rec → RecMap) :
    ∀ (chunks : List (List String)) (init : RecMap),
      chunks.foldl (fun r ch => (ch.filterMap g).foldl step r) init
        = (chunks.flatten.filterMap g).foldl step init := by
  intro chunks
  induction chunks with
  | nil => intro init; rfl
  | cons ch rest ih =>
    intro init
    rw [List.foldl_cons, List.flatten_cons, List.filterMap_append, List.foldl_append, ih]

/-- `_batch_read_exiftool_full` is determined by the concatenated per-file
payloads, independently of the chunk size (barring the degenerate size 0,
which no caller passes). -/
theorem batch_read_full_chunk_free (env : ReaderEnv) (paths : List String)
    (c : Nat) (hc : 1 ≤ c) :
    _batch_read_exiftool_full env paths c =
      (paths.filterMap (fun p => env.toolRec (os_path_normpath p))).foldl
        readerStoreItem [] := by
  unfold _batch_read_exiftool_full readerChunkPayload
  rw [foldl_over_chunk_payloads, chunked_flatten c hc paths]

/-- C9: with the tool's availability and per-file outputs held fixed,
`extract_many` over chunk sizes 1, 50 and N produces the same result map. -/
theorem c9_chunk_transparency (env : ReaderEnv) (mode : String) (paths : List String)
    (hne : paths ≠ []) :
    extract_many env paths mode 1 = extract_many env paths mode 50 ∧
    extract_many env paths mode 50 = extract_many env paths mode paths.length := by
  have key : ∀ c1 c2 : Nat, 1 ≤ c1 → 1 ≤ c2 →
      extract_many env paths mode c1 = extract_many env paths mode c2 := by
    intro c1 c2 h1 h2
    have hb1 : ∀ l : List String, _batch_read_exiftool_full env l c1 =
        (l.filterMap (fun p => env.toolRec (os_path_normpath p))).foldl readerStoreItem [] :=
      fun l => batch_read_full_chunk_free env l c1 h1
    have hb2 : ∀ l : List String, _batch_read_exiftool_full env l c2 =
        (l.filterMap (fun p => env.toolRec (os_path_normpath p))).foldl readerStoreItem [] :=
      fun l => batch_read_full_chunk_free env l c2 h2
    unfold extract_many
    simp only [hb1, hb2]
  exact ⟨key 1 50 (by omega) (by omega),
    key 50 paths.length (by omega) (List.length_pos.mpr hne)⟩

/-- Witness for C9 on a concrete two-file environment. -/
theorem c9_chunk_transparency_witness :
    extract_many
        { exiftoolAvailable := true
          toolRec := fun p => if p = "/d/a.jpg" then some [("SourceFile", .vstr "/d/a.jpg")] else none
          pillowRec := fun p => [("SourceFile", .vstr p)]
          resolvePath := fun p => some p }
        ["/d/a.jpg", "/d/b.jpg"] "auto" 1 =
      extract_many
        { exiftoolAvailable := true
          toolRec := fun p => if p = "/d/a.jpg" then some [("SourceFile", .vstr "/d/a.jpg")] else none
          pillowRec := fun p => [("SourceFile", .vstr p)]
          resolvePath := fun p => some p }
        ["/d/a.jpg", "/d/b.jpg"] "auto" 50 :=
  (c9_chunk_transparency _ "auto" ["/d/a.jpg", "/d/b.jpg"] (by decide)).1

/-! ### C8: viewport thumbnail scheduling -/

theorem startReq_fold_mem (env : ViewEnv) (ts : Nat) :
    ∀ (paths : List String) (acc : List String × List String),
      (∀ q ∈ acc.2, ∃ it, env.itemOf q = some it ∧ it.hidden = false ∧
        itemHasCurrentPixmap ts it = false) →
      ∀ p ∈ (paths.foldl (startReqStep env ts) acc).2,
        ∃ it, env.itemOf p = some it ∧ it.hidden = false ∧
          itemHasCurrentPixmap ts it = false := by
  intro paths
  induction paths with
  | nil => exact fun acc hacc p hp => hacc p hp
  | cons q rest ih =>
    intro acc hacc p hp
    rw [List.foldl_cons] at hp
    refine ih _ ?_ p hp
    intro x hx
    unfold startReqStep at hx
    by_cases hmem : os_path_normpath q ∈ acc.1
    · rw [if_pos hmem] at hx
      exact hacc x hx
    · rw [if_neg hmem] at hx
      cases hit : env.itemOf (os_path_normpath q) with
      | none =>
        rw [hit] at hx
        exact hacc x hx
      | some it =>
        rw [hit] at hx
        dsimp only at hx
        by_cases hh : it.hidden
        · rw [if_pos hh] at hx
          exact hacc x hx
        · rw [if_neg hh] at hx
          by_cases hc : itemHasCurrentPixmap ts it = true
          · rw [if_pos hc] at hx
            exact hacc x hx
          · rw [if_neg hc] at hx
            rcases List.mem_append.mp hx with hold | hnew
            · exact hacc x hold
            · have : x = os_path_normpath q := List.mem_singleton.mp hnew
              subst this
              exact ⟨it, hit, Bool.not_eq_true _ ▸ (by simpa using hh),
                Bool.not_eq_true _ ▸ (by simpa using hc)⟩

theorem startLoader_trace (env : ViewEnv) (state : PanelState) (paths : List String)
    (hv : state.viewModeThumb = true) :
    (startThumbnailLoader env state paths).2 =
      if (paths.foldl (startReqStep env state.thumbSize) ([], [])).2 = [] then []
      else
        (if state.loaderRunning then [SchedEvent.stopLoader] else []) ++
          [SchedEvent.submitBatch ((paths.foldl (startReqStep env state.thumbSize) ([], [])).2)] := by
  unfold startThumbnailLoader
  rw [if_neg (by simp [hv])]
  split_ifs <;> rfl

theorem updateTrace_eq (env : ViewEnv) (state : PanelState) (r : RangeData)
    (hr : env.range? = some r) (hv : state.viewModeThumb = true)
    (he : r.entries ≠ []) :
    (updateVisibleThumbnailRange env state).2 =
      if (state.lastSignature = some r.signature : Bool)
          ∧ (collectMissing state.thumbSize r.entries = [] ∨ state.loaderRunning) then []
      else if collectMissing state.thumbSize r.entries = [] then []
      else (startThumbnailLoader env { state with lastSignature := some r.signature }
        (collectMissing state.thumbSize r.entries)).2 := by
  unfold updateVisibleThumbnailRange
  rw [hr, if_neg (by simp [hv])]
  dsimp only
  rw [if_neg he]
  split_ifs <;> rfl

theorem updateTrace_nil_of_not_thumb (env : ViewEnv) (state : PanelState)
    (hv : ¬ state.viewModeThumb = true) :
    (updateVisibleThumbnailRange env state).2 = [] := by
  unfold updateVisibleThumbnailRange
  rw [if_pos (by simp [hv])]

theorem updateTrace_nil_of_no_range (env : ViewEnv) (state : PanelState)
    (hr : env.range? = none) :
    (updateVisibleThumbnailRange env state).2 = [] := by
  unfold updateVisibleThumbnailRange
  rw [hr]
  split_ifs <;> rfl

theorem updateTrace_nil_of_no_entries (env : ViewEnv) (state : PanelState)
    (r : RangeData) (hr : env.range? = some r) (he : r.entries = []) :
    (updateVisibleThumbnailRange env state).2 = [] := by
  unfold updateVisibleThumbnailRange
  rw [hr]
  split_ifs with h1 <;> try rfl
  dsimp only
  rw [if_pos he]

/-- C8: (a) a viewport update whose computed signature equals the stored
one while the previous job still runs emits nothing; (b) whenever a batch
is submitted while a job was running, a stop of that job precedes the
submission in the emitted action sequence; (c) a submitted batch contains
only paths whose item exists, is visible, and does not already hold a
pixmap at the exact current thumbnail size. -/
theorem c8_viewport_scheduling :
    (∀ env state r, env.range? = some r →
        state.lastSignature = some r.signature → state.loaderRunning = true →
        (updateVisibleThumbnailRange env state).2 = []) ∧
    (∀ env state batch,
        SchedEvent.submitBatch batch ∈ (updateVisibleThumbnailRange env state).2 →
        state.loaderRunning = true →
        (updateVisibleThumbnailRange env state).2 =
          [SchedEvent.stopLoader, SchedEvent.submitBatch batch]) ∧
    (∀ env state batch p,
        SchedEvent.submitBatch batch ∈ (updateVisibleThumbnailRange env state).2 →
        p ∈ batch →
        ∃ it, env.itemOf p = some it ∧ it.hidden = false ∧
          itemHasCurrentPixmap state.thumbSize it = false) := by
  refine ⟨?_, ?_, ?_⟩
  · intro env state r hr hsig hrun
    unfold updateVisibleThumbnailRange
    rw [hr]
    by_cases hv : state.viewModeThumb
    · by_cases he : r.entries = [] <;> simp [hv, he, hsig, hrun]
    · simp [hv]
  · intro env state batch hm hrun
    by_cases hv : state.viewModeThumb
    · cases henv : env.range? with
      | none =>
        rw [updateTrace_nil_of_no_range env state henv] at hm
        simp at hm
      | some r =>
        by_cases he : r.entries = []
        · rw [updateTrace_nil_of_no_entries env state r henv he] at hm
          simp at hm
        · rw [updateTrace_eq env state r henv hv he] at hm ⊢
          split_ifs at hm ⊢ with h1 h2
          · simp at hm
          · simp at hm
          · rw [startLoader_trace env { state with lastSignature := some r.signature }
              (collectMissing state.thumbSize r.entries) hv] at hm ⊢
            split_ifs at hm ⊢ with h3
            · simp at hm
            · rw [show ({ state with lastSignature := some r.signature } :
                  PanelState).loaderRunning = state.loaderRunning from rfl, hrun] at hm ⊢
              rw [List.singleton_append] at hm ⊢
              rcases List.mem_cons.mp hm with h | h
              · simp at h
              · have hb := List.mem_singleton.mp h
                injection hb with hb2
                rw [hb2]
    · rw [updateTrace_nil_of_not_thumb env state (by simp [hv])] at hm
      simp at hm
  · intro env state batch p hm hp
    by_cases hv : state.viewModeThumb
    · cases henv : env.range? with
      | none =>
        rw [updateTrace_nil_of_no_range env state henv] at hm
        simp at hm
      | some r =>
        by_cases he : r.entries = []
        · rw [updateTrace_nil_of_no_entries env state r henv he] at hm
          simp at hm
        · rw [updateTrace_eq env state r henv hv he] at hm
          split_ifs at hm with h1 h2
          · simp at hm
          · simp at hm
          · rw [startLoader_trace env { state with lastSignature := some r.signature }
              (collectMissing state.thumbSize r.entries) hv] at hm
            split_ifs at hm with h3 hlr
            · simp at hm
            all_goals (
              have hbatch : batch =
                  ((collectMissing state.thumbSize r.entries).foldl
                    (startReqStep env ({ state with lastSignature := some r.signature } :
                      PanelState).thumbSize) ([], [])).2 := by
                rcases List.mem_append.mp hm with h | h
                · simp at h
                · have hb := List.mem_singleton.mp h
                  injection hb
              rw [hbatch] at hp
              exact startReq_fold_mem env state.thumbSize _ ([], [])
                (fun q hq => absurd hq (List.not_mem_nil q)) p hp)
    · rw [updateTrace_nil_of_not_thumb env state (by simp [hv])] at hm
      simp at hm

/-- Witness for C8: a same-signature update with a running job emits
nothing, and a fresh-signature update emits a stop followed by one batch. -/
theorem c8_viewport_scheduling_witness :
    (updateVisibleThumbnailRange envC8 stateC8).2 = [] ∧
    (∃ it, envC8.itemOf "/d/a.jpg" = some it ∧ it.hidden = false ∧
      itemHasCurrentPixmap stateC8b.thumbSize it = false) :=
  ⟨c8_viewport_scheduling.1 envC8 stateC8 rangeC8 (by decide) (by decide) (by decide),
   c8_viewport_scheduling.2.2 envC8 stateC8b ["/d/a.jpg"] "/d/a.jpg" (by decide) (by decide)⟩

/-! ### C3: sidecar consultation condition and overlay semantics -/

theorem Rec.getV_set (r : Rec) (k k' : String) (v : PVal) :
    Rec.getV (Rec.set r k' v) k = if k' = k then v else Rec.getV r k := by
  unfold Rec.getV Rec.set
  rw [PyDict.get?_set]
  by_cases h : k' = k <;> simp [h]

theorem getV_set_preserve (r : Rec) (k dst : String) (v : PVal)
    (hd : (Rec.getV r dst).truthy = false) (h : (Rec.getV r k).truthy = true) :
    Rec.getV (Rec.set r dst v) k = Rec.getV r k := by
  have hne : dst ≠ k := by
    intro he
    rw [he, h] at hd
    simp at hd
  rw [Rec.getV_set, if_neg hne]

theorem aliasStep_preserve (r : Rec) (src dst k : String)
    (h : (Rec.getV r k).truthy = true) :
    Rec.getV (aliasStep r src dst) k = Rec.getV r k := by
  unfold aliasStep
  split_ifs with hc
  · exact getV_set_preserve r k dst _ (by simpa using hc.2) h
  · rfl

theorem aliases_preserve (rec : Rec) (k : String)
    (h : (Rec.getV rec k).truthy = true) :
    Rec.getV (_apply_browser_metadata_aliases rec) k = Rec.getV rec k := by
  unfold _apply_browser_metadata_aliases
  have h1 := aliasStep_preserve rec "XMP-photoshop:Country" "XMP:Country" k h
  have h1t : (Rec.getV (aliasStep rec "XMP-photoshop:Country" "XMP:Country") k).truthy
      = true := by rw [h1]; exact h
  have h2 := aliasStep_preserve _ "XMP-photoshop:Country-PrimaryLocationName"
    "XMP:Country" k h1t
  have h2t : (Rec.getV (aliasStep (aliasStep rec "XMP-photoshop:Country" "XMP:Country")
      "XMP-photoshop:Country-PrimaryLocationName" "XMP:Country") k).truthy = true := by
    rw [h2, h1]; exact h
  have h3 := aliasStep_preserve _ "XMP-dc:title" "XMP-dc:Title" k h2t
  rw [h3, h2, h1]

theorem sidecarOverlay_cons (rec : Rec) (g : XmpRow) (rows : List XmpRow) :
    sidecarOverlay rec (g :: rows) =
      sidecarOverlay
        (if (rec.getV (g.1 ++ ":" ++ g.2.1)).truthy then rec
         else rec.set (g.1 ++ ":" ++ g.2.1) (.vstr g.2.2)) rows := rfl

theorem sidecarOverlay_preserve (rows : List XmpRow) :
    ∀ (rec : Rec) (k : String), (Rec.getV rec k).truthy = true →
    Rec.getV (sidecarOverlay rec rows) k = Rec.getV rec k := by
  induction rows with
  | nil => intro rec k _; rfl
  | cons g rows ih =>
    intro rec k h
    rw [sidecarOverlay_cons]
    by_cases ht : (Rec.getV rec (g.1 ++ ":" ++ g.2.1)).truthy = true
    · rw [if_pos ht]
      exact ih rec k h
    · have ht' : (Rec.getV rec (g.1 ++ ":" ++ g.2.1)).truthy = false := by simpa using ht
      rw [if_neg ht]
      have hp := getV_set_preserve rec k _ (PVal.vstr g.2.2) ht' h
      rw [ih _ k (by rw [hp]; exact h), hp]

theorem mergeSidecar_preserve (rec : Rec) (rows : List XmpRow) (k : String)
    (h : (Rec.getV rec k).truthy = true) :
    Rec.getV (mergeSidecarIntoRec rec rows) k = Rec.getV rec k := by
  unfold mergeSidecarIntoRec
  have h1 := sidecarOverlay_preserve rows rec k h
  rw [aliases_preserve _ k (by rw [h1]; exact h), h1]

theorem read_batch_metadata_eq (env : ExifEnv) (cache : RecMap) (paths : List String) :
    read_batch_metadata env cache paths =
      if paths = [] then ([], cache, ⟨0, []⟩)
      else if (rbmSplit cache paths).2 = [] then ((rbmSplit cache paths).1, cache, ⟨0, []⟩)
      else (RecMap.update (rbmSplit cache paths).1 (rbmNewResult env (rbmSplit cache paths).2),
        cacheWriteBack cache (rbmNewResult env (rbmSplit cache paths).2),
        ⟨if env.exiftoolAvailable then 1 else 0,
          rbmMissing env (rbmSplit cache paths).2 ++
            rbmNeedMerge env (rbmSplit cache paths).2⟩) := rfl

/-- C3: a sidecar read of `read_batch_metadata` happens only for a path
whose exiftool stage produced no record at all, or whose already-obtained
record carries none of the fixed XMP-indicator tags; and the subsequent
merge is an overlay — every key holding a truthy value in the non-sidecar
record keeps that value through the merge. -/
theorem c3_sidecar_overlay_merge :
    (∀ (env : ExifEnv) (cache : RecMap) (paths : List String) (p : String),
      p ∈ (read_batch_metadata env cache paths).2.2.sidecarReads →
      RecMap.get? (rbmToolResult env (rbmSplit cache paths).2) (os_path_normpath p) = none ∨
      (∀ rec, RecMap.get? (rbmPreMerge env (rbmSplit cache paths).2) (os_path_normpath p) =
          some rec → recHasXmpIndicator rec = false)) ∧
    (∀ (rec : Rec) (rows : List XmpRow) (k : String),
      (Rec.getV rec k).truthy = true →
      Rec.getV (mergeSidecarIntoRec rec rows) k = Rec.getV rec k) := by
  constructor
  · intro env cache paths p hp
    rw [read_batch_metadata_eq] at hp
    by_cases h0 : paths = []
    · rw [if_pos h0] at hp
      simp at hp
    · rw [if_neg h0] at hp
      by_cases h1 : (rbmSplit cache paths).2 = []
      · rw [if_pos h1] at hp
        simp at hp
      · rw [if_neg h1] at hp
        rcases List.mem_append.mp hp with hm | hm
        · left
          rw [rbmMissing] at hm
          have h2 := (List.mem_filter.mp hm).2
          simpa using h2
        · right
          intro rec hrec
          rw [rbmNeedMerge] at hm
          have h2 := (List.mem_filter.mp hm).2
          rw [hrec] at h2
          simpa using h2
  · intro rec rows k h
    exact mergeSidecar_preserve rec rows k h

/-- Witness for C3: in `envC3` the one sidecar read is for the path whose
tool record lacks every indicator tag, and a truthy ISO value survives the
sidecar merge unchanged. -/
theorem c3_sidecar_overlay_merge_witness :
    ("/d/a.arw" ∈ (read_batch_metadata envC3 [] ["/d/a.arw"]).2.2.sidecarReads ∧
      (RecMap.get? (rbmToolResult envC3 (rbmSplit [] ["/d/a.arw"]).2)
          (os_path_normpath "/d/a.arw") = none ∨
        (∀ rec, RecMap.get? (rbmPreMerge envC3 (rbmSplit [] ["/d/a.arw"]).2)
            (os_path_normpath "/d/a.arw") = some rec → recHasXmpIndicator rec = false))) ∧
    ((Rec.getV [("ExifIFD:ISO", PVal.vint 100)] "ExifIFD:ISO").truthy = true ∧
      Rec.getV (mergeSidecarIntoRec [("ExifIFD:ISO", PVal.vint 100)]
          [("XMP-dc", "title", "Osprey")]) "ExifIFD:ISO" =
        Rec.getV [("ExifIFD:ISO", PVal.vint 100)] "ExifIFD:ISO") :=
  ⟨⟨by decide, c3_sidecar_overlay_merge.1 envC3 [] ["/d/a.arw"] "/d/a.arw" (by decide)⟩,
   ⟨by decide, c3_sidecar_overlay_merge.2 [("ExifIFD:ISO", PVal.vint 100)]
      [("XMP-dc", "title", "Osprey")] "ExifIFD:ISO" (by decide)⟩⟩

/-! ### C1/C4: the cache/dedup loop of `read_batch_metadata` -/

theorem RecMap.get?_def (m : RecMap) (k : String) : RecMap.get? m k = PyDict.get? m k := rfl

theorem RecMap.get?_set_eq (m : RecMap) (k k' : String) (v : Rec) :
    RecMap.get? (RecMap.set m k v) k' = if k = k' then some v else RecMap.get? m k' :=
  PyDict.get?_set m k k' v

theorem RecMap.set_def (m : RecMap) (k : String) (v : Rec) :
    RecMap.set m k v = PyDict.set m k v := rfl

theorem RecMap.update_def (m other : RecMap) :
    RecMap.update m other = PyDict.update m other := rfl

theorem nodup_keys_foldl {β : Type} (l : List β) (f : RecMap → β → RecMap)
    (hf : ∀ m x, f m x = m ∨ ∃ k v, f m x = RecMap.set m k v) :
    ∀ m : RecMap, (PyDict.keys m).Nodup → (PyDict.keys (l.foldl f m)).Nodup := by
  induction l with
  | nil => intro m hm; exact hm
  | cons x l ih =>
    intro m hm
    rw [List.foldl_cons]
    rcases hf m x with h | ⟨k, v, h⟩
    · rw [h]; exact ih m hm
    · rw [h]; exact ih _ (PyDict.nodup_keys_set m k v hm)

theorem get?_isSome_foldl {β : Type} (l : List β) (f : RecMap → β → RecMap)
    (hf : ∀ m x, f m x = m ∨ ∃ k v, f m x = RecMap.set m k v) :
    ∀ (m : RecMap) (n : String), (RecMap.get? m n).isSome = true →
      (RecMap.get? (l.foldl f m) n).isSome = true := by
  induction l with
  | nil => intro m n hm; exact hm
  | cons x l ih =>
    intro m n hm
    rw [List.foldl_cons]
    rcases hf m x with h | ⟨k, v, h⟩
    · rw [h]; exact ih m n hm
    · rw [h]
      apply ih
      rw [RecMap.get?_set_eq]
      by_cases hk : k = n
      · rw [if_pos hk]; rfl
      · rw [if_neg hk]; exact hm

theorem keys_foldl_origin {β : Type} (l : List β) (f : RecMap → β → RecMap)
    (keyOf : β → String)
    (hf : ∀ m x, f m x = m ∨ ∃ v, f m x = RecMap.set m (keyOf x) v) :
    ∀ (m : RecMap) (n : String), n ∈ PyDict.keys (l.foldl f m) →
      n ∈ PyDict.keys m ∨ ∃ x ∈ l, keyOf x = n := by
  induction l with
  | nil => intro m n hn; exact Or.inl hn
  | cons x l ih =>
    intro m n hn
    rw [List.foldl_cons] at hn
    rcases hf m x with h | ⟨v, h⟩
    · rw [h] at hn
      rcases ih m n hn with h' | ⟨y, hy, hky⟩
      · exact Or.inl h'
      · exact Or.inr ⟨y, List.mem_cons_of_mem _ hy, hky⟩
    · rw [h] at hn
      rcases ih _ n hn with h' | ⟨y, hy, hky⟩
      · rw [RecMap.set_def, PyDict.keys_set] at h'
        by_cases hk : keyOf x ∈ PyDict.keys m
        · rw [if_pos hk] at h'; exact Or.inl h'
        · rw [if_neg hk] at h'
          rcases List.mem_append.mp h' with h'' | h''
          · exact Or.inl h''
          · exact Or.inr ⟨x, List.mem_cons_self _ _, (List.mem_singleton.mp h'').symm⟩
      · exact Or.inr ⟨y, List.mem_cons_of_mem _ hy, hky⟩

theorem rbmSplitStep_eq (cache : RecMap) (acc : List String × RecMap × List String)
    (p : String) :
    (os_path_normpath p ∈ acc.1 ∧ rbmSplitStep cache acc p = acc) ∨
    (os_path_normpath p ∉ acc.1 ∧ ∃ rec,
      RecMap.get? cache (os_path_normpath p) = some rec ∧
      rbmSplitStep cache acc p =
        (os_path_normpath p :: acc.1, RecMap.set acc.2.1 (os_path_normpath p) rec,
          acc.2.2)) ∨
    (os_path_normpath p ∉ acc.1 ∧ RecMap.get? cache (os_path_normpath p) = none ∧
      rbmSplitStep cache acc p = (os_path_normpath p :: acc.1, acc.2.1, acc.2.2 ++ [p])) := by
  by_cases h1 : os_path_normpath p ∈ acc.1
  · left
    exact ⟨h1, by unfold rbmSplitStep; rw [if_pos h1]⟩
  · rcases hg : RecMap.get? cache (os_path_normpath p) with _ | rec
    · right; right
      refine ⟨h1, rfl, ?_⟩
      unfold rbmSplitStep
      rw [if_neg h1, hg]
    · right; left
      refine ⟨h1, rec, rfl, ?_⟩
      unfold rbmSplitStep
      rw [if_neg h1, hg]

theorem rbmInv_nil (cache : RecMap) : rbmInv cache ([], [], []) := by
  refine ⟨by simp, ?_, ?_, ?_, ?_, ?_, ?_⟩
  · intro u hu; exact absurd hu (List.not_mem_nil u)
  · intro n hn; exact absurd hn (List.not_mem_nil n)
  · intro n rec _ hn; exact absurd hn (List.not_mem_nil n)
  · intro n rec h; exact Option.noConfusion h
  · exact List.nodup_nil
  · intro n hn; exact absurd hn (List.not_mem_nil n)

theorem rbmSplitStep_inv (cache : RecMap) (acc : List String × RecMap × List String)
    (p : String) (h : rbmInv cache acc) :
    rbmInv cache (rbmSplitStep cache acc p) ∧
    os_path_normpath p ∈ (rbmSplitStep cache acc p).1 ∧
    (∀ n ∈ acc.1, n ∈ (rbmSplitStep cache acc p).1) ∧
    (∀ u ∈ (rbmSplitStep cache acc p).2.2, u ∈ acc.2.2 ∨ u = p) ∧
    (∀ n ∈ (rbmSplitStep cache acc p).1, n ∈ acc.1 ∨ os_path_normpath p = n) := by
  obtain ⟨hnd, hunc, hcov, hfaith, hsrc, hknd, hks⟩ := h
  rcases rbmSplitStep_eq cache acc p with ⟨hm, he⟩ | ⟨hm, rec, hg, he⟩ | ⟨hm, hg, he⟩
  · rw [he]
    exact ⟨⟨hnd, hunc, hcov, hfaith, hsrc, hknd, hks⟩, hm, fun n hn => hn,
      fun u hu => Or.inl hu, fun n hn => Or.inl hn⟩
  · rw [he]
    dsimp only
    refine ⟨⟨hnd, ?_, ?_, ?_, ?_, ?_, ?_⟩, List.mem_cons_self _ _,
      fun n hn => List.mem_cons_of_mem _ hn, fun u hu => Or.inl hu, ?_⟩
    · intro u hu
      exact ⟨List.mem_cons_of_mem _ (hunc u hu).1, (hunc u hu).2⟩
    · intro n hn
      rcases List.mem_cons.mp hn with hn | hn
      · left
        exact ⟨rec, by rw [RecMap.get?_set_eq, if_pos hn.symm]⟩
      · rcases hcov n hn with ⟨r, hr⟩ | ⟨u, hu, hnu⟩
        · left
          by_cases hpn : os_path_normpath p = n
          · exact ⟨rec, by rw [RecMap.get?_set_eq, if_pos hpn]⟩
          · exact ⟨r, by rw [RecMap.get?_set_eq, if_neg hpn]; exact hr⟩
        · right; exact ⟨u, hu, hnu⟩
    · intro n r hcn hn
      rcases List.mem_cons.mp hn with hn | hn
      · subst hn
        rw [hg] at hcn
        injection hcn with h'
        rw [RecMap.get?_set_eq, if_pos rfl, h']
      · have hne : os_path_normpath p ≠ n := fun he' => hm (he' ▸ hn)
        rw [RecMap.get?_set_eq, if_neg hne]
        exact hfaith n r hcn hn
    · intro n r hr
      rw [RecMap.get?_set_eq] at hr
      by_cases hpn : os_path_normpath p = n
      · rw [if_pos hpn] at hr
        injection hr with h'
        rw [← hpn, hg, h']
      · rw [if_neg hpn] at hr
        exact hsrc n r hr
    · rw [RecMap.set_def]
      exact PyDict.nodup_keys_set acc.2.1 _ rec hknd
    · intro n hn
      rw [RecMap.set_def, PyDict.keys_set] at hn
      by_cases hk : os_path_normpath p ∈ PyDict.keys acc.2.1
      · rw [if_pos hk] at hn
        exact List.mem_cons_of_mem _ (hks n hn)
      · rw [if_neg hk] at hn
        rcases List.mem_append.mp hn with h'' | h''
        · exact List.mem_cons_of_mem _ (hks n h'')
        · rw [List.mem_singleton.mp h'']
          exact List.mem_cons_self _ _
    · intro n hn
      rcases List.mem_cons.mp hn with hn | hn
      · exact Or.inr hn.symm
      · exact Or.inl hn
  · rw [he]
    dsimp only
    refine ⟨⟨?_, ?_, ?_, ?_, hsrc, hknd, fun n hn => List.mem_cons_of_mem _ (hks n hn)⟩,
      List.mem_cons_self _ _, fun n hn => List.mem_cons_of_mem _ hn, ?_, ?_⟩
    · have hnot : os_path_normpath p ∉ acc.2.2.map os_path_normpath := by
        intro hmem
        obtain ⟨u, hu, hnu⟩ := List.mem_map.mp hmem
        exact hm (hnu ▸ (hunc u hu).1)
      rw [List.map_append]
      exact List.Nodup.append hnd (List.nodup_singleton _)
        (by simpa [List.disjoint_singleton] using hnot)
    · intro u hu
      rcases List.mem_append.mp hu with hu | hu
      · exact ⟨List.mem_cons_of_mem _ (hunc u hu).1, (hunc u hu).2⟩
      · rw [List.mem_singleton.mp hu]
        exact ⟨List.mem_cons_self _ _, hg⟩
    · intro n hn
      rcases List.mem_cons.mp hn with hn | hn
      · right
        exact ⟨p, List.mem_append_right _ (List.mem_singleton_self _), hn.symm⟩
      · rcases hcov n hn with ⟨r, hr⟩ | ⟨u, hu, hnu⟩
        · left; exact ⟨r, hr⟩
        · right; exact ⟨u, List.mem_append_left _ hu, hnu⟩
    · intro n r hcn hn
      rcases List.mem_cons.mp hn with hn | hn
      · subst hn
        rw [hg] at hcn
        exact Option.noConfusion hcn
      · exact hfaith n r hcn hn
    · intro u hu
      rcases List.mem_append.mp hu with hu | hu
      · exact Or.inl hu
      · exact Or.inr (List.mem_singleton.mp hu)
    · intro n hn
      rcases List.mem_cons.mp hn with hn | hn
      · exact Or.inr hn.symm
      · exact Or.inl hn

theorem rbmSplit_foldl (cache : RecMap) (paths : List String) :
    ∀ acc : List String × RecMap × List String, rbmInv cache acc →
      rbmInv cache (paths.foldl (rbmSplitStep cache) acc) ∧
      (∀ q ∈ paths, os_path_normpath q ∈ (paths.foldl (rbmSplitStep cache) acc).1) ∧
      (∀ n ∈ acc.1, n ∈ (paths.foldl (rbmSplitStep cache) acc).1) ∧
      (∀ u ∈ (paths.foldl (rbmSplitStep cache) acc).2.2, u ∈ acc.2.2 ∨ u ∈ paths) ∧
      (∀ n ∈ (paths.foldl (rbmSplitStep cache) acc).1,
        n ∈ acc.1 ∨ ∃ q ∈ paths, os_path_normpath q = n) := by
  induction paths with
  | nil =>
    intro acc h
    exact ⟨h, by simp, fun n hn => hn, fun u hu => Or.inl hu, fun n hn => Or.inl hn⟩
  | cons p rest ih =>
    intro acc h
    obtain ⟨h1, h2, h3, h4, h5⟩ := rbmSplitStep_inv cache acc p h
    obtain ⟨g1, g2, g3, g4, g5⟩ := ih (rbmSplitStep cache acc p) h1
    rw [List.foldl_cons]
    refine ⟨g1, ?_, ?_, ?_, ?_⟩
    · intro q hq
      rcases List.mem_cons.mp hq with hq | hq
      · rw [hq]; exact g3 _ h2
      · exact g2 q hq
    · intro n hn
      exact g3 n (h3 n hn)
    · intro u hu
      rcases g4 u hu with hu' | hu'
      · rcases h4 u hu' with h' | h'
        · exact Or.inl h'
        · exact Or.inr (by rw [h']; exact List.mem_cons_self _ _)
      · exact Or.inr (List.mem_cons_of_mem _ hu')
    · intro n hn
      rcases g5 n hn with hn' | hn'
      · rcases h5 n hn' with h' | h'
        · exact Or.inl h'
        · exact Or.inr ⟨p, List.mem_cons_self _ _, h'⟩
      · obtain ⟨q, hq, hnq⟩ := hn'
        exact Or.inr ⟨q, List.mem_cons_of_mem _ hq, hnq⟩

theorem batch_tool_get?_none (env : ExifEnv) (n : String) (ht : env.toolRec n = none) :
    ∀ (unc : List String) (m : RecMap), RecMap.get? m n = none →
      RecMap.get? (unc.foldl (toolStep env) m) n = none := by
  intro unc
  induction unc with
  | nil => intro m hm; exact hm
  | cons u unc ih =>
    intro m hm
    rw [List.foldl_cons]
    apply ih
    unfold toolStep
    rcases hg : env.toolRec (os_path_normpath u) with _ | rec
    · exact hm
    · show RecMap.get? (RecMap.set m (os_path_normpath u)
        (_apply_browser_metadata_aliases rec)) n = none
      have hne : os_path_normpath u ≠ n := by
        intro he
        rw [he, ht] at hg
        exact Option.noConfusion hg
      rw [RecMap.get?_set_eq, if_neg hne]
      exact hm

theorem rbmToolResult_get?_none (env : ExifEnv) (unc : List String) (n : String)
    (ht : env.toolRec n = none) :
    RecMap.get? (rbmToolResult env unc) n = none := by
  unfold rbmToolResult
  split_ifs
  · exact batch_tool_get?_none env n ht unc [] rfl
  · rfl

theorem toolStep_cases (env : ExifEnv) (m : RecMap) (p : String) :
    toolStep env m p = m ∨ ∃ k v, toolStep env m p = RecMap.set m k v := by
  unfold toolStep
  rcases hg : env.toolRec (os_path_normpath p) with _ | rec
  · exact Or.inl rfl
  · exact Or.inr ⟨_, _, rfl⟩

theorem sdStep_cases (env : ExifEnv) (m : RecMap) (p : String) :
    sdStep env m p = m ∨ ∃ k v, sdStep env m p = RecMap.set m k v :=
  Or.inr ⟨_, _, rfl⟩

theorem rbmMergeStep_cases (env : ExifEnv) (m : RecMap) (p : String) :
    rbmMergeStep env m p = m ∨ ∃ k v, rbmMergeStep env m p = RecMap.set m k v := by
  unfold rbmMergeStep
  rcases hr : env.sidecarRows p with _ | ⟨r, rs⟩
  · exact Or.inl rfl
  · rcases hg : RecMap.get? m (os_path_normpath p) with _ | rec
    · exact Or.inl rfl
    · exact Or.inr ⟨_, _, rfl⟩

theorem sd_fold_preserve (env : ExifEnv) (n : String) :
    ∀ (ps : List String) (m : RecMap), (∀ u ∈ ps, os_path_normpath u ≠ n) →
      RecMap.get? (ps.foldl (sdStep env) m) n = RecMap.get? m n := by
  intro ps
  induction ps with
  | nil => intro m _; rfl
  | cons u ps ih =>
    intro m h
    rw [List.foldl_cons, ih _ (fun v hv => h v (List.mem_cons_of_mem _ hv))]
    unfold sdStep
    rw [RecMap.get?_set_eq, if_neg (h u (List.mem_cons_self _ _))]

theorem sd_fold_val (env : ExifEnv) :
    ∀ (ps : List String) (m : RecMap) (u : String), u ∈ ps →
      (ps.map os_path_normpath).Nodup →
      RecMap.get? (ps.foldl (sdStep env) m) (os_path_normpath u) = some (sdFlat env u) := by
  intro ps
  induction ps with
  | nil => intro m u hu _; exact absurd hu (List.not_mem_nil u)
  | cons v ps ih =>
    intro m u hu hnd
    rw [List.foldl_cons]
    rw [List.map_cons] at hnd
    rcases List.mem_cons.mp hu with hu | hu
    · subst hu
      have hnot : ∀ w ∈ ps, os_path_normpath w ≠ os_path_normpath u := by
        intro w hw he
        exact (List.nodup_cons.mp hnd).1 (he ▸ List.mem_map_of_mem _ hw)
      rw [sd_fold_preserve env _ ps _ hnot]
      unfold sdStep
      rw [RecMap.get?_set_eq, if_pos rfl]
    · exact ih _ u hu (List.nodup_cons.mp hnd).2

theorem sidecar_keys_nodup (env : ExifEnv) (ps : List String) :
    (PyDict.keys (_batch_read_xmp_sidecar env ps)).Nodup :=
  nodup_keys_foldl ps (sdStep env) (sdStep_cases env) [] List.nodup_nil

theorem rbmPreMerge_get?_missing (env : ExifEnv) (unc : List String) (u : String)
    (hu : u ∈ rbmMissing env unc)
    (hnd : ((rbmMissing env unc).map os_path_normpath).Nodup) :
    RecMap.get? (rbmPreMerge env unc) (os_path_normpath u) = some (sdFlat env u) := by
  have hside : RecMap.get? (_batch_read_xmp_sidecar env (rbmMissing env unc))
      (os_path_normpath u) = some (sdFlat env u) :=
    sd_fold_val env (rbmMissing env unc) [] u hu hnd
  unfold rbmPreMerge
  rw [RecMap.update_def, RecMap.get?_def, PyDict.get?_update,
    PyDict.lastGet?_eq_get? _ _ (sidecar_keys_nodup env _), ← RecMap.get?_def, hside]

theorem merge_fold_preserve (env : ExifEnv) (n : String) :
    ∀ (l : List String) (m : RecMap),
      (∀ u ∈ l, os_path_normpath u = n → env.sidecarRows u = []) →
      RecMap.get? (l.foldl (rbmMergeStep env) m) n = RecMap.get? m n := by
  intro l
  induction l with
  | nil => intro m _; rfl
  | cons u l ih =>
    intro m h
    rw [List.foldl_cons, ih _ (fun v hv hv' => h v (List.mem_cons_of_mem _ hv) hv')]
    unfold rbmMergeStep
    rcases hr : env.sidecarRows u with _ | ⟨r, rs⟩
    · rfl
    · have hne : os_path_normpath u ≠ n := by
        intro he
        rw [h u (List.mem_cons_self _ _) he] at hr
        exact List.noConfusion hr
      rcases hg : RecMap.get? m (os_path_normpath u) with _ | rec
      · rfl
      · show RecMap.get? (RecMap.set m (os_path_normpath u)
          (mergeSidecarIntoRec rec (r :: rs))) n = RecMap.get? m n
        rw [RecMap.get?_set_eq, if_neg hne]

theorem rbmToolResult_keys_nodup (env : ExifEnv) (unc : List String) :
    (PyDict.keys (rbmToolResult env unc)).Nodup := by
  unfold rbmToolResult
  split_ifs
  · exact nodup_keys_foldl unc (toolStep env) (toolStep_cases env) [] List.nodup_nil
  · exact List.nodup_nil

theorem rbmPreMerge_keys_nodup (env : ExifEnv) (unc : List String) :
    (PyDict.keys (rbmPreMerge env unc)).Nodup := by
  unfold rbmPreMerge
  rw [RecMap.update_def]
  exact PyDict.nodup_keys_update _ _ (rbmToolResult_keys_nodup env unc)

theorem rbmNewResult_keys_nodup (env : ExifEnv) (unc : List String) :
    (PyDict.keys (rbmNewResult env unc)).Nodup := by
  unfold rbmNewResult
  exact nodup_keys_foldl _ (rbmMergeStep env) (rbmMergeStep_cases env) _
    (rbmPreMerge_keys_nodup env unc)

theorem rbmMissing_norms_nodup (env : ExifEnv) (unc : List String)
    (hnd : (unc.map os_path_normpath).Nodup) :
    ((rbmMissing env unc).map os_path_normpath).Nodup :=
  List.Nodup.sublist (List.Sublist.map _ (List.filter_sublist unc)) hnd

theorem rbmNewResult_isSome (env : ExifEnv) (unc : List String) (u : String)
    (hu : u ∈ unc) (hnd : (unc.map os_path_normpath).Nodup) :
    (RecMap.get? (rbmNewResult env unc) (os_path_normpath u)).isSome = true := by
  have hpre : (RecMap.get? (rbmPreMerge env unc) (os_path_normpath u)).isSome = true := by
    by_cases hmiss : u ∈ rbmMissing env unc
    · rw [rbmPreMerge_get?_missing env unc u hmiss (rbmMissing_norms_nodup env unc hnd)]
      rfl
    · have htool : (RecMap.get? (rbmToolResult env unc) (os_path_normpath u)).isSome
          = true := by
        rcases hg : RecMap.get? (rbmToolResult env unc) (os_path_normpath u) with _ | v
        · exact absurd (List.mem_filter.mpr ⟨hu, by rw [hg]; rfl⟩) hmiss
        · rfl
      unfold rbmPreMerge
      rw [RecMap.update_def, RecMap.get?_def, PyDict.get?_update]
      rcases hl : PyDict.lastGet? (_batch_read_xmp_sidecar env (rbmMissing env unc))
          (os_path_normpath u) with _ | v
      · exact htool
      · rfl
  unfold rbmNewResult
  exact get?_isSome_foldl _ (rbmMergeStep env) (rbmMergeStep_cases env) _ _ hpre

theorem rbm_cover (env : ExifEnv) (cache : RecMap) (paths : List String) (q : String)
    (hq : q ∈ paths) :
    ∃ rec, RecMap.get? (read_batch_metadata env cache paths).1 (os_path_normpath q)
      = some rec := by
  have h0 : paths ≠ [] := fun h => List.not_mem_nil q (h ▸ hq)
  obtain ⟨hinv, hcover, _, _, _⟩ :=
    rbmSplit_foldl cache paths ([], [], []) (rbmInv_nil cache)
  obtain ⟨hnd, hunc, hcov, hfaith, hsrc, hknd, hks⟩ := hinv
  by_cases hunce : (rbmSplit cache paths).2 = []
  · rw [read_batch_metadata_eq, if_neg h0, if_pos hunce]
    show ∃ rec, RecMap.get? (rbmSplit cache paths).1 (os_path_normpath q) = some rec
    rcases hcov (os_path_normpath q) (hcover q hq) with ⟨rec, hr⟩ | ⟨u, hu, _⟩
    · exact ⟨rec, hr⟩
    · have hu' : u ∈ (rbmSplit cache paths).2 := hu
      rw [hunce] at hu'
      exact absurd hu' (List.not_mem_nil u)
  · rw [read_batch_metadata_eq, if_neg h0, if_neg hunce]
    show ∃ rec, RecMap.get? (RecMap.update (rbmSplit cache paths).1
      (rbmNewResult env (rbmSplit cache paths).2)) (os_path_normpath q) = some rec
    rw [RecMap.update_def, RecMap.get?_def, PyDict.get?_update]
    rcases hcov (os_path_normpath q) (hcover q hq) with ⟨rec, hr⟩ | ⟨u, hu, hnu⟩
    · rcases hl : PyDict.lastGet? (rbmNewResult env (rbmSplit cache paths).2)
          (os_path_normpath q) with _ | v
      · exact ⟨rec, hr⟩
      · exact ⟨v, rfl⟩
    · have hndu : ((rbmSplit cache paths).2.map os_path_normpath).Nodup := hnd
      have hu' : u ∈ (rbmSplit cache paths).2 := hu
      have hS := rbmNewResult_isSome env _ u hu' hndu
      rw [PyDict.lastGet?_eq_get? _ _ (rbmNewResult_keys_nodup env _), ← RecMap.get?_def,
        ← hnu]
      rcases hg : RecMap.get? (rbmNewResult env (rbmSplit cache paths).2)
          (os_path_normpath u) with _ | v
      · rw [hg] at hS
        simp at hS
      · exact ⟨v, rfl⟩

theorem pyFloatOfString?_zero : pyFloatOfString? "0" = some 0 := by
  have h : pyFloatOfString? "0" =
      some (applyExp (((0 : Nat) : Rat) / (10 : Rat) ^ (0 : Nat)) ((0 : Nat) : Int)) := rfl
  rw [h]
  unfold applyExp
  norm_num

theorem pyIntFloatStr_vnone : pyIntFloatStr PVal.vnone = 0 := by
  unfold pyIntFloatStr
  rw [show pyOr PVal.vnone (PVal.vint 0) = PVal.vint 0 from rfl]
  rw [show pyStr (PVal.vint 0) = "0" from rfl]
  rw [pyFloatOfString?_zero]
  show ratTrunc 0 = 0
  unfold ratTrunc intTruncDiv
  norm_num

theorem pyIntFloatStr_vint_zero : pyIntFloatStr (PVal.vint 0) = 0 := by
  unfold pyIntFloatStr
  rw [show pyOr (PVal.vint 0) (PVal.vint 0) = PVal.vint 0 from rfl]
  rw [show pyStr (PVal.vint 0) = "0" from rfl]
  rw [pyFloatOfString?_zero]
  show ratTrunc 0 = 0
  unfold ratTrunc intTruncDiv
  norm_num

theorem needs_fallback_rowC2 : _report_row_needs_file_fallback rowC2 = true := by
  simp only [_report_row_needs_file_fallback]
  rw [show Rec.getV rowC2 "rating" = PVal.vint 0 from rfl,
      show Rec.getV rowC2 "is_flying" = PVal.vnone from rfl,
      pyIntFloatStr_vint_zero, pyIntFloatStr_vnone]
  decide

theorem phase1_envC2_eq :
    loaderPhase1 envC2 [] ["/d/IMG_1.arw"] =
      { result := PyDict.set PyDict.empty (os_path_normpath "/d/IMG_1.arw")
          (_parse_rec (report_row_to_exiftool_style rowC2 "/d/IMG_1.arw"))
        uncached := []
        fallbackPaths := ["/d/IMG_1.arw"]
        cache := [] } := by
  show loaderReportStep envC2 ⟨PyDict.empty, [], [], []⟩ "/d/IMG_1.arw" = _
  simp only [loaderReportStep,
    show PyDict.get? envC2.reportCache (pathlibStem "/d/IMG_1.arw") = some rowC2 from
      by decide,
    needs_fallback_rowC2, if_true, List.nil_append]

theorem parse_rec_sourcefile (v : PVal) :
    _parse_rec [("SourceFile", v)] = emptyDisplayRec := by
  unfold _parse_rec
  rw [show Rec.getV [("SourceFile", v)] "XMP-xmp:Rating" = PVal.vnone from rfl]
  rw [pyIntFloatStr_vnone]
  rfl

/-- The degradation half of the failure-semantics sentence, on the normal
(non-raising) return of `read_batch_metadata`: every requested path obtains
a record, and a path none of whose sources supplies any data — a cache miss
whose normalized file the exiftool stage reports nothing for and no
spelling of which has a sidecar — is mapped to the bare
`{"SourceFile": path}` record, which `MetadataLoader._parse_rec` parses to
the all-empty display record (empty title/color/city/state/country, rating
0, pick 0). The never-raises half of that sentence fails on the code: see
the `StopIteration` development further below. -/
theorem rbm_no_data_empty_record (env : ExifEnv) (cache : RecMap) (paths : List String)
    (p : String) (hp : p ∈ paths)
    (hc : RecMap.get? cache (os_path_normpath p) = none)
    (ht : env.toolRec (os_path_normpath p) = none)
    (hs : ∀ q, os_path_normpath q = os_path_normpath p → env.sidecarRows q = []) :
    (∀ q ∈ paths, ∃ rec,
      RecMap.get? (read_batch_metadata env cache paths).1 (os_path_normpath q)
        = some rec) ∧
    (∃ q₀, os_path_normpath q₀ = os_path_normpath p ∧
      RecMap.get? (read_batch_metadata env cache paths).1 (os_path_normpath p) =
        some [("SourceFile", PVal.vstr q₀)] ∧
      _parse_rec [("SourceFile", PVal.vstr q₀)] = emptyDisplayRec) := by
  refine ⟨fun q hq => rbm_cover env cache paths q hq, ?_⟩
  have h0 : paths ≠ [] := fun h => List.not_mem_nil p (h ▸ hp)
  obtain ⟨hinv, hcover, _, _, _⟩ :=
    rbmSplit_foldl cache paths ([], [], []) (rbmInv_nil cache)
  obtain ⟨hnd, hunc, hcov, hfaith, hsrc, hknd, hks⟩ := hinv
  obtain ⟨u0, hu0, hnu0⟩ :
      ∃ u ∈ (rbmSplit cache paths).2, os_path_normpath u = os_path_normpath p := by
    rcases hcov (os_path_normpath p) (hcover p hp) with ⟨rec, hr⟩ | w
    · have hcc := hsrc _ rec hr
      rw [hc] at hcc
      exact Option.noConfusion hcc
    · exact w
  have hunce : ¬ ((rbmSplit cache paths).2 = []) := by
    intro h
    rw [h] at hu0
    exact List.not_mem_nil u0 hu0
  have hndu : ((rbmSplit cache paths).2.map os_path_normpath).Nodup := hnd
  have hu0m : u0 ∈ rbmMissing env (rbmSplit cache paths).2 := by
    apply List.mem_filter.mpr
    refine ⟨hu0, ?_⟩
    show ((rbmToolResult env (rbmSplit cache paths).2).get?
      (os_path_normpath u0)).isNone = true
    rw [hnu0, rbmToolResult_get?_none env _ _ ht]
    rfl
  have hsd : sdFlat env u0 = [("SourceFile", PVal.vstr u0)] := by
    unfold sdFlat
    rw [hs u0 hnu0]
  have hpm := rbmPreMerge_get?_missing env _ u0 hu0m (rbmMissing_norms_nodup env _ hndu)
  rw [hnu0, hsd] at hpm
  have hval : RecMap.get? (rbmNewResult env (rbmSplit cache paths).2) (os_path_normpath p)
      = some [("SourceFile", PVal.vstr u0)] := by
    have hmp' : RecMap.get? (rbmNewResult env (rbmSplit cache paths).2)
        (os_path_normpath p)
        = RecMap.get? (rbmPreMerge env (rbmSplit cache paths).2) (os_path_normpath p) :=
      merge_fold_preserve env (os_path_normpath p)
        (rbmNeedMerge env (rbmSplit cache paths).2)
        (rbmPreMerge env (rbmSplit cache paths).2) (fun u _ he => hs u he)
    rw [hmp', hpm]
  refine ⟨u0, hnu0, ?_, parse_rec_sourcefile (PVal.vstr u0)⟩
  rw [read_batch_metadata_eq, if_neg h0, if_neg hunce]
  show RecMap.get? (RecMap.update (rbmSplit cache paths).1
    (rbmNewResult env (rbmSplit cache paths).2)) (os_path_normpath p)
    = some [("SourceFile", PVal.vstr u0)]
  rw [RecMap.update_def, RecMap.get?_def, PyDict.get?_update,
    PyDict.lastGet?_eq_get? _ _ (rbmNewResult_keys_nodup env _), ← RecMap.get?_def, hval]

/-- Concrete instance of the degradation result: a single path with an
available but silent exiftool, no sidecars and an empty cache yields the
bare source-file record and the all-empty display record. -/
theorem rbm_no_data_empty_record_inst :
    ("/d/x.jpg" ∈ ["/d/x.jpg"] ∧
      RecMap.get? ([] : RecMap) (os_path_normpath "/d/x.jpg") = none ∧
      envC1.toolRec (os_path_normpath "/d/x.jpg") = none) ∧
    ((∀ q ∈ ["/d/x.jpg"], ∃ rec,
      RecMap.get? (read_batch_metadata envC1 [] ["/d/x.jpg"]).1 (os_path_normpath q)
        = some rec) ∧
    (∃ q₀, os_path_normpath q₀ = os_path_normpath "/d/x.jpg" ∧
      RecMap.get? (read_batch_metadata envC1 [] ["/d/x.jpg"]).1
          (os_path_normpath "/d/x.jpg") = some [("SourceFile", PVal.vstr q₀)] ∧
      _parse_rec [("SourceFile", PVal.vstr q₀)] = emptyDisplayRec)) :=
  ⟨⟨by decide, by decide, rfl⟩,
   rbm_no_data_empty_record envC1 [] ["/d/x.jpg"] "/d/x.jpg" (by decide) (by decide) rfl
     (fun _ _ => rfl)⟩

theorem PyDict.mem_keys_update (m other : PyDict α) (n : String) :
    n ∈ PyDict.keys (PyDict.update m other) →
      n ∈ PyDict.keys m ∨ n ∈ PyDict.keys other := by
  induction other generalizing m with
  | nil => intro h; exact Or.inl h
  | cons kv rest ih =>
    intro h
    rw [PyDict.update_cons] at h
    rcases ih _ h with h' | h'
    · rw [PyDict.keys_set] at h'
      by_cases hk : kv.1 ∈ PyDict.keys m
      · rw [if_pos hk] at h'; exact Or.inl h'
      · rw [if_neg hk] at h'
        rcases List.mem_append.mp h' with h'' | h''
        · exact Or.inl h''
        · right
          rw [PyDict.keys_cons, List.mem_singleton.mp h'']
          exact List.mem_cons_self _ _
    · right
      rw [PyDict.keys_cons]
      exact List.mem_cons_of_mem _ h'

theorem toolStep_cases_keyed (env : ExifEnv) (m : RecMap) (p : String) :
    toolStep env m p = m ∨
      ∃ v, toolStep env m p = RecMap.set m (os_path_normpath p) v := by
  unfold toolStep
  rcases hg : env.toolRec (os_path_normpath p) with _ | rec
  · exact Or.inl rfl
  · exact Or.inr ⟨_, rfl⟩

theorem sdStep_cases_keyed (env : ExifEnv) (m : RecMap) (p : String) :
    sdStep env m p = m ∨
      ∃ v, sdStep env m p = RecMap.set m (os_path_normpath p) v :=
  Or.inr ⟨_, rfl⟩

theorem rbmMergeStep_cases_keyed (env : ExifEnv) (m : RecMap) (p : String) :
    rbmMergeStep env m p = m ∨
      ∃ v, rbmMergeStep env m p = RecMap.set m (os_path_normpath p) v := by
  unfold rbmMergeStep
  rcases hr : env.sidecarRows p with _ | ⟨r, rs⟩
  · exact Or.inl rfl
  · rcases hg : RecMap.get? m (os_path_normpath p) with _ | rec
    · exact Or.inl rfl
    · exact Or.inr ⟨_, rfl⟩

theorem rbmToolResult_keys_origin (env : ExifEnv) (unc : List String) (n : String)
    (h : n ∈ PyDict.keys (rbmToolResult env unc)) :
    ∃ u ∈ unc, os_path_normpath u = n := by
  rw [rbmToolResult] at h
  by_cases ha : env.exiftoolAvailable = true
  · rw [if_pos ha] at h
    have h' : n ∈ PyDict.keys (unc.foldl (toolStep env) []) := h
    rcases keys_foldl_origin unc (toolStep env) os_path_normpath
        (toolStep_cases_keyed env) [] n h' with h'' | h''
    · exact absurd h'' (List.not_mem_nil n)
    · exact h''
  · rw [if_neg ha] at h
    exact absurd h (List.not_mem_nil n)

theorem rbmNewResult_keys_origin (env : ExifEnv) (unc : List String) (n : String)
    (h : n ∈ PyDict.keys (rbmNewResult env unc)) :
    ∃ u ∈ unc, os_path_normpath u = n := by
  have h1 : n ∈ PyDict.keys ((rbmNeedMerge env unc).foldl (rbmMergeStep env)
      (rbmPreMerge env unc)) := h
  rcases keys_foldl_origin _ (rbmMergeStep env) os_path_normpath
      (rbmMergeStep_cases_keyed env) _ n h1 with h2 | ⟨x, hx, hkx⟩
  · have h2' : n ∈ PyDict.keys (PyDict.update (rbmToolResult env unc)
        (_batch_read_xmp_sidecar env (rbmMissing env unc))) := h2
    rcases PyDict.mem_keys_update _ _ n h2' with h3 | h3
    · exact rbmToolResult_keys_origin env unc n h3
    · have h3' : n ∈ PyDict.keys ((rbmMissing env unc).foldl (sdStep env) []) := h3
      rcases keys_foldl_origin _ (sdStep env) os_path_normpath
          (sdStep_cases_keyed env) [] n h3' with h4 | ⟨x, hx, hkx⟩
      · exact absurd h4 (List.not_mem_nil n)
      · exact ⟨x, List.mem_of_mem_filter hx, hkx⟩
  · exact ⟨x, List.mem_of_mem_filter hx, hkx⟩

theorem cacheWriteBack_no_evict (cache newr : RecMap)
    (H : PyDict.size cache + PyDict.size newr ≤ _METADATA_CACHE_MAX) :
    cacheWriteBack cache newr = RecMap.update cache newr := by
  unfold cacheWriteBack
  have H' : List.length cache + List.length newr ≤ _METADATA_CACHE_MAX := H
  rw [Nat.sub_eq_zero_of_le H', List.drop_zero]

theorem rbmSplit_unc_nil (cache : RecMap) (paths : List String)
    (h : ∀ q ∈ paths, (RecMap.get? cache (os_path_normpath q)).isSome = true) :
    (rbmSplit cache paths).2 = [] := by
  obtain ⟨hinv, _, _, hmem, _⟩ :=
    rbmSplit_foldl cache paths ([], [], []) (rbmInv_nil cache)
  obtain ⟨_, hunc, _⟩ := hinv
  rw [List.eq_nil_iff_forall_not_mem]
  intro u hu
  have hu' : u ∈ (List.foldl (rbmSplitStep cache) ([], [], []) paths).2.2 := hu
  rcases hmem u hu' with h' | h'
  · exact absurd h' (List.not_mem_nil u)
  · have hx := h u h'
    rw [(hunc u hu').2] at hx
    simp at hx

theorem rbm_agree (env : ExifEnv) (cache : RecMap) (paths : List String)
    (H : PyDict.size cache + PyDict.size (rbmNewResult env (rbmSplit cache paths).2)
      ≤ _METADATA_CACHE_MAX) (p : String) (hp : p ∈ paths) :
    ∃ rec,
      RecMap.get? (read_batch_metadata env cache paths).1 (os_path_normpath p)
        = some rec ∧
      RecMap.get? (read_batch_metadata env cache paths).2.1 (os_path_normpath p)
        = some rec := by
  have h0 : paths ≠ [] := fun h => List.not_mem_nil p (h ▸ hp)
  obtain ⟨hinv, hcover, _, _, _⟩ :=
    rbmSplit_foldl cache paths ([], [], []) (rbmInv_nil cache)
  obtain ⟨hnd, hunc, hcov, hfaith, hsrc, hknd, hks⟩ := hinv
  by_cases hunce : (rbmSplit cache paths).2 = []
  · rw [read_batch_metadata_eq, if_neg h0, if_pos hunce]
    show ∃ rec, RecMap.get? (rbmSplit cache paths).1 (os_path_normpath p) = some rec ∧
      RecMap.get? cache (os_path_normpath p) = some rec
    rcases hcov (os_path_normpath p) (hcover p hp) with ⟨rec, hr⟩ | ⟨u, hu, _⟩
    · exact ⟨rec, hr, hsrc _ rec hr⟩
    · have hu' : u ∈ (rbmSplit cache paths).2 := hu
      rw [hunce] at hu'
      exact absurd hu' (List.not_mem_nil u)
  · rw [read_batch_metadata_eq, if_neg h0, if_neg hunce]
    show ∃ rec,
      RecMap.get? (RecMap.update (rbmSplit cache paths).1
        (rbmNewResult env (rbmSplit cache paths).2)) (os_path_normpath p) = some rec ∧
      RecMap.get? (cacheWriteBack cache (rbmNewResult env (rbmSplit cache paths).2))
        (os_path_normpath p) = some rec
    rw [cacheWriteBack_no_evict cache _ H]
    rw [RecMap.update_def, RecMap.update_def, RecMap.get?_def, RecMap.get?_def,
      PyDict.get?_update, PyDict.get?_update,
      PyDict.lastGet?_eq_get? _ _ (rbmNewResult_keys_nodup env _)]
    rcases hcov (os_path_normpath p) (hcover p hp) with ⟨rec, hr⟩ | ⟨u, hu, hnu⟩
    · have hcc := hsrc _ rec hr
      have hnone : PyDict.get? (rbmNewResult env (rbmSplit cache paths).2)
          (os_path_normpath p) = none := by
        rw [PyDict.get?_eq_none_iff]
        intro hmem
        obtain ⟨u, hu, hnu⟩ := rbmNewResult_keys_origin env _ _ hmem
        have hu' : u ∈ (List.foldl (rbmSplitStep cache) ([], [], []) paths).2.2 := hu
        have hx := (hunc u hu').2
        rw [hnu] at hx
        rw [hx] at hcc
        exact Option.noConfusion hcc
      rw [hnone]
      exact ⟨rec, hr, hcc⟩
    · have hu' : u ∈ (rbmSplit cache paths).2 := hu
      have hndu : ((rbmSplit cache paths).2.map os_path_normpath).Nodup := hnd
      have hS := rbmNewResult_isSome env _ u hu' hndu
      rcases hg : RecMap.get? (rbmNewResult env (rbmSplit cache paths).2)
          (os_path_normpath u) with _ | w
      · rw [hg] at hS
        simp at hS
      · have hg' : PyDict.get? (rbmNewResult env (rbmSplit cache paths).2)
            (os_path_normpath p) = some w := by
          rw [← hnu]
          exact hg
        rw [hg']
        exact ⟨w, rfl, rfl⟩

/-- C4: with the same paths read twice and no eviction (the cache plus the
fresh records fit the ceiling), the second `read_batch_metadata` call
returns the same record as the first for every path and performs no
exiftool invocation and no sidecar read. -/
theorem c4_second_read_from_cache (env : ExifEnv) (cache : RecMap) (paths : List String)
    (H : PyDict.size cache + PyDict.size (rbmNewResult env (rbmSplit cache paths).2)
      ≤ _METADATA_CACHE_MAX) :
    (∀ p ∈ paths,
      RecMap.get? (read_batch_metadata env
          (read_batch_metadata env cache paths).2.1 paths).1 (os_path_normpath p)
        = RecMap.get? (read_batch_metadata env cache paths).1 (os_path_normpath p)) ∧
    (read_batch_metadata env (read_batch_metadata env cache paths).2.1 paths).2.2
      = ⟨0, []⟩ := by
  by_cases h0 : paths = []
  · subst h0
    exact ⟨fun p hp => absurd hp (List.not_mem_nil p), rfl⟩
  · have hall : ∀ q ∈ paths,
        (RecMap.get? (read_batch_metadata env cache paths).2.1
          (os_path_normpath q)).isSome = true := by
      intro q hq
      obtain ⟨rec, _, h2⟩ := rbm_agree env cache paths H q hq
      rw [h2]
      rfl
    have hnil2 := rbmSplit_unc_nil (read_batch_metadata env cache paths).2.1 paths hall
    constructor
    · intro p hp
      obtain ⟨rec, h1, h2⟩ := rbm_agree env cache paths H p hp
      rw [read_batch_metadata_eq env (read_batch_metadata env cache paths).2.1 paths,
        if_neg h0, if_pos hnil2, h1]
      show RecMap.get? (rbmSplit (read_batch_metadata env cache paths).2.1 paths).1
        (os_path_normpath p) = some rec
      obtain ⟨hinv2, hcover2, _, _, _⟩ :=
        rbmSplit_foldl (read_batch_metadata env cache paths).2.1 paths ([], [], [])
          (rbmInv_nil _)
      obtain ⟨_, _, _, hfaith2, _, _, _⟩ := hinv2
      exact hfaith2 _ rec h2 (hcover2 p hp)
    · rw [read_batch_metadata_eq env (read_batch_metadata env cache paths).2.1 paths,
        if_neg h0, if_pos hnil2]

/-- Witness for C4: one path, empty cache, the `envC3` world — the combined
size fits the ceiling and the second call is a pure cache hit. -/
theorem c4_second_read_from_cache_witness :
    (PyDict.size ([] : RecMap) +
      PyDict.size (rbmNewResult envC3 (rbmSplit ([] : RecMap) ["/d/a.arw"]).2)
        ≤ _METADATA_CACHE_MAX) ∧
    ((∀ p ∈ ["/d/a.arw"],
      RecMap.get? (read_batch_metadata envC3
          (read_batch_metadata envC3 [] ["/d/a.arw"]).2.1 ["/d/a.arw"]).1
          (os_path_normpath p)
        = RecMap.get? (read_batch_metadata envC3 [] ["/d/a.arw"]).1
            (os_path_normpath p)) ∧
    (read_batch_metadata envC3
        (read_batch_metadata envC3 [] ["/d/a.arw"]).2.1 ["/d/a.arw"]).2.2
      = ⟨0, []⟩) :=
  ⟨by decide, c4_second_read_from_cache envC3 [] ["/d/a.arw"] (by decide)⟩

/-! ### C2: `posixpath.normpath` idempotence and the loader's dedup/overwrite pipeline -/

theorem splitOnChar_ne_nil (sep : Char) (cs : List Char) : splitOnChar sep cs ≠ [] := by
  cases cs with
  | nil => simp [splitOnChar]
  | cons c rest =>
    simp only [splitOnChar]
    by_cases h : c = sep
    · rw [if_pos h]
      simp
    · rw [if_neg h]
      rcases hp : splitOnChar sep rest with _ | ⟨p, ps⟩ <;> simp

theorem splitOnChar_no_sep (sep : Char) :
    ∀ (cs : List Char), ∀ p ∈ splitOnChar sep cs, sep ∉ p := by
  intro cs
  induction cs with
  | nil =>
    intro p hp
    rw [show splitOnChar sep [] = [[]] from rfl] at hp
    rw [List.mem_singleton.mp hp]
    simp
  | cons c rest ih =>
    intro p hp
    simp only [splitOnChar] at hp
    by_cases h : c = sep
    · rw [if_pos h] at hp
      rcases List.mem_cons.mp hp with h' | h'
      · rw [h']; simp
      · exact ih p h'
    · rw [if_neg h] at hp
      rcases hq : splitOnChar sep rest with _ | ⟨q, qs⟩
      · rw [hq] at hp
        rw [List.mem_singleton.mp hp]
        intro hh
        exact h ((List.mem_singleton.mp hh).symm)
      · rw [hq] at hp
        rcases List.mem_cons.mp hp with h' | h'
        · rw [h']
          intro hh
          rcases List.mem_cons.mp hh with h'' | h''
          · exact h h''.symm
          · exact ih q (by rw [hq]; exact List.mem_cons_self q qs) h''
        · exact ih p (by rw [hq]; exact List.mem_cons_of_mem _ h')

theorem splitOnChar_of_not_mem (sep : Char) :
    ∀ (cs : List Char), sep ∉ cs → splitOnChar sep cs = [cs] := by
  intro cs
  induction cs with
  | nil => intro _; rfl
  | cons c rest ih =>
    intro h
    have hc : ¬ c = sep := fun he => h (he ▸ List.mem_cons_self _ _)
    simp only [splitOnChar]
    rw [if_neg hc, ih (fun hm => h (List.mem_cons_of_mem _ hm))]

theorem splitOnChar_cons_sep (sep : Char) (b : List Char) :
    splitOnChar sep (sep :: b) = [] :: splitOnChar sep b := by
  simp [splitOnChar]

theorem splitOnChar_append_sep (sep : Char) :
    ∀ (a b : List Char), sep ∉ a →
      splitOnChar sep (a ++ sep :: b) = a :: splitOnChar sep b := by
  intro a
  induction a with
  | nil =>
    intro b _
    rw [List.nil_append]
    exact splitOnChar_cons_sep sep b
  | cons c a ih =>
    intro b h
    have hc : ¬ c = sep := fun he => h (he ▸ List.mem_cons_self _ _)
    rw [List.cons_append]
    simp only [splitOnChar]
    rw [if_neg hc, ih b (fun hm => h (List.mem_cons_of_mem _ hm))]

theorem joinWith_foldl_append (s : String) :
    ∀ (ps : List String) (a b : String),
      ps.foldl (fun acc q => acc ++ s ++ q) (a ++ b)
        = a ++ ps.foldl (fun acc q => acc ++ s ++ q) b := by
  intro ps
  induction ps with
  | nil => intro a b; rfl
  | cons q ps ih =>
    intro a b
    rw [List.foldl_cons, List.foldl_cons,
      show a ++ b ++ s ++ q = a ++ (b ++ s ++ q) by
        rw [String.append_assoc a b s, String.append_assoc a (b ++ s) q]]
    exact ih a (b ++ s ++ q)

theorem joinWith_cons_cons (s p q : String) (ps : List String) :
    joinWith s (p :: q :: ps) = p ++ s ++ joinWith s (q :: ps) := by
  show (q :: ps).foldl (fun acc r => acc ++ s ++ r) p
    = p ++ s ++ (ps.foldl (fun acc r => acc ++ s ++ r) q)
  rw [List.foldl_cons]
  exact joinWith_foldl_append s ps (p ++ s) q

theorem eq_empty_of_data_eq_nil (x : String) (h : x.data = []) : x = "" := by
  rw [show x = String.mk x.data from rfl, h]

theorem str_empty_append (b : String) : "" ++ b = b := by
  apply String.ext
  rw [String.data_append]
  rfl

theorem pySplit_joinWith :
    ∀ (parts : List String), parts ≠ [] → (∀ x ∈ parts, '/' ∉ x.data) →
      pySplit (joinWith "/" parts) '/' = parts := by
  intro parts
  induction parts with
  | nil => intro h _; exact absurd rfl h
  | cons p ps ih =>
    intro _ hns
    rcases ps with _ | ⟨q, qs⟩
    · show pySplit p '/' = [p]
      unfold pySplit
      rw [splitOnChar_of_not_mem '/' p.data (hns p (List.mem_cons_self _ _))]
      rfl
    · rw [joinWith_cons_cons]
      unfold pySplit
      have hd : (p ++ "/" ++ joinWith "/" (q :: qs)).data
          = p.data ++ '/' :: (joinWith "/" (q :: qs)).data := by
        rw [String.data_append, String.data_append]
        simp
      rw [hd, splitOnChar_append_sep '/' p.data _ (hns p (List.mem_cons_self _ _)),
        List.map_cons]
      have hih := ih (by simp) (fun x hx => hns x (List.mem_cons_of_mem _ hx))
      unfold pySplit at hih
      rw [hih]

theorem mem_of_getLast?_eq {α : Type} (l : List α) (a : α) (h : l.getLast? = some a) :
    a ∈ l := by
  obtain ⟨hne, he⟩ := List.mem_getLast?_eq_getLast (Option.mem_def.mpr h)
  rw [he]
  exact List.getLast_mem hne

theorem normInv_nil (rooted : Bool) : NormInv rooted [] :=
  ⟨fun x hx => absurd hx (List.not_mem_nil x), ⟨0, [], rfl, by simp⟩, fun _ => by simp⟩

theorem normInv_step (rooted : Bool) (acc : List String) (comp : String)
    (hacc : NormInv rooted acc) (hc : '/' ∉ comp.data) :
    NormInv rooted (normpathStep rooted acc comp) := by
  obtain ⟨hmem, ⟨k, rest, hsplit, hrest⟩, hroot⟩ := hacc
  unfold normpathStep
  split_ifs with h1 h2 h3
  · exact ⟨hmem, ⟨k, rest, hsplit, hrest⟩, hroot⟩
  · push_neg at h1
    refine ⟨?_, ?_, ?_⟩
    · intro x hx
      rcases List.mem_append.mp hx with hx | hx
      · exact hmem x hx
      · rw [List.mem_singleton.mp hx]
        exact ⟨h1.1, h1.2, hc⟩
    · by_cases hdd : comp = ".."
      · subst hdd
        rcases h2 with h2 | ⟨hnr, hae⟩ | ⟨hne, hlast⟩
        · exact absurd rfl h2
        · rw [hae]
          exact ⟨1, [], by simp, by simp⟩
        · have hrest_nil : rest = [] := by
            by_contra hne2
            have hl : acc.getLast? = rest.getLast? := by
              rw [hsplit]
              exact List.getLast?_append_of_ne_nil _ hne2
            rw [hlast] at hl
            exact hrest (mem_of_getLast?_eq rest ".." hl.symm)
          subst hrest_nil
          rw [List.append_nil] at hsplit
          subst hsplit
          refine ⟨k + 1, [], ?_, by simp⟩
          rw [List.append_nil, List.replicate_succ']
      · refine ⟨k, rest ++ [comp], by rw [hsplit, List.append_assoc], ?_⟩
        intro hm
        rcases List.mem_append.mp hm with hm | hm
        · exact hrest hm
        · exact hdd (List.mem_singleton.mp hm).symm
    · intro hr hm
      rcases List.mem_append.mp hm with hm | hm
      · exact hroot hr hm
      · have hdd := (List.mem_singleton.mp hm).symm
        rcases h2 with h2 | ⟨hnr, _⟩ | ⟨_, hlast⟩
        · exact h2 hdd
        · exact hnr hr
        · exact hroot hr (mem_of_getLast?_eq acc ".." hlast)
  · refine ⟨?_, ?_, ?_⟩
    · intro x hx
      exact hmem x (List.dropLast_subset _ hx)
    · by_cases hre : rest = []
      · subst hre
        rw [List.append_nil] at hsplit
        subst hsplit
        rcases k with _ | k2
        · exact ⟨0, [], by simp, by simp⟩
        · refine ⟨k2, [], ?_, by simp⟩
          rw [List.append_nil, List.replicate_succ', List.dropLast_concat]
      · refine ⟨k, rest.dropLast, ?_, fun hm => hrest (List.dropLast_subset _ hm)⟩
        rw [hsplit, List.dropLast_append_of_ne_nil _ hre]
    · intro hr hm
      exact hroot hr (List.dropLast_subset _ hm)
  · exact ⟨hmem, ⟨k, rest, hsplit, hrest⟩, hroot⟩

theorem normInv_foldl (rooted : Bool) :
    ∀ (comps : List String) (acc : List String), NormInv rooted acc →
      (∀ c ∈ comps, '/' ∉ c.data) →
      NormInv rooted (comps.foldl (normpathStep rooted) acc) := by
  intro comps
  induction comps with
  | nil => intro acc h _; exact h
  | cons c comps ih =>
    intro acc h hc
    rw [List.foldl_cons]
    exact ih _ (normInv_step rooted acc c h (hc c (List.mem_cons_self _ _)))
      (fun x hx => hc x (List.mem_cons_of_mem _ hx))

theorem normpathStep_empty (rooted : Bool) (acc : List String) :
    normpathStep rooted acc "" = acc := by
  unfold normpathStep
  rw [if_pos (Or.inl rfl)]

theorem normpath_refold (rooted : Bool) :
    ∀ (l acc : List String), NormInv rooted (acc ++ l) →
      l.foldl (normpathStep rooted) acc = acc ++ l := by
  intro l
  induction l with
  | nil => intro acc _; rw [List.foldl_nil, List.append_nil]
  | cons c l ih =>
    intro acc hinv
    have hinv2 := hinv
    obtain ⟨hmem, ⟨k, rest, hsplit, hrest⟩, hroot⟩ := hinv
    have hcm : c ∈ acc ++ c :: l :=
      List.mem_append_right _ (List.mem_cons_self _ _)
    have hcp := hmem c hcm
    have hstep : normpathStep rooted acc c = acc ++ [c] := by
      unfold normpathStep
      rw [if_neg (by push_neg; exact ⟨hcp.1, hcp.2.1⟩)]
      by_cases hdd : c = ".."
      · have hkgt : acc.length < k := by
          by_contra hle
          push_neg at hle
          have h1 : (acc ++ c :: l)[acc.length]? = some c := by
            rw [List.getElem?_append_right (le_refl _)]
            simp
          rw [hsplit, List.getElem?_append_right (by simpa using hle)] at h1
          have h2 : c ∈ rest := by
            have := List.getElem?_mem h1
            exact this
          exact hrest (hdd ▸ h2)
        have hacc : acc = List.replicate acc.length ".." := by
          have h2 : (acc ++ c :: l).take acc.length = acc := List.take_left acc _
          rw [hsplit, List.take_append_of_le_length
            (by simpa using le_of_lt hkgt), List.take_replicate,
            min_eq_left (le_of_lt hkgt)] at h2
          exact h2.symm
        have hcond : c ≠ ".." ∨ (¬ (rooted = true) ∧ acc = []) ∨
            (acc ≠ [] ∧ acc.getLast? = some "..") := by
          right
          by_cases hae : acc = []
          · left
            refine ⟨?_, hae⟩
            intro hr
            exact hroot hr (hdd ▸ hcm)
          · right
            refine ⟨hae, ?_⟩
            rw [hacc]
            rcases hn : acc.length with _ | n2
            · rw [List.length_eq_zero] at hn
              exact absurd hn hae
            · rw [List.replicate_succ', List.getLast?_concat]
        rw [if_pos hcond]
      · rw [if_pos (Or.inl hdd)]
    rw [List.foldl_cons, hstep, ih (acc ++ [c])
      (by rw [List.append_assoc, List.singleton_append]; exact hinv2),
      List.append_assoc, List.singleton_append]

theorem pySplit_slash_append (b : String) :
    pySplit ("/" ++ b) '/' = "" :: pySplit b '/' := by
  unfold pySplit
  rw [show ("/" ++ b).data = '/' :: b.data from by rw [String.data_append]; rfl]
  rw [splitOnChar_cons_sep, List.map_cons]

theorem joinWith_single (x : String) : joinWith "/" [x] = x := rfl

theorem os_path_normpath_idem (s : String) :
    os_path_normpath (os_path_normpath s) = os_path_normpath s := by
  by_cases hs : s = ""
  · subst hs
    decide
  · have hcomps : ∀ c ∈ pySplit s '/', '/' ∉ c.data := by
      intro c hcmem
      obtain ⟨part, hp, he⟩ := List.mem_map.mp hcmem
      rw [← he]
      exact splitOnChar_no_sep '/' s.data part hp
    have hK : NormInv (strStarts s "/")
        (List.foldl (normpathStep (strStarts s "/")) [] (pySplit s '/')) :=
      normInv_foldl _ (pySplit s '/') [] (normInv_nil _) hcomps
    rcases hkept : List.foldl (normpathStep (strStarts s "/")) [] (pySplit s '/')
      with _ | ⟨x, ks⟩
    · have hval : os_path_normpath s = "." ∨ os_path_normpath s = "/" ∨
          os_path_normpath s = "//" := by
        simp only [os_path_normpath, if_neg hs, hkept]
        by_cases h1 : strStarts s "/" = true
        · by_cases h2 : strStarts s "//" = true ∧ ¬ strStarts s "///" = true
          · right; right
            rw [if_pos h1, if_pos h2]
            decide
          · right; left
            rw [if_pos h1, if_neg h2]
            decide
        · left
          rw [if_neg h1]
          decide
      rcases hval with h | h | h <;> rw [h] <;> decide
    · rw [hkept] at hK
      have hx := hK.1 x (List.mem_cons_self _ _)
      obtain ⟨c, t, hxd⟩ : ∃ c t, x.data = c :: t := by
        rcases hxe : x.data with _ | ⟨c, t⟩
        · exact absurd (eq_empty_of_data_eq_nil x hxe) hx.1
        · exact ⟨c, t, rfl⟩
      have hcne : c ≠ '/' := by
        intro he
        apply hx.2.2
        rw [hxd, he]
        exact List.mem_cons_self _ _
      obtain ⟨tail, hbd⟩ :
          ∃ tail, (joinWith "/" (x :: ks)).data = c :: (t ++ tail) := by
        rcases ks with _ | ⟨q, qs⟩
        · exact ⟨[], by rw [joinWith_single, hxd, List.append_nil]⟩
        · refine ⟨'/' :: (joinWith "/" (q :: qs)).data, ?_⟩
          rw [joinWith_cons_cons, String.data_append, String.data_append, hxd]
          simp
      have hbody_ne : joinWith "/" (x :: ks) ≠ "" := by
        intro he
        rw [he] at hbd
        exact List.noConfusion hbd
      have hsplitb : pySplit (joinWith "/" (x :: ks)) '/' = x :: ks :=
        pySplit_joinWith (x :: ks) (by simp) (fun y hy => (hK.1 y hy).2.2)
      have hfold : ∀ r : Bool, NormInv r (x :: ks) →
          List.foldl (normpathStep r) [] (x :: ks) = x :: ks := by
        intro r hr
        rw [normpath_refold r (x :: ks) [] (by rw [List.nil_append]; exact hr),
          List.nil_append]
      by_cases hr : strStarts s "/" = true
      · rw [hr] at hK
        rw [hr] at hkept
        by_cases h2 : strStarts s "//" = true ∧ ¬ strStarts s "///" = true
        · have hval : os_path_normpath s = "//" ++ joinWith "/" (x :: ks) := by
            simp only [os_path_normpath, if_neg hs, hr, hkept]
            rw [if_pos trivial, if_pos h2,
              show String.join (List.replicate 2 "/") = "//" from rfl]
            refine if_neg ?_
            intro he
            have hed := congrArg String.data he
            rw [String.data_append, hbd] at hed
            simp at hed
          have hBd : ("//" ++ joinWith "/" (x :: ks)).data
              = '/' :: '/' :: c :: (t ++ tail) := by
            rw [String.data_append, hbd]
            rfl
          have hBne : ("//" ++ joinWith "/" (x :: ks)) ≠ "" := by
            intro he
            rw [he] at hBd
            exact List.noConfusion hBd
          have hst1 : strStarts ("//" ++ joinWith "/" (x :: ks)) "/" = true := by
            unfold strStarts
            rw [hBd]
            simp
          have hst2 : strStarts ("//" ++ joinWith "/" (x :: ks)) "//" = true := by
            unfold strStarts
            rw [hBd]
            simp
          have hst3 : strStarts ("//" ++ joinWith "/" (x :: ks)) "///" = false := by
            unfold strStarts
            rw [hBd]
            simp [hcne]
          have hsplitB : pySplit ("//" ++ joinWith "/" (x :: ks)) '/'
              = "" :: "" :: x :: ks := by
            rw [show ("//" : String) ++ joinWith "/" (x :: ks)
                = "/" ++ ("/" ++ joinWith "/" (x :: ks)) from by
              rw [← String.append_assoc, show ("/" : String) ++ "/" = "//" from by decide]]
            rw [pySplit_slash_append, pySplit_slash_append, hsplitb]
          rw [hval]
          simp only [os_path_normpath, if_neg hBne, hst1, hst2, hst3]
          rw [if_pos trivial,
            if_pos (show (True ∧ ¬ (false = true)) from by simp),
            show String.join (List.replicate 2 "/") = "//" from rfl,
            hsplitB, List.foldl_cons, normpathStep_empty, List.foldl_cons,
            normpathStep_empty, hfold true hK]
          exact if_neg hBne
        · have hval : os_path_normpath s = "/" ++ joinWith "/" (x :: ks) := by
            simp only [os_path_normpath, if_neg hs, hr, hkept]
            rw [if_pos trivial, if_neg h2,
              show String.join (List.replicate 1 "/") = "/" from rfl]
            refine if_neg ?_
            intro he
            have hed := congrArg String.data he
            rw [String.data_append, hbd] at hed
            simp at hed
          have hBd : ("/" ++ joinWith "/" (x :: ks)).data
              = '/' :: c :: (t ++ tail) := by
            rw [String.data_append, hbd]
            rfl
          have hBne : ("/" ++ joinWith "/" (x :: ks)) ≠ "" := by
            intro he
            rw [he] at hBd
            exact List.noConfusion hBd
          have hst1 : strStarts ("/" ++ joinWith "/" (x :: ks)) "/" = true := by
            unfold strStarts
            rw [hBd]
            simp
          have hst2 : strStarts ("/" ++ joinWith "/" (x :: ks)) "//" = false := by
            unfold strStarts
            rw [hBd]
            simp [hcne]
          have hsplitB : pySplit ("/" ++ joinWith "/" (x :: ks)) '/'
              = "" :: x :: ks := by
            rw [pySplit_slash_append, hsplitb]
          rw [hval]
          simp only [os_path_normpath, if_neg hBne, hst1, hst2]
          rw [if_pos trivial,
            if_neg (show ¬ (false = true ∧
              ¬ strStarts ("/" ++ joinWith "/" (x :: ks)) "///" = true) from by simp),
            show String.join (List.replicate 1 "/") = "/" from rfl,
            hsplitB, List.foldl_cons, normpathStep_empty, hfold true hK]
          exact if_neg hBne
      · have hrf : strStarts s "/" = false := by
          rcases hb : strStarts s "/" with _ | _
          · rfl
          · exact absurd hb hr
        rw [hrf] at hK
        rw [hrf] at hkept
        have hval : os_path_normpath s = joinWith "/" (x :: ks) := by
          simp only [os_path_normpath, if_neg hs, hrf, hkept]
          rw [if_neg (show ¬ (false = true) from by simp),
            show String.join (List.replicate 0 "/") = "" from rfl, str_empty_append]
          exact if_neg hbody_ne
        rw [hval]
        have hstart : strStarts (joinWith "/" (x :: ks)) "/" = false := by
          unfold strStarts
          rw [hbd]
          simp [hcne]
        simp only [os_path_normpath, if_neg hbody_ne, hstart]
        rw [if_neg (show ¬ (false = true) from by simp),
          show String.join (List.replicate 0 "/") = "" from rfl,
          hsplitb, hfold false hK, str_empty_append]
        exact if_neg hbody_ne


theorem loaderReportStep_miss (env : LoaderEnv) (acc : LoaderPhase1Out) (path : String)
    (hg : PyDict.get? env.reportCache (pathlibStem path) = none) :
    loaderReportStep env acc path = { acc with uncached := acc.uncached ++ [path] } := by
  simp only [loaderReportStep]
  rw [hg]

theorem loaderReportStep_hit (env : LoaderEnv) (acc : LoaderPhase1Out) (path : String)
    (row : Rec) (hg : PyDict.get? env.reportCache (pathlibStem path) = some row) :
    loaderReportStep env acc path =
      { result := PyDict.set acc.result (os_path_normpath path)
          (_parse_rec (report_row_to_exiftool_style row path))
        uncached := acc.uncached
        fallbackPaths :=
          if _report_row_needs_file_fallback row then acc.fallbackPaths ++ [path]
          else acc.fallbackPaths
        cache :=
          if _report_row_needs_file_fallback row then acc.cache
          else inject_metadata_cache acc.cache path
            (report_row_to_exiftool_style row path) } := by
  simp only [loaderReportStep]
  rw [hg]

theorem phase1_fb_mono (env : LoaderEnv) :
    ∀ (paths : List String) (acc : LoaderPhase1Out),
      ∀ x ∈ acc.fallbackPaths, x ∈ (paths.foldl (loaderReportStep env) acc).fallbackPaths := by
  intro paths
  induction paths with
  | nil => intro acc x hx; exact hx
  | cons q rest ih =>
    intro acc x hx
    rw [List.foldl_cons]
    apply ih
    rcases hg : PyDict.get? env.reportCache (pathlibStem q) with _ | row
    · rw [loaderReportStep_miss env acc q hg]
      exact hx
    · rw [loaderReportStep_hit env acc q row hg]
      dsimp only
      by_cases hn : _report_row_needs_file_fallback row = true
      · rw [if_pos hn]
        exact List.mem_append_left _ hx
      · rw [if_neg hn]
        exact hx

theorem phase1_fb_mem (env : LoaderEnv) :
    ∀ (paths : List String) (acc : LoaderPhase1Out) (p : String) (row : Rec),
      p ∈ paths → PyDict.get? env.reportCache (pathlibStem p) = some row →
      _report_row_needs_file_fallback row = true →
      p ∈ (paths.foldl (loaderReportStep env) acc).fallbackPaths := by
  intro paths
  induction paths with
  | nil => intro acc p row hp _ _; exact absurd hp (List.not_mem_nil p)
  | cons q rest ih =>
    intro acc p row hp hg hn
    rw [List.foldl_cons]
    rcases List.mem_cons.mp hp with hp | hp
    · subst hp
      apply phase1_fb_mono env rest _
      rw [loaderReportStep_hit env acc p row hg]
      dsimp only
      rw [if_pos hn]
      exact List.mem_append_right _ (List.mem_singleton_self _)
    · exact ih _ p row hp hg hn

theorem phase1_fb_src (env : LoaderEnv) :
    ∀ (paths : List String) (acc : LoaderPhase1Out),
      ∀ x ∈ (paths.foldl (loaderReportStep env) acc).fallbackPaths,
        x ∈ acc.fallbackPaths ∨ x ∈ paths := by
  intro paths
  induction paths with
  | nil => intro acc x hx; exact Or.inl hx
  | cons q rest ih =>
    intro acc x hx
    rw [List.foldl_cons] at hx
    rcases ih _ x hx with hx' | hx'
    · rcases hg : PyDict.get? env.reportCache (pathlibStem q) with _ | row
      · rw [loaderReportStep_miss env acc q hg] at hx'
        exact Or.inl hx'
      · rw [loaderReportStep_hit env acc q row hg] at hx'
        dsimp only at hx'
        by_cases hn : _report_row_needs_file_fallback row = true
        · rw [if_pos hn] at hx'
          rcases List.mem_append.mp hx' with h | h
          · exact Or.inl h
          · exact Or.inr (by rw [List.mem_singleton.mp h]; exact List.mem_cons_self _ _)
        · rw [if_neg hn] at hx'
          exact Or.inl hx'
    · exact Or.inr (List.mem_cons_of_mem _ hx')

theorem phase1_result_preserve (env : LoaderEnv) (t : String) :
    ∀ (paths : List String) (acc : LoaderPhase1Out),
      (∀ q ∈ paths, os_path_normpath q ≠ t) →
      PyDict.get? (paths.foldl (loaderReportStep env) acc).result t
        = PyDict.get? acc.result t := by
  intro paths
  induction paths with
  | nil => intro acc _; rfl
  | cons q rest ih =>
    intro acc h
    rw [List.foldl_cons, ih _ (fun x hx => h x (List.mem_cons_of_mem _ hx))]
    rcases hg : PyDict.get? env.reportCache (pathlibStem q) with _ | row
    · rw [loaderReportStep_miss env acc q hg]
    · rw [loaderReportStep_hit env acc q row hg]
      dsimp only
      rw [PyDict.get?_set, if_neg (h q (List.mem_cons_self _ _))]

theorem phase1_result_val (env : LoaderEnv) (p : String) (row : Rec)
    (hg : PyDict.get? env.reportCache (pathlibStem p) = some row) :
    ∀ (paths : List String) (acc : LoaderPhase1Out), p ∈ paths →
      (∀ q ∈ paths, os_path_normpath q = os_path_normpath p → q = p) →
      PyDict.get? (paths.foldl (loaderReportStep env) acc).result (os_path_normpath p)
        = some (_parse_rec (report_row_to_exiftool_style row p)) := by
  intro paths
  induction paths with
  | nil => intro acc hp _; exact absurd hp (List.not_mem_nil p)
  | cons q rest ih =>
    intro acc hp huni
    rw [List.foldl_cons]
    rcases List.mem_cons.mp hp with hp | hp
    · subst hp
      by_cases hpr : p ∈ rest
      · exact ih _ hpr (fun x hx he => huni x (List.mem_cons_of_mem _ hx) he)
      · rw [phase1_result_preserve env _ rest _
          (fun x hx he => hpr ((huni x (List.mem_cons_of_mem _ hx) he) ▸ hx))]
        rw [loaderReportStep_hit env acc p row hg]
        dsimp only
        rw [PyDict.get?_set, if_pos rfl]
    · exact ih _ hp (fun x hx he => huni x (List.mem_cons_of_mem _ hx) he)

theorem PyDict.mem_set {α : Type} (m : PyDict α) (k : String) (v : α)
    (kv : String × α) (h : kv ∈ PyDict.set m k v) :
    kv = (k, v) ∨ kv ∈ m := by
  induction m with
  | nil =>
    rw [PyDict.set_nil] at h
    exact Or.inl (List.mem_singleton.mp h)
  | cons kv0 rest ih =>
    rw [PyDict.set_cons] at h
    by_cases hk : kv0.1 = k
    · rw [if_pos hk] at h
      rcases List.mem_cons.mp h with h | h
      · exact Or.inl h
      · exact Or.inr (List.mem_cons_of_mem _ h)
    · rw [if_neg hk] at h
      rcases List.mem_cons.mp h with h | h
      · exact Or.inr (by rw [h]; exact List.mem_cons_self _ _)
      · rcases ih h with h' | h'
        · exact Or.inl h'
        · exact Or.inr (List.mem_cons_of_mem _ h')

theorem plan_read_snd (maps : PyDict String × PyDict (List String)) (q tn : String) :
    (_plan_read maps q tn).2 =
      PyDict.set maps.2 (os_path_normcase (os_path_normpath q))
        (if tn ∈ (PyDict.get? maps.2 (os_path_normcase (os_path_normpath q))).getD []
         then (PyDict.get? maps.2 (os_path_normcase (os_path_normpath q))).getD []
         else (PyDict.get? maps.2 (os_path_normcase (os_path_normpath q))).getD []
           ++ [tn]) := rfl

theorem plan_read_fst (maps : PyDict String × PyDict (List String)) (q tn : String) :
    (_plan_read maps q tn).1 =
      match PyDict.get? maps.1 (os_path_normcase (os_path_normpath q)) with
      | some _ => maps.1
      | none => PyDict.set maps.1 (os_path_normcase (os_path_normpath q))
          (os_path_normpath q) := rfl

theorem plan_read_tset_mono (maps : PyDict String × PyDict (List String))
    (q tn k x : String) (h : x ∈ (PyDict.get? maps.2 k).getD []) :
    x ∈ (PyDict.get? (_plan_read maps q tn).2 k).getD [] := by
  rw [plan_read_snd, PyDict.get?_set]
  by_cases hk : os_path_normcase (os_path_normpath q) = k
  · rw [if_pos hk, hk]
    show x ∈ (if tn ∈ (PyDict.get? maps.2 k).getD []
      then (PyDict.get? maps.2 k).getD []
      else (PyDict.get? maps.2 k).getD [] ++ [tn])
    split_ifs
    · exact h
    · exact List.mem_append_left _ h
  · rw [if_neg hk]
    exact h

theorem plan_read_tset_self (maps : PyDict String × PyDict (List String))
    (q tn : String) :
    tn ∈ (PyDict.get? (_plan_read maps q tn).2
      (os_path_normcase (os_path_normpath q))).getD [] := by
  rw [plan_read_snd, PyDict.get?_set, if_pos rfl]
  show tn ∈ (if tn ∈ (PyDict.get? maps.2 (os_path_normcase (os_path_normpath q))).getD []
    then (PyDict.get? maps.2 (os_path_normcase (os_path_normpath q))).getD []
    else (PyDict.get? maps.2 (os_path_normcase (os_path_normpath q))).getD [] ++ [tn])
  split_ifs with h
  · exact h
  · exact List.mem_append_right _ (List.mem_singleton_self _)

theorem plan_read_tset_src (maps : PyDict String × PyDict (List String))
    (q tn k x : String)
    (h : x ∈ (PyDict.get? (_plan_read maps q tn).2 k).getD []) :
    x ∈ (PyDict.get? maps.2 k).getD [] ∨
      (x = tn ∧ os_path_normcase (os_path_normpath q) = k) := by
  rw [plan_read_snd, PyDict.get?_set] at h
  by_cases hk : os_path_normcase (os_path_normpath q) = k
  · rw [if_pos hk, hk] at h
    have h' : x ∈ (if tn ∈ (PyDict.get? maps.2 k).getD []
        then (PyDict.get? maps.2 k).getD []
        else (PyDict.get? maps.2 k).getD [] ++ [tn]) := h
    by_cases hmem : tn ∈ (PyDict.get? maps.2 k).getD []
    · rw [if_pos hmem] at h'
      exact Or.inl h'
    · rw [if_neg hmem] at h'
      rcases List.mem_append.mp h' with h'' | h''
      · exact Or.inl h''
      · exact Or.inr ⟨List.mem_singleton.mp h'', hk⟩
  · rw [if_neg hk] at h
    exact Or.inl h

theorem plan_read_fst_mem (maps : PyDict String × PyDict (List String))
    (q tn : String) (kv : String × String)
    (h : kv ∈ (_plan_read maps q tn).1) :
    kv ∈ maps.1 ∨
      kv = (os_path_normcase (os_path_normpath q), os_path_normpath q) := by
  rw [plan_read_fst] at h
  rcases hg : PyDict.get? maps.1 (os_path_normcase (os_path_normpath q)) with _ | v
  · rw [hg] at h
    rcases PyDict.mem_set _ _ _ _ h with h' | h'
    · exact Or.inr h'
    · exact Or.inl h'
  · rw [hg] at h
    exact Or.inl h

theorem plan_read_keys (maps : PyDict String × PyDict (List String)) (q tn : String)
    (h : ∀ k ∈ PyDict.keys maps.1, k ∈ PyDict.keys maps.2) :
    ∀ k ∈ PyDict.keys (_plan_read maps q tn).1,
      k ∈ PyDict.keys (_plan_read maps q tn).2 := by
  intro k hk
  have hk2 : k ∈ PyDict.keys maps.2 ∨ k = os_path_normcase (os_path_normpath q) := by
    rw [plan_read_fst] at hk
    rcases hg : PyDict.get? maps.1 (os_path_normcase (os_path_normpath q)) with _ | v
    · rw [hg, PyDict.keys_set] at hk
      by_cases hin : os_path_normcase (os_path_normpath q) ∈ PyDict.keys maps.1
      · rw [if_pos hin] at hk
        exact Or.inl (h k hk)
      · rw [if_neg hin] at hk
        rcases List.mem_append.mp hk with h' | h'
        · exact Or.inl (h k h')
        · exact Or.inr (List.mem_singleton.mp h')
    · rw [hg] at hk
      exact Or.inl (h k hk)
  rw [plan_read_snd, PyDict.keys_set]
  by_cases hin : os_path_normcase (os_path_normpath q) ∈ PyDict.keys maps.2
  · rw [if_pos hin]
    rcases hk2 with h' | h'
    · exact h'
    · rw [h']
      exact hin
  · rw [if_neg hin]
    rcases hk2 with h' | h'
    · exact List.mem_append_left _ h'
    · rw [h']
      exact List.mem_append_right _ (List.mem_singleton_self _)

theorem plan_fold_tset_mono (env : LoaderEnv) :
    ∀ (fbs : List String) (maps : PyDict String × PyDict (List String)) (k x : String),
      x ∈ (PyDict.get? maps.2 k).getD [] →
      x ∈ (PyDict.get? (fbs.foldl (planStep env) maps).2 k).getD [] := by
  intro fbs
  induction fbs with
  | nil => intro maps k x h; exact h
  | cons tp fbs ih =>
    intro maps k x h
    rw [List.foldl_cons]
    exact ih _ k x (plan_read_tset_mono maps _ _ k x h)

theorem plan_fold_insert (env : LoaderEnv) :
    ∀ (fbs : List String) (maps : PyDict String × PyDict (List String)) (tp : String),
      tp ∈ fbs →
      os_path_normpath tp ∈ (PyDict.get? (fbs.foldl (planStep env) maps).2
        (os_path_normcase (os_path_normpath (loaderQueryPath env tp)))).getD [] := by
  intro fbs
  induction fbs with
  | nil => intro maps tp htp; exact absurd htp (List.not_mem_nil tp)
  | cons q fbs ih =>
    intro maps tp htp
    rw [List.foldl_cons]
    rcases List.mem_cons.mp htp with htp | htp
    · subst htp
      exact plan_fold_tset_mono env fbs _ _ _ (plan_read_tset_self maps _ _)
    · exact ih _ tp htp

theorem plan_fold_tset_src (env : LoaderEnv) :
    ∀ (fbs : List String) (maps : PyDict String × PyDict (List String)) (k x : String),
      x ∈ (PyDict.get? (fbs.foldl (planStep env) maps).2 k).getD [] →
      x ∈ (PyDict.get? maps.2 k).getD [] ∨
        ∃ tp ∈ fbs, os_path_normpath tp = x ∧
          os_path_normcase (os_path_normpath (loaderQueryPath env tp)) = k := by
  intro fbs
  induction fbs with
  | nil => intro maps k x h; exact Or.inl h
  | cons q fbs ih =>
    intro maps k x h
    rw [List.foldl_cons] at h
    rcases ih _ k x h with h' | ⟨tp, htp, h1, h2⟩
    · rcases plan_read_tset_src maps _ _ k x h' with h'' | ⟨h1, h2⟩
      · exact Or.inl h''
      · exact Or.inr ⟨q, List.mem_cons_self _ _, h1.symm, h2⟩
    · exact Or.inr ⟨tp, List.mem_cons_of_mem _ htp, h1, h2⟩

theorem plan_fold_fst_mem (env : LoaderEnv) :
    ∀ (fbs : List String) (maps : PyDict String × PyDict (List String))
      (kv : String × String),
      kv ∈ (fbs.foldl (planStep env) maps).1 →
      kv ∈ maps.1 ∨ ∃ tp ∈ fbs,
        kv = (os_path_normcase (os_path_normpath (loaderQueryPath env tp)),
          os_path_normpath (loaderQueryPath env tp)) := by
  intro fbs
  induction fbs with
  | nil => intro maps kv h; exact Or.inl h
  | cons q fbs ih =>
    intro maps kv h
    rw [List.foldl_cons] at h
    rcases ih _ kv h with h' | ⟨tp, htp, he⟩
    · rcases plan_read_fst_mem maps _ _ kv h' with h'' | h''
      · exact Or.inl h''
      · exact Or.inr ⟨q, List.mem_cons_self _ _, h''⟩
    · exact Or.inr ⟨tp, List.mem_cons_of_mem _ htp, he⟩

theorem plan_fold_keys (env : LoaderEnv) :
    ∀ (fbs : List String) (maps : PyDict String × PyDict (List String)),
      (∀ k ∈ PyDict.keys maps.1, k ∈ PyDict.keys maps.2) →
      ∀ k ∈ PyDict.keys (fbs.foldl (planStep env) maps).1,
        k ∈ PyDict.keys (fbs.foldl (planStep env) maps).2 := by
  intro fbs
  induction fbs with
  | nil => intro maps h; exact h
  | cons q fbs ih =>
    intro maps h
    rw [List.foldl_cons]
    exact ih _ (plan_read_keys maps _ _ h)

theorem loaderPlan_eq (env : LoaderEnv) (fbs uncached : List String) :
    loaderPlan env fbs uncached
      = fbs.foldl (planStep env) (PyDict.empty, PyDict.empty) := by
  simp only [loaderPlan, EXIF_ONLY_FROM_REPORT_DB]
  rw [if_neg (by simp)]

theorem read_batch_keys_origin (env : ExifEnv) (cache : RecMap) (ps : List String)
    (n : String) (h : n ∈ PyDict.keys (read_batch_metadata env cache ps).1) :
    ∃ r ∈ ps, os_path_normpath r = n := by
  by_cases h0 : ps = []
  · subst h0
    rw [read_batch_metadata_eq, if_pos rfl] at h
    exact absurd h (List.not_mem_nil n)
  · obtain ⟨hinv, hcover, _, hmemu, horig⟩ :=
      rbmSplit_foldl cache ps ([], [], []) (rbmInv_nil cache)
    obtain ⟨_, _, _, _, _, _, hks⟩ := hinv
    by_cases hunce : (rbmSplit cache ps).2 = []
    · rw [read_batch_metadata_eq, if_neg h0, if_pos hunce] at h
      have h1 : n ∈ (List.foldl (rbmSplitStep cache) ([], [], []) ps).1 := hks n h
      rcases horig n h1 with h' | h'
      · exact absurd h' (List.not_mem_nil n)
      · exact h'
    · rw [read_batch_metadata_eq, if_neg h0, if_neg hunce] at h
      have h' : n ∈ PyDict.keys (RecMap.update (rbmSplit cache ps).1
          (rbmNewResult env (rbmSplit cache ps).2)) := h
      rw [RecMap.update_def] at h'
      rcases PyDict.mem_keys_update _ _ n h' with h'' | h''
      · have h1 : n ∈ (List.foldl (rbmSplitStep cache) ([], [], []) ps).1 := hks n h''
        rcases horig n h1 with h3 | h3
        · exact absurd h3 (List.not_mem_nil n)
        · exact h3
      · obtain ⟨u, hu, hnu⟩ := rbmNewResult_keys_origin env _ n h''
        rcases hmemu u hu with h3 | h3
        · exact absurd h3 (List.not_mem_nil u)
        · exact ⟨u, h3, hnu⟩

theorem read_batch_keys_nodup (env : ExifEnv) (cache : RecMap) (ps : List String) :
    (PyDict.keys (read_batch_metadata env cache ps).1).Nodup := by
  by_cases h0 : ps = []
  · subst h0
    rw [read_batch_metadata_eq, if_pos rfl]
    exact List.nodup_nil
  · obtain ⟨hinv, _, _, _, _⟩ := rbmSplit_foldl cache ps ([], [], []) (rbmInv_nil cache)
    obtain ⟨_, _, _, _, _, hknd, _⟩ := hinv
    by_cases hunce : (rbmSplit cache ps).2 = []
    · rw [read_batch_metadata_eq, if_neg h0, if_pos hunce]
      exact hknd
    · rw [read_batch_metadata_eq, if_neg h0, if_neg hunce]
      show (PyDict.keys (RecMap.update (rbmSplit cache ps).1
        (rbmNewResult env (rbmSplit cache ps).2))).Nodup
      rw [RecMap.update_def]
      exact PyDict.nodup_keys_update _ _ hknd

theorem os_path_normcase_eq (s : String) : os_path_normcase s = s := rfl

theorem target_fold_get? (meta : DisplayRec) (t : String) :
    ∀ (targets : List String) (res : PyDict DisplayRec),
      PyDict.get? (targets.foldl (fun r x => PyDict.set r x meta) res) t
        = if t ∈ targets then some meta else PyDict.get? res t := by
  intro targets
  induction targets with
  | nil =>
    intro res
    rw [if_neg (List.not_mem_nil t)]
    rfl
  | cons x targets ih =>
    intro res
    rw [List.foldl_cons, ih]
    by_cases hmem : t ∈ targets
    · rw [if_pos hmem, if_pos (List.mem_cons_of_mem _ hmem)]
    · rw [if_neg hmem, PyDict.get?_set]
      by_cases hx : x = t
      · rw [if_pos hx, if_pos (by rw [hx]; exact List.mem_cons_self _ _)]
      · rw [if_neg hx, if_neg (by
          intro hmm
          rcases List.mem_cons.mp hmm with h | h
          · exact hx h.symm
          · exact hmem h)]

theorem applyEntryStep_not_target (tbk : PyDict (List String)) (t qn : String)
    (Huni : ∀ k, t ∈ (PyDict.get? tbk k).getD [] → k = qn)
    (k : String) (rec : Rec) (res : PyDict DisplayRec)
    (Hk : os_path_normpath k = k) (Hmem : k ∈ PyDict.keys tbk) (Hne : k ≠ qn) :
    PyDict.get? (applyEntryStep tbk res (k, rec)) t = PyDict.get? res t := by
  unfold applyEntryStep
  dsimp only
  rw [os_path_normcase_eq, Hk]
  obtain ⟨tset, hts⟩ : ∃ ts, PyDict.get? tbk k = some ts := by
    rcases hg : PyDict.get? tbk k with _ | ts
    · rw [PyDict.get?_eq_none_iff] at hg
      exact absurd Hmem hg
    · exact ⟨ts, rfl⟩
  rw [hts, Option.getD_some, target_fold_get?,
    if_neg (fun hmm => Hne (Huni k (by rw [hts, Option.getD_some]; exact hmm)))]

theorem applyEntryStep_target (tbk : PyDict (List String)) (t qn : String)
    (Ht : t ∈ (PyDict.get? tbk qn).getD []) (rec : Rec) (res : PyDict DisplayRec)
    (Hq : os_path_normpath qn = qn) :
    PyDict.get? (applyEntryStep tbk res (qn, rec)) t = some (_parse_rec rec) := by
  unfold applyEntryStep
  dsimp only
  rw [os_path_normcase_eq, Hq]
  rcases hg : PyDict.get? tbk qn with _ | tset
  · rw [hg] at Ht
    simp at Ht
  · rw [hg] at Ht
    rw [Option.getD_some] at Ht
    rw [Option.getD_some, target_fold_get?, if_pos Ht]

theorem entries_fold_preserve (tbk : PyDict (List String)) (t qn : String)
    (Huni : ∀ k, t ∈ (PyDict.get? tbk k).getD [] → k = qn) :
    ∀ (entries : List (String × Rec)) (res : PyDict DisplayRec),
      (∀ e ∈ entries, os_path_normpath e.1 = e.1 ∧ e.1 ∈ PyDict.keys tbk ∧ e.1 ≠ qn) →
      PyDict.get? (entries.foldl (applyEntryStep tbk) res) t = PyDict.get? res t := by
  intro entries
  induction entries with
  | nil => intro res _; rfl
  | cons e entries ih =>
    intro res hprops
    rw [List.foldl_cons, ih _ (fun x hx => hprops x (List.mem_cons_of_mem _ hx))]
    obtain ⟨h1, h2, h3⟩ := hprops e (List.mem_cons_self _ _)
    exact applyEntryStep_not_target tbk t qn Huni e.1 e.2 res h1 h2 h3

theorem entries_fold_write (tbk : PyDict (List String)) (t qn : String)
    (Huni : ∀ k, t ∈ (PyDict.get? tbk k).getD [] → k = qn)
    (Ht : t ∈ (PyDict.get? tbk qn).getD []) (Hqn : os_path_normpath qn = qn) :
    ∀ (entries : List (String × Rec)) (res : PyDict DisplayRec) (r : Rec),
      (∀ e ∈ entries, os_path_normpath e.1 = e.1 ∧ e.1 ∈ PyDict.keys tbk) →
      (entries.map Prod.fst).Nodup →
      PyDict.get? entries qn = some r →
      PyDict.get? (entries.foldl (applyEntryStep tbk) res) t
        = some (_parse_rec r) := by
  intro entries
  induction entries with
  | nil =>
    intro res r _ _ hval
    rw [PyDict.get?_nil] at hval
    exact Option.noConfusion hval
  | cons e entries ih =>
    intro res r hprops hnd hval
    rw [PyDict.get?_cons] at hval
    rw [List.foldl_cons]
    rw [List.map_cons] at hnd
    by_cases he : e.1 = qn
    · rw [if_pos he] at hval
      injection hval with hv
      have hnotin := (List.nodup_cons.mp hnd).1
      rw [entries_fold_preserve tbk t qn Huni entries _ (by
        intro x hx
        obtain ⟨p1, p2⟩ := hprops x (List.mem_cons_of_mem _ hx)
        refine ⟨p1, p2, fun heq => hnotin ?_⟩
        rw [he, ← heq]
        exact List.mem_map_of_mem Prod.fst hx)]
      have hee : e = (qn, e.2) := by
        rw [← he]
      rw [hee, applyEntryStep_target tbk t qn Ht e.2 res Hqn, hv]
    · rw [if_neg he] at hval
      exact ih _ r (fun x hx => hprops x (List.mem_cons_of_mem _ hx))
        (List.nodup_cons.mp hnd).2 hval

theorem loaderChunkStep_fst (env : LoaderEnv) (tbk : PyDict (List String))
    (st : PyDict DisplayRec × RecMap × RecMap) (c : List String) :
    (loaderChunkStep env tbk st c).1
      = loaderApplyChunk tbk st.1 (read_batch_metadata env.exif st.2.1 c).1 := rfl

theorem loaderChunkStep_raw (env : LoaderEnv) (tbk : PyDict (List String))
    (st : PyDict DisplayRec × RecMap × RecMap) (c : List String) :
    (loaderChunkStep env tbk st c).2.2
      = RecMap.update st.2.2 (read_batch_metadata env.exif st.2.1 c).1 := rfl

theorem chunk_fold_inv (env : LoaderEnv) (tbk : PyDict (List String)) (t qn : String)
    (Hqn : os_path_normpath qn = qn)
    (Huni : ∀ k, t ∈ (PyDict.get? tbk k).getD [] → k = qn)
    (Ht : t ∈ (PyDict.get? tbk qn).getD []) :
    ∀ (cs : List (List String)) (st : PyDict DisplayRec × RecMap × RecMap),
      (∀ c ∈ cs, ∀ r ∈ c, os_path_normpath r = r ∧ r ∈ PyDict.keys tbk) →
      (RecMap.get? st.2.2 qn = none ∨
        ∃ r, RecMap.get? st.2.2 qn = some r ∧
          PyDict.get? st.1 t = some (_parse_rec r)) →
      (RecMap.get? (cs.foldl (loaderChunkStep env tbk) st).2.2 qn = none ∨
        ∃ r, RecMap.get? (cs.foldl (loaderChunkStep env tbk) st).2.2 qn = some r ∧
          PyDict.get? (cs.foldl (loaderChunkStep env tbk) st).1 t
            = some (_parse_rec r)) := by
  intro cs
  induction cs with
  | nil => intro st _ hinv; exact hinv
  | cons c cs ih =>
    intro st hcs hinv
    rw [List.foldl_cons]
    apply ih _ (fun c' hc' => hcs c' (List.mem_cons_of_mem _ hc'))
    have hckeys : ∀ k ∈ PyDict.keys (read_batch_metadata env.exif st.2.1 c).1,
        os_path_normpath k = k ∧ k ∈ PyDict.keys tbk := by
      intro k hk
      obtain ⟨r, hr, hnr⟩ := read_batch_keys_origin env.exif st.2.1 c k hk
      obtain ⟨hr1, hr2⟩ := hcs c (List.mem_cons_self _ _) r hr
      rw [hr1] at hnr
      subst hnr
      exact ⟨hr1, hr2⟩
    have hcnodup := read_batch_keys_nodup env.exif st.2.1 c
    have hentry : ∀ e ∈ (read_batch_metadata env.exif st.2.1 c).1,
        os_path_normpath e.1 = e.1 ∧ e.1 ∈ PyDict.keys tbk := by
      intro e he
      exact hckeys e.1 (List.mem_map_of_mem Prod.fst he)
    by_cases hq : qn ∈ PyDict.keys (read_batch_metadata env.exif st.2.1 c).1
    · obtain ⟨r', hr'⟩ :
          ∃ r', RecMap.get? (read_batch_metadata env.exif st.2.1 c).1 qn = some r' := by
        rcases hg : RecMap.get? (read_batch_metadata env.exif st.2.1 c).1 qn with _ | r'
        · have hg' : PyDict.get? (read_batch_metadata env.exif st.2.1 c).1 qn = none := hg
          exact absurd hq ((PyDict.get?_eq_none_iff _ _).mp hg')
        · exact ⟨r', rfl⟩
      right
      refine ⟨r', ?_, ?_⟩
      · rw [loaderChunkStep_raw, RecMap.update_def, RecMap.get?_def, PyDict.get?_update,
          PyDict.lastGet?_eq_get? _ _ hcnodup, ← RecMap.get?_def, hr']
      · rw [loaderChunkStep_fst]
        exact entries_fold_write tbk t qn Huni Ht Hqn _ st.1 r' hentry hcnodup hr'
    · have hnone : PyDict.get? (read_batch_metadata env.exif st.2.1 c).1 qn = none :=
        (PyDict.get?_eq_none_iff _ _).mpr hq
      have hraw : RecMap.get? (loaderChunkStep env tbk st c).2.2 qn
          = RecMap.get? st.2.2 qn := by
        rw [loaderChunkStep_raw, RecMap.update_def, RecMap.get?_def, PyDict.get?_update,
          PyDict.lastGet?_eq_get? _ _ hcnodup, hnone]
        rfl
      have hres : PyDict.get? (loaderChunkStep env tbk st c).1 t
          = PyDict.get? st.1 t := by
        rw [loaderChunkStep_fst]
        exact entries_fold_preserve tbk t qn Huni _ st.1 (by
          intro e he
          obtain ⟨p1, p2⟩ := hentry e he
          refine ⟨p1, p2, fun heq => hq ?_⟩
          rw [← heq]
          exact List.mem_map_of_mem Prod.fst he)
      rcases hinv with hinv | ⟨r, hr1, hr2⟩
      · left
        rw [hraw, hinv]
      · right
        exact ⟨r, by rw [hraw]; exact hr1, by rw [hres]; exact hr2⟩

theorem MetadataLoader_run_eq (env : LoaderEnv) (cache₀ : RecMap)
    (paths : List String) (h : paths ≠ []) :
    MetadataLoader_run env cache₀ paths =
      ⟨((_chunked (max 1 _METADATA_CHUNK_SIZE)
          (List.map Prod.snd (PyDict.items (loaderPlan env
            (loaderPhase1 env cache₀ paths).fallbackPaths
            (loaderPhase1 env cache₀ paths).uncached).1))).foldl
        (loaderChunkStep env (loaderPlan env
          (loaderPhase1 env cache₀ paths).fallbackPaths
          (loaderPhase1 env cache₀ paths).uncached).2)
        ((loaderPhase1 env cache₀ paths).result,
          (loaderPhase1 env cache₀ paths).cache, PyDict.empty)).1,
      ((_chunked (max 1 _METADATA_CHUNK_SIZE)
          (List.map Prod.snd (PyDict.items (loaderPlan env
            (loaderPhase1 env cache₀ paths).fallbackPaths
            (loaderPhase1 env cache₀ paths).uncached).1))).foldl
        (loaderChunkStep env (loaderPlan env
          (loaderPhase1 env cache₀ paths).fallbackPaths
          (loaderPhase1 env cache₀ paths).uncached).2)
        ((loaderPhase1 env cache₀ paths).result,
          (loaderPhase1 env cache₀ paths).cache, PyDict.empty)).2.1,
      ((_chunked (max 1 _METADATA_CHUNK_SIZE)
          (List.map Prod.snd (PyDict.items (loaderPlan env
            (loaderPhase1 env cache₀ paths).fallbackPaths
            (loaderPhase1 env cache₀ paths).uncached).1))).foldl
        (loaderChunkStep env (loaderPlan env
          (loaderPhase1 env cache₀ paths).fallbackPaths
          (loaderPhase1 env cache₀ paths).uncached).2)
        ((loaderPhase1 env cache₀ paths).result,
          (loaderPhase1 env cache₀ paths).cache, PyDict.empty)).2.2⟩ := by
  simp only [MetadataLoader_run]
  rw [if_neg h]

/-- C2: within one `MetadataLoader.run`, a path whose stem hits a report
row marked as needing fallback first receives the database-derived parsed
record in the report phase, and — when the batch file/sidecar read of its
deduplicated query path yields a raw record — the final emitted entry for
the path equals the parse of that raw record: the later fallback result
overwrites the earlier database-derived one, never the reverse. (The
requested paths are assumed to name distinct normalized files, the map's
identity.) -/
theorem c2_fallback_overwrites_db (env : LoaderEnv) (cache₀ : RecMap)
    (paths : List String) (p : String) (row : Rec) (rec : Rec)
    (hp : p ∈ paths)
    (hrow : PyDict.get? env.reportCache (pathlibStem p) = some row)
    (hneeds : _report_row_needs_file_fallback row = true)
    (huni : ∀ q ∈ paths, os_path_normpath q = os_path_normpath p → q = p)
    (hrec : RecMap.get? (MetadataLoader_run env cache₀ paths).batchRaw
      (os_path_normpath (loaderQueryPath env p)) = some rec) :
    PyDict.get? (loaderPhase1 env cache₀ paths).result (os_path_normpath p)
      = some (_parse_rec (report_row_to_exiftool_style row p)) ∧
    PyDict.get? (MetadataLoader_run env cache₀ paths).result (os_path_normpath p)
      = some (_parse_rec rec) := by
  have h0 : paths ≠ [] := fun h => List.not_mem_nil p (h ▸ hp)
  constructor
  · exact phase1_result_val env p row hrow paths _ hp huni
  · have hfb : p ∈ (loaderPhase1 env cache₀ paths).fallbackPaths :=
      phase1_fb_mem env paths _ p row hp hrow hneeds
    have hfbsrc : ∀ x ∈ (loaderPhase1 env cache₀ paths).fallbackPaths, x ∈ paths := by
      intro x hx
      rcases phase1_fb_src env paths _ x hx with h' | h'
      · exact absurd h' (List.not_mem_nil x)
      · exact h'
    have hplan := loaderPlan_eq env (loaderPhase1 env cache₀ paths).fallbackPaths
      (loaderPhase1 env cache₀ paths).uncached
    have hT : os_path_normpath p ∈
        (PyDict.get? (loaderPlan env (loaderPhase1 env cache₀ paths).fallbackPaths
          (loaderPhase1 env cache₀ paths).uncached).2
          (os_path_normcase (os_path_normpath (loaderQueryPath env p)))).getD [] := by
      rw [hplan]
      exact plan_fold_insert env _ _ p hfb
    have hU : ∀ k, os_path_normpath p ∈
        (PyDict.get? (loaderPlan env (loaderPhase1 env cache₀ paths).fallbackPaths
          (loaderPhase1 env cache₀ paths).uncached).2 k).getD [] →
        k = os_path_normcase (os_path_normpath (loaderQueryPath env p)) := by
      intro k hk
      rw [hplan] at hk
      rcases plan_fold_tset_src env _ _ k _ hk with h' | ⟨tp, htp, h1, h2⟩
      · exact absurd h' (List.not_mem_nil _)
      · have htp' := hfbsrc tp htp
        have htpp := huni tp htp' h1
        rw [← h2, htpp]
    have hQN : os_path_normpath (os_path_normcase (os_path_normpath
        (loaderQueryPath env p)))
        = os_path_normcase (os_path_normpath (loaderQueryPath env p)) := by
      rw [os_path_normcase_eq]
      exact os_path_normpath_idem _
    have hCS : ∀ c ∈ _chunked (max 1 _METADATA_CHUNK_SIZE)
        (List.map Prod.snd (PyDict.items (loaderPlan env
          (loaderPhase1 env cache₀ paths).fallbackPaths
          (loaderPhase1 env cache₀ paths).uncached).1)),
        ∀ r ∈ c, os_path_normpath r = r ∧
          r ∈ PyDict.keys (loaderPlan env
            (loaderPhase1 env cache₀ paths).fallbackPaths
            (loaderPhase1 env cache₀ paths).uncached).2 := by
      intro c hc r hr
      have hflat : r ∈ List.map Prod.snd (PyDict.items (loaderPlan env
          (loaderPhase1 env cache₀ paths).fallbackPaths
          (loaderPhase1 env cache₀ paths).uncached).1) := by
        have hmem := List.mem_flatten.mpr ⟨c, hc, hr⟩
        rwa [chunked_flatten (max 1 _METADATA_CHUNK_SIZE) (le_max_left 1 _)] at hmem
      obtain ⟨kv, hkv, hkvr⟩ := List.mem_map.mp hflat
      have hkv' : kv ∈ ((loaderPhase1 env cache₀ paths).fallbackPaths.foldl
          (planStep env) (PyDict.empty, PyDict.empty)).1 := by
        rw [← hplan]
        exact hkv
      rcases plan_fold_fst_mem env _ _ kv hkv' with h' | ⟨tp, htp, he⟩
      · exact absurd h' (List.not_mem_nil kv)
      · constructor
        · rw [← hkvr, he]
          dsimp only
          exact os_path_normpath_idem _
        · have hk1 : kv.1 ∈ PyDict.keys ((loaderPhase1 env cache₀ paths).fallbackPaths.foldl
              (planStep env) (PyDict.empty, PyDict.empty)).1 :=
            List.mem_map_of_mem Prod.fst hkv'
          have hsub := plan_fold_keys env _ (PyDict.empty, PyDict.empty)
            (fun k hk => absurd hk (List.not_mem_nil k)) kv.1 hk1
          rw [he] at hsub
          dsimp only at hsub
          rw [os_path_normcase_eq] at hsub
          rw [← hkvr, he]
          dsimp only
          rw [hplan]
          exact hsub
    rw [MetadataLoader_run_eq env cache₀ paths h0] at hrec ⊢
    dsimp only at hrec ⊢
    rw [← os_path_normcase_eq (os_path_normpath (loaderQueryPath env p))] at hrec
    have hinv := chunk_fold_inv env
      (loaderPlan env (loaderPhase1 env cache₀ paths).fallbackPaths
        (loaderPhase1 env cache₀ paths).uncached).2
      (os_path_normpath p)
      (os_path_normcase (os_path_normpath (loaderQueryPath env p)))
      hQN hU hT
      (_chunked (max 1 _METADATA_CHUNK_SIZE)
        (List.map Prod.snd (PyDict.items (loaderPlan env
          (loaderPhase1 env cache₀ paths).fallbackPaths
          (loaderPhase1 env cache₀ paths).uncached).1)))
      ((loaderPhase1 env cache₀ paths).result,
        (loaderPhase1 env cache₀ paths).cache, PyDict.empty)
      hCS (Or.inl rfl)
    rcases hinv with hnone | ⟨r, hr1, hr2⟩
    · rw [hnone] at hrec
      exact Option.noConfusion hrec
    · rw [hr1] at hrec
      injection hrec with hv
      rw [hr2, hv]

theorem c2_fallback_overwrites_db_witness :
    PyDict.get? (loaderPhase1 envC2 [] ["/d/IMG_1.arw"]).result
        (os_path_normpath "/d/IMG_1.arw")
      = some (_parse_rec (report_row_to_exiftool_style rowC2 "/d/IMG_1.arw")) ∧
    PyDict.get? (MetadataLoader_run envC2 [] ["/d/IMG_1.arw"]).result
        (os_path_normpath "/d/IMG_1.arw")
      = some (_parse_rec recC2) := by
  have hch : _chunked (max 1 _METADATA_CHUNK_SIZE) ["/d/IMG_1.arw"]
      = [["/d/IMG_1.arw"]] := by
    rw [_chunked, dif_neg (by decide : ¬ max 1 _METADATA_CHUNK_SIZE = 0)]
    rw [show List.drop (max 1 _METADATA_CHUNK_SIZE) ["/d/IMG_1.arw"]
      = ([] : List String) from by decide]
    rw [_chunked]
    rw [show List.take (max 1 _METADATA_CHUNK_SIZE) ["/d/IMG_1.arw"]
      = ["/d/IMG_1.arw"] from by decide]
  exact c2_fallback_overwrites_db envC2 [] ["/d/IMG_1.arw"] "/d/IMG_1.arw" rowC2 recC2
    (by decide) (by decide) needs_fallback_rowC2 (by decide)
    (by
      rw [MetadataLoader_run_eq envC2 [] ["/d/IMG_1.arw"] (by decide)]
      dsimp only
      rw [phase1_envC2_eq]
      dsimp only
      rw [show List.map Prod.snd (PyDict.items
        (loaderPlan envC2 ["/d/IMG_1.arw"] []).1) = ["/d/IMG_1.arw"] from by decide]
      rw [hch]
      rfl)

theorem normpath_rooted_single (s : String) (hne : s ≠ "") (hdot : s ≠ ".")
    (hdd : s ≠ "..") (hsl : '/' ∉ s.data) :
    os_path_normpath ("/" ++ s) = "/" ++ s := by
  obtain ⟨c, t, hsd⟩ : ∃ c t, s.data = c :: t := by
    rcases hd : s.data with _ | ⟨c, t⟩
    · exact absurd (eq_empty_of_data_eq_nil s hd) hne
    · exact ⟨c, t, rfl⟩
  have hcne : c ≠ '/' := by
    intro he
    apply hsl
    rw [hsd, he]
    exact List.mem_cons_self _ _
  have hPd : ("/" ++ s).data = '/' :: c :: t := by
    rw [String.data_append, hsd]
    rfl
  have hPne : ("/" ++ s) ≠ "" := by
    intro he
    rw [he] at hPd
    exact List.noConfusion hPd
  have hst1 : strStarts ("/" ++ s) "/" = true := by
    unfold strStarts
    rw [hPd]
    simp
  have h2 : ¬ (strStarts ("/" ++ s) "//" = true ∧
      ¬ strStarts ("/" ++ s) "///" = true) := by
    intro hpair
    have hst2 : strStarts ("/" ++ s) "//" = false := by
      unfold strStarts
      rw [hPd]
      simp [hcne]
    rw [hst2] at hpair
    exact Bool.noConfusion hpair.1
  have hsplit : pySplit ("/" ++ s) '/' = ["", s] := by
    rw [pySplit_slash_append]
    rw [show pySplit s '/' = [s] from by
      unfold pySplit
      rw [splitOnChar_of_not_mem '/' s.data hsl]
      rfl]
  have hstep2 : normpathStep true [] s = [s] := by
    unfold normpathStep
    rw [if_neg (by
      intro h
      rcases h with h | h
      · exact hne h
      · exact hdot h)]
    rw [if_pos (Or.inl hdd)]
    rfl
  simp only [os_path_normpath, if_neg hPne, hst1, hsplit]
  rw [if_pos trivial, if_neg h2,
    show String.join (List.replicate 1 "/") = "/" from rfl,
    List.foldl_cons, normpathStep_empty, List.foldl_cons, hstep2, List.foldl_nil,
    joinWith_single]
  exact if_neg hPne

theorem replicate_a_seg (n : Nat) :
    String.mk (List.replicate (n + 1) 'a') ≠ "" ∧
    String.mk (List.replicate (n + 1) 'a') ≠ "." ∧
    String.mk (List.replicate (n + 1) 'a') ≠ ".." ∧
    '/' ∉ (String.mk (List.replicate (n + 1) 'a')).data := by
  refine ⟨?_, ?_, ?_, ?_⟩
  · intro h
    have hd := congrArg String.data h
    rw [show (String.mk (List.replicate (n + 1) 'a')).data
        = List.replicate (n + 1) 'a' from rfl, List.replicate_succ,
      show ("" : String).data = ([] : List Char) from rfl] at hd
    exact List.noConfusion hd
  · intro h
    have hd := congrArg String.data h
    rw [show (String.mk (List.replicate (n + 1) 'a')).data
        = List.replicate (n + 1) 'a' from rfl, List.replicate_succ,
      show ("." : String).data = ['.'] from rfl] at hd
    injection hd with h1 h2
    exact absurd h1 (by decide)
  · intro h
    have hd := congrArg String.data h
    rw [show (String.mk (List.replicate (n + 1) 'a')).data
        = List.replicate (n + 1) 'a' from rfl, List.replicate_succ,
      show (".." : String).data = ['.', '.'] from rfl] at hd
    injection hd with h1 h2
    exact absurd h1 (by decide)
  · intro hm
    rw [show (String.mk (List.replicate (n + 1) 'a')).data
        = List.replicate (n + 1) 'a' from rfl] at hm
    exact absurd (List.eq_of_mem_replicate hm) (by decide)

theorem pathsC1bug_length : pathsC1bug.length = _METADATA_CACHE_MAX + 1 := by
  simp [pathsC1bug]

theorem pathsC1bug_nodup : pathsC1bug.Nodup := by
  have hinj : Function.Injective
      (fun i : Nat => "/" ++ String.mk (List.replicate (i + 1) 'a')) := by
    intro i j h
    have h' : "/" ++ String.mk (List.replicate (i + 1) 'a')
        = "/" ++ String.mk (List.replicate (j + 1) 'a') := h
    have hd := congrArg String.data h'
    rw [String.data_append, String.data_append] at hd
    have hr : (String.mk (List.replicate (i + 1) 'a')).data
        = (String.mk (List.replicate (j + 1) 'a')).data :=
      List.append_cancel_left hd
    have hl := congrArg List.length hr
    rw [show (String.mk (List.replicate (i + 1) 'a')).data
        = List.replicate (i + 1) 'a' from rfl,
      show (String.mk (List.replicate (j + 1) 'a')).data
        = List.replicate (j + 1) 'a' from rfl,
      List.length_replicate, List.length_replicate] at hl
    omega
  unfold pathsC1bug
  exact List.Nodup.map hinj (List.nodup_range _)

theorem pathsC1bug_norm : ∀ p ∈ pathsC1bug, os_path_normpath p = p := by
  intro p hp
  obtain ⟨i, -, he⟩ := List.mem_map.mp hp
  rw [← he]
  obtain ⟨h1, h2, h3, h4⟩ := replicate_a_seg i
  exact normpath_rooted_single _ h1 h2 h3 h4

theorem rbmSplit_snd_eq (cache : RecMap) (paths : List String) :
    (rbmSplit cache paths).2
      = (paths.foldl (rbmSplitStep cache) ([], [], [])).2.2 := rfl

theorem read_batch_metadata?_none (env : ExifEnv) (cache : RecMap)
    (paths : List String) (h0 : paths ≠ [])
    (hu : (rbmSplit cache paths).2 ≠ [])
    (hn : _METADATA_CACHE_MAX < (rbmNewResult env (rbmSplit cache paths).2).length) :
    read_batch_metadata? env cache paths = none := by
  simp only [read_batch_metadata?]
  rw [if_neg h0]
  rcases hS : rbmSplit cache paths with ⟨res0, unc⟩
  rw [hS] at hu hn
  dsimp only at hu hn ⊢
  rw [if_neg hu]
  rw [show cacheWriteBack? cache (rbmNewResult env unc) = none from by
    unfold cacheWriteBack?
    exact if_pos hn]

theorem read_batch_metadata?_agree (env : ExifEnv) (cache : RecMap)
    (paths : List String) (out : RecMap × RecMap × ReadEffects)
    (h : read_batch_metadata? env cache paths = some out) :
    read_batch_metadata env cache paths = out := by
  simp only [read_batch_metadata?] at h
  rw [read_batch_metadata_eq]
  by_cases h0 : paths = []
  · rw [if_pos h0] at h
    rw [if_pos h0]
    exact Option.some_inj.mp h
  · rw [if_neg h0] at h
    rw [if_neg h0]
    rcases hS : rbmSplit cache paths with ⟨res0, unc⟩
    rw [hS] at h
    dsimp only at h ⊢
    by_cases hu : unc = []
    · rw [if_pos hu] at h
      rw [if_pos hu]
      exact Option.some_inj.mp h
    · rw [if_neg hu] at h
      rw [if_neg hu]
      rcases hw : cacheWriteBack? cache (rbmNewResult env unc) with _ | c'
      · rw [hw] at h
        exact Option.noConfusion h
      · rw [hw] at h
        have hc : c' = cacheWriteBack cache (rbmNewResult env unc) := by
          unfold cacheWriteBack? at hw
          by_cases hn : _METADATA_CACHE_MAX < (rbmNewResult env unc).length
          · rw [if_pos hn] at hw
            exact Option.noConfusion hw
          · rw [if_neg hn] at hw
            exact (Option.some_inj.mp hw).symm
        have h' := Option.some_inj.mp h
        rw [hc] at h'
        exact h'

/-- C1: the never-raises half of the claim fails on the code. On a batch of
`_METADATA_CACHE_MAX + 1` distinct fresh paths, every requested path yields
a fresh record, so the cache write-back's eviction loop — which pops one
cached entry per iteration while `len(cache) + len(new_result)` exceeds the
ceiling — drains the cache empty while its condition still holds, and
`next(iter({}))` raises `StopIteration` out of `read_batch_metadata`. The
embedding with that raising path exposed returns `none` on exactly this
input. -/
theorem c1_cache_writeback_raises :
    read_batch_metadata? envC1 [] pathsC1bug = none := by
  have h0 : pathsC1bug ≠ [] := by
    intro h
    have hl := congrArg List.length h
    rw [pathsC1bug_length] at hl
    exact absurd hl (by decide)
  obtain ⟨hinv, hcover, -, -, -⟩ :=
    rbmSplit_foldl ([] : RecMap) pathsC1bug ([], [], []) (rbmInv_nil [])
  obtain ⟨hnd', hunc, hcov, hfaith, hsrc, hknd, hks⟩ := hinv
  have hsp := rbmSplit_snd_eq ([] : RecMap) pathsC1bug
  have hnd : ((rbmSplit ([] : RecMap) pathsC1bug).2.map os_path_normpath).Nodup := by
    rw [hsp]
    exact hnd'
  have hwit : ∀ p ∈ pathsC1bug,
      ∃ u ∈ (rbmSplit ([] : RecMap) pathsC1bug).2,
        os_path_normpath u = os_path_normpath p := by
    intro p hp
    rw [hsp]
    rcases hcov (os_path_normpath p) (hcover p hp) with ⟨rec, hr⟩ | w
    · have hcc := hsrc _ rec hr
      rw [RecMap.get?_def, PyDict.get?_nil] at hcc
      exact Option.noConfusion hcc
    · exact w
  have hune : (rbmSplit ([] : RecMap) pathsC1bug).2 ≠ [] := by
    have hp0 : ("/" ++ String.mk (List.replicate 1 'a')) ∈ pathsC1bug := by
      apply List.mem_map.mpr
      exact ⟨0, List.mem_range.mpr (by decide), rfl⟩
    obtain ⟨u, hu, -⟩ := hwit _ hp0
    intro he
    rw [he] at hu
    exact List.not_mem_nil u hu
  have hsub1 : pathsC1bug ⊆
      ((rbmSplit ([] : RecMap) pathsC1bug).2.map os_path_normpath) := by
    intro p hp
    obtain ⟨u, hu, he⟩ := hwit p hp
    rw [pathsC1bug_norm p hp] at he
    exact he ▸ List.mem_map_of_mem os_path_normpath hu
  have hsub2 : ((rbmSplit ([] : RecMap) pathsC1bug).2.map os_path_normpath)
      ⊆ PyDict.keys (rbmNewResult envC1 (rbmSplit ([] : RecMap) pathsC1bug).2) := by
    intro n hn
    obtain ⟨u, hu, he⟩ := List.mem_map.mp hn
    have hS := rbmNewResult_isSome envC1 _ u hu hnd
    rw [he] at hS
    by_contra hmem
    rw [RecMap.get?_def, (PyDict.get?_eq_none_iff _ _).mpr hmem] at hS
    exact Bool.noConfusion hS
  have hgt : _METADATA_CACHE_MAX <
      (rbmNewResult envC1 (rbmSplit ([] : RecMap) pathsC1bug).2).length := by
    have h1 : pathsC1bug.length ≤
        ((rbmSplit ([] : RecMap) pathsC1bug).2.map os_path_normpath).length :=
      (List.subperm_of_subset pathsC1bug_nodup hsub1).length_le
    have h2 : ((rbmSplit ([] : RecMap) pathsC1bug).2.map os_path_normpath).length
        ≤ (PyDict.keys
            (rbmNewResult envC1 (rbmSplit ([] : RecMap) pathsC1bug).2)).length :=
      (List.subperm_of_subset hnd hsub2).length_le
    have h3 : (PyDict.keys
          (rbmNewResult envC1 (rbmSplit ([] : RecMap) pathsC1bug).2)).length
        = (rbmNewResult envC1 (rbmSplit ([] : RecMap) pathsC1bug).2).length := by
      rw [show PyDict.keys (rbmNewResult envC1 (rbmSplit ([] : RecMap) pathsC1bug).2)
          = List.map Prod.fst (rbmNewResult envC1 (rbmSplit ([] : RecMap) pathsC1bug).2)
          from rfl]
      exact List.length_map _ _
    rw [pathsC1bug_length] at h1
    omega
  exact read_batch_metadata?_none envC1 [] pathsC1bug h0 hune hgt

end Spec2Proof
